import Mathlib

/-!
# Partitioned hash join probe operator

A shallow embedding of `be/src/pipeline/exec/partitioned_hash_join_probe_operator.cpp`
and a verification of its specification.

Conventions of the embedding.

* Arrays indexed by the partition (`std::vector` of size `_partition_count`) are total
  functions `Nat → _`; every loop of the source runs over the indices below
  `_partition_count`, so the values at larger indices are never read or written.
* `uint32_t` and `size_t` indices are `Nat`: the partition count and the row count of a
  batch stay far below `2 ^ 31` (`push` allocates `_partition_count` vectors on the stack).
  The atomic `_spilling_task_count` is an `Int`, so that a decrement below zero is visible.
* The collaborators (partitioner, spill stream manager, thread pools, child operator,
  embedded join operators, memory information) are the fields of `Env`.
* Asynchronous tasks handed to a thread pool are kept in `LocalState.thread_pool` until they
  are run by `run_task`; a task captures its partition by reference, so it reads the state it
  finds when it runs.
* `LocalState.calls` is a log of the calls made, used to state which calls are (not) issued.
-/

namespace PartitionedHashJoinProbe

/-! ## Data model -/

/-- Status of a call: `OK`, or an error with its code. -/
inductive Status where
  | OK
  | Error (code : Nat)
deriving DecidableEq, Repr

/-- The test `st.ok()`. -/
def Status.ok : Status → Bool
  | Status.OK => true
  | Status.Error _ => false

/-- A row of a batch. -/
abbrev Row := Nat

/-- A row batch (`vectorized::Block`, and `vectorized::MutableBlock` for the accumulators):
its schema and its rows. -/
structure Block where
  schema : Nat
  rows : List Row
deriving DecidableEq, Repr

/-- The block `vectorized::Block block;` declared without columns. -/
def Block.new : Block := { schema := 0, rows := [] }

/-- The method `Block::clone_empty`: same schema, no rows. -/
def Block.clone_empty (b : Block) : Block := { schema := b.schema, rows := [] }

/-- The method `MutableBlock::add_rows(block, begin, end)`: appends the rows of `input` at
the given row indices, in the order of the indices. -/
def Block.add_rows (mb input : Block) (indexes : List Nat) : Block :=
  { mb with rows := mb.rows ++ indexes.map (fun i => input.rows.getD i 0) }

/-- The method `MutableBlock::to_block`, seen from the accumulator: its columns are moved
out and it is left with no rows. -/
def Block.moved_out (mb : Block) : Block := { mb with rows := [] }

/-- The method `Block::clear_column_data`. -/
def Block.clear_column_data (b : Block) : Block := { b with rows := [] }

/-- The two sides of the join. -/
inductive Side where
  | build
  | probe
deriving DecidableEq, Repr

/-- A spill stream: the blocks written to it, the number of blocks read back, and whether
`spill_eof` was called on it. -/
structure SpillStream where
  blocks : List Block
  read_index : Nat
  eof : Bool
deriving DecidableEq, Repr

/-- The stream handed out by `register_spill_stream`. -/
def SpillStream.new : SpillStream := { blocks := [], read_index := 0, eof := false }

/-- The embedded join operators of the active partition (`_runtime_state` with the sink and
probe local states): what they were fed so far. -/
structure Engine where
  build : Block
  pushed : List (Block × Bool)
  pulls : Nat
deriving DecidableEq, Repr

/-- The engine of a `_runtime_state` that was never set up. -/
def Engine.new : Engine := { build := Block.new, pushed := [], pulls := 0 }

/-- The asynchronous tasks, named by the function that submits them and the partition whose
blocks and stream they capture by reference. -/
inductive Task where
  | spill_build (i : Nat)
  | spill_probe (i : Nat)
  | recovery_build (i : Nat)
  | recovery_probe (i : Nat)
deriving DecidableEq, Repr

/-- The calls that are logged. -/
inductive Call where
  | spill_build_block (i : Nat)
  | spill_probe_blocks (i : Nat)
  | register_spill_stream (side : Side) (i : Nat)
  | submit_func (t : Task)
  | spill_block (side : Side) (i : Nat) (b : Block)
  | finish_spilling (i : Nat)
  | recovery_build_blocks_from_disk (i : Nat)
  | recovery_probe_blocks_from_disk (i : Nat)
  | read_next_block_sync (side : Side) (i : Nat)
  | child_get_block
  | push (b : Block) (eos : Bool)
  | setup_internal_operators (i : Nat)
  | sink (b : Block)
  | probe_push (b : Block) (eos : Bool)
  | probe_pull
deriving DecidableEq, Repr

/-- The local state of the operator, `PartitionedHashJoinProbeLocalState`, with the part of
the shared state it uses. -/
structure LocalState where
  /-- Field `_partitioned_blocks`: the probe accumulator of each partition. -/
  partitioned_blocks : Nat → Option Block
  /-- Field `_probe_blocks`: the queue of finalized probe batches of each partition. -/
  probe_blocks : Nat → List Block
  /-- Field `_probe_spilling_streams`. -/
  probe_spilling_streams : Nat → Option SpillStream
  /-- Field `_shared_state->partitioned_build_blocks`: the build accumulators. -/
  partitioned_build_blocks : Nat → Option Block
  /-- Field `_shared_state->spilled_streams`: the build spill streams. -/
  spilled_streams : Nat → Option SpillStream
  /-- Field `_spilling_task_count`: the outstanding-I/O counter. -/
  spilling_task_count : Int
  /-- Fields `_spill_status_ok` and `_spill_status`: the sticky failure cell. -/
  spill_status_ok : Bool
  spill_status : Status
  /-- Field `_dependency`: true after `block()`, false after `set_ready()`. -/
  dependency_blocked : Bool
  /-- Field `_partition_cursor`. -/
  partition_cursor : Nat
  /-- Field `_need_to_setup_internal_operators`. -/
  need_to_setup_internal_operators : Bool
  /-- Fields `_child_eos` and `_child_block`. -/
  child_eos : Bool
  child_block : Block
  /-- Field `_runtime_state`: the embedded operators, absent before the first setup. -/
  runtime_state : Option Engine
  /-- The tasks accepted by a thread pool and not run yet. -/
  thread_pool : List Task
  /-- The number of batches fetched from the child operator. -/
  fetched : Nat
  /-- The log of calls, oldest first. -/
  calls : List Call

/-- The collaborators of the operator. -/
structure Env where
  /-- Calls `_partitioner->do_partitioning` and `_partitioner->get_channel_ids` on a batch. -/
  do_partitioning : Block → Status
  get_channel_ids : Block → List Nat
  /-- Calls `register_spill_stream` and `prepare_spill` for the stream of a side of a partition. -/
  register_spill_stream : Side → Nat → Status
  prepare_spill : Side → Nat → Status
  /-- Call `submit_func` of the thread pool, for a task. -/
  submit_func : Task → Status
  /-- Call `spill_block` on the stream of a side of a partition. -/
  spill_block : Side → Nat → Block → Status
  /-- Call `spill_eof` on the stream of a side of a partition. -/
  spill_eof : Side → Nat → Status
  /-- Status of `read_next_block_sync` on the stream of a side of a partition, by the
  number of blocks read from it before. -/
  read_status : Side → Nat → Nat → Status
  /-- Call `MutableBlock::merge`. -/
  merge : Block → Block → Status
  /-- The comparison of `sys_mem_available` with the warning water mark times its
  multiplier, `min_revocable_mem` and `allocated_bytes`. -/
  sys_mem_below_water_mark : Bool
  min_revocable_mem : Nat
  allocated_bytes : Block → Nat
  /-- Call `_child_x->get_block_after_projects`, by the number of batches fetched before. -/
  get_block_after_projects : Nat → Status × Block × Bool
  /-- The embedded operators: set-up and `sink`, `need_more_input_data`, `push`, `pull`. -/
  setup_status : Nat → Status
  sink : Block → Status
  probe_need_more_input_data : Engine → Bool
  probe_push : Engine → Block → Bool → Status
  probe_pull : Engine → Status × Block × Bool

/-- Assignment `a[i] = v` on an array. -/
def setAt {α : Type} (a : Nat → α) (i : Nat) (v : α) : Nat → α :=
  fun j => if j = i then v else a j

/-- Appends a call to the log. -/
def LocalState.log (s : LocalState) (c : Call) : LocalState :=
  { s with calls := s.calls ++ [c] }

/-! ## `push` -/

/-- The flush threshold of `push`, in rows. -/
def flush_threshold : Nat := 2 * 1024 * 1024

/-- The first loop of `push`: `partition_indexes[channel_ids[i]].emplace_back(i)` for
every row `i`. -/
def partition_indexes (channel_ids : List Nat) (rows : Nat) : Nat → List Nat :=
  (List.range rows).foldl
    (fun acc i => setAt acc (channel_ids.getD i 0) (acc (channel_ids.getD i 0) ++ [i]))
    (fun _ => [])

/-- Moves the accumulator `mb` of partition `i` to the back of its queue and resets it:
`_probe_blocks[i].emplace_back(partitioned_blocks[i]->to_block()); partitioned_blocks[i].reset()`. -/
def flush_partition (s : LocalState) (i : Nat) (mb : Block) : LocalState :=
  { s with
    probe_blocks := setAt s.probe_blocks i (s.probe_blocks i ++ [mb])
    partitioned_blocks := setAt s.partitioned_blocks i none }

/-- The body of the loop of `push` for a batch without rows at end of stream. -/
def push_eos_step (s : LocalState) (i : Nat) : LocalState :=
  match s.partitioned_blocks i with
  | some mb => if mb.rows.length ≠ 0 then flush_partition s i mb else s
  | none => s

/-- The body of the second loop of `push` (the shuffle) for partition `i`. -/
def push_shuffle_step (input : Block) (eos : Bool) (indexes : Nat → List Nat)
    (s : LocalState) (i : Nat) : LocalState :=
  if (indexes i).length = 0 then s
  else
    let mb := match s.partitioned_blocks i with
      | some mb => mb
      | none => input.clone_empty
    let mb := mb.add_rows input (indexes i)
    if mb.rows.length > flush_threshold ∨ (eos = true ∧ mb.rows.length > 0) then
      flush_partition s i mb
    else
      { s with partitioned_blocks := setAt s.partitioned_blocks i (some mb) }

/-- The function `PartitionedHashJoinProbeOperatorX::push`, without the log. -/
def push_body (env : Env) (N : Nat) (input : Block) (eos : Bool) (s : LocalState) :
    Status × LocalState :=
  if input.rows.length = 0 then
    if eos then (Status.OK, (List.range N).foldl push_eos_step s)
    else (Status.OK, s)
  else
    match env.do_partitioning input with
    | Status.Error c => (Status.Error c, s)
    | Status.OK =>
      let indexes := partition_indexes (env.get_channel_ids input) input.rows.length
      (Status.OK, (List.range N).foldl (push_shuffle_step input eos indexes) s)

/-- The function `PartitionedHashJoinProbeOperatorX::push`. -/
def push (env : Env) (N : Nat) (input : Block) (eos : Bool) (s : LocalState) :
    Status × LocalState :=
  push_body env N input eos (s.log (Call.push input eos))

/-- The probe rows held for partition `p`: the rows of its queued batches, oldest batch
first, followed by the rows of its accumulator. -/
def held_rows (s : LocalState) (p : Nat) : List Row :=
  (s.probe_blocks p).flatMap Block.rows ++
    (match s.partitioned_blocks p with
     | some mb => mb.rows
     | none => [])

/-- The number of probe rows held across the partitions `0 .. N-1`. -/
def total_held_rows (N : Nat) (s : LocalState) : Nat :=
  ((List.range N).map (fun p => (held_rows s p).length)).sum

/-- The rows of the accumulator of partition `p` (none when it is absent). -/
def accumulator_rows (s : LocalState) (p : Nat) : List Row :=
  match s.partitioned_blocks p with
  | some mb => mb.rows
  | none => []

/-- The rows of `input` assigned to partition `p` by `channel_ids`, in input order. -/
def assigned_rows (channel_ids : List Nat) (input : Block) (p : Nat) : List Row :=
  ((List.range input.rows.length).filter (fun i => channel_ids.getD i 0 = p)).map
    (fun i => input.rows.getD i 0)

/-- A state with nothing buffered, queued or spilled, the cursor at partition 0 and the
gate ready. -/
def empty_state : LocalState :=
  { partitioned_blocks := fun _ => none
    probe_blocks := fun _ => []
    probe_spilling_streams := fun _ => none
    partitioned_build_blocks := fun _ => none
    spilled_streams := fun _ => none
    spilling_task_count := 0
    spill_status_ok := true
    spill_status := Status.OK
    dependency_blocked := false
    partition_cursor := 0
    need_to_setup_internal_operators := true
    child_eos := false
    child_block := Block.new
    runtime_state := none
    thread_pool := []
    fetched := 0
    calls := [] }

/-- An environment in which every collaborator succeeds, rows are assigned to partitions
round robin over four partitions, and the embedded join is done after one `pull`. -/
def ok_env : Env :=
  { do_partitioning := fun _ => Status.OK
    get_channel_ids := fun b => (List.range b.rows.length).map (fun i => i % 4)
    register_spill_stream := fun _ _ => Status.OK
    prepare_spill := fun _ _ => Status.OK
    submit_func := fun _ => Status.OK
    spill_block := fun _ _ _ => Status.OK
    spill_eof := fun _ _ => Status.OK
    read_status := fun _ _ _ => Status.OK
    merge := fun _ _ => Status.OK
    sys_mem_below_water_mark := false
    min_revocable_mem := 0
    allocated_bytes := fun b => b.rows.length
    get_block_after_projects := fun _ => (Status.OK, Block.new, true)
    setup_status := fun _ => Status.OK
    sink := fun _ => Status.OK
    probe_need_more_input_data := fun e => decide (e.pushed.length ≤ e.pulls)
    probe_push := fun _ _ _ => Status.OK
    probe_pull := fun _ => (Status.OK, Block.new, true) }

/-- The batch of Scenario A: eight rows `10 .. 17`. -/
def scenario_a_batch : Block := { schema := 1, rows := [10, 11, 12, 13, 14, 15, 16, 17] }

/-- An environment whose partitioner sends every row to partition 1. -/
def env_all_to_one : Env := { ok_env with get_channel_ids := fun b => b.rows.map (fun _ => 1) }

/-- A state whose partition 0 has one row buffered in its probe accumulator. -/
def state_one_buffered : LocalState :=
  { empty_state with
    partitioned_blocks := setAt empty_state.partitioned_blocks 0 (some { schema := 1, rows := [7] }) }

/-- What `push` reads and writes of partition `p`: its accumulator and its queue. -/
def probe_view (s : LocalState) (p : Nat) : Option Block × List Block :=
  (s.partitioned_blocks p, s.probe_blocks p)

/-! ## Spilling -/

/-- Assignment of the build accumulator of partition `i`. -/
def set_build_block (s : LocalState) (i : Nat) (v : Option Block) : LocalState :=
  { s with partitioned_build_blocks := setAt s.partitioned_build_blocks i v }

/-- Assignment of the queue of probe batches of partition `i`. -/
def set_probe_blocks (s : LocalState) (i : Nat) (v : List Block) : LocalState :=
  { s with probe_blocks := setAt s.probe_blocks i v }

/-- The call `_dependency->set_ready()`. -/
def set_ready (s : LocalState) : LocalState := { s with dependency_blocked := false }

/-- The call `_dependency->block()`. -/
def block (s : LocalState) : LocalState := { s with dependency_blocked := true }

/-- The statement `--_spilling_task_count`. -/
def dec_task_count (s : LocalState) : LocalState :=
  { s with spilling_task_count := s.spilling_task_count - 1 }

/-- The statement `++_spilling_task_count`. -/
def inc_task_count (s : LocalState) : LocalState :=
  { s with spilling_task_count := s.spilling_task_count + 1 }

/-- The statement `if (_spilling_task_count == 0) _dependency->set_ready()`. -/
def ready_if_zero (s : LocalState) : LocalState :=
  if s.spilling_task_count = 0 then set_ready s else s

/-- Records a failure in the sticky failure cell:
`_spill_status_ok = false; _spill_status = std::move(st)`. -/
def set_spill_status (s : LocalState) (st : Status) : LocalState :=
  { s with spill_status_ok := false, spill_status := st }

/-- The streams of a side. -/
def streams (s : LocalState) (side : Side) : Nat → Option SpillStream :=
  match side with
  | Side.build => s.spilled_streams
  | Side.probe => s.probe_spilling_streams

/-- Assignment of the stream of partition `i` of a side. -/
def set_stream (s : LocalState) (side : Side) (i : Nat) (st : Option SpillStream) :
    LocalState :=
  match side with
  | Side.build => { s with spilled_streams := setAt s.spilled_streams i st }
  | Side.probe => { s with probe_spilling_streams := setAt s.probe_spilling_streams i st }

/-- The block `if (!stream) { RETURN_IF_ERROR(register_spill_stream(..., stream, ...));
RETURN_IF_ERROR(stream->prepare_spill()); }` at the head of both spill functions. -/
def open_spill_stream (env : Env) (side : Side) (i : Nat) (s : LocalState) :
    Status × LocalState :=
  match streams s side i with
  | some _ => (Status.OK, s)
  | none =>
    match env.register_spill_stream side i with
    | Status.Error c => (Status.Error c, s.log (Call.register_spill_stream side i))
    | Status.OK =>
      (env.prepare_spill side i,
        set_stream (s.log (Call.register_spill_stream side i)) side i (some SpillStream.new))

/-- The call `spill_io_pool->submit_func(task)`: an accepted task waits in the pool. -/
def submit_func (env : Env) (t : Task) (s : LocalState) : Status × LocalState :=
  match env.submit_func t with
  | Status.OK =>
    (Status.OK, { s.log (Call.submit_func t) with thread_pool := s.thread_pool ++ [t] })
  | Status.Error c => (Status.Error c, s.log (Call.submit_func t))

/-- The call `stream->spill_block(block, false)` on the stream of partition `i` of a side:
a block written is appended to the stream. -/
def spill_block (env : Env) (side : Side) (i : Nat) (b : Block) (s : LocalState) :
    Status × LocalState :=
  match env.spill_block side i b with
  | Status.OK =>
    (Status.OK, set_stream (s.log (Call.spill_block side i b)) side i
      ((streams s side i).map (fun st => { st with blocks := st.blocks ++ [b] })))
  | Status.Error c => (Status.Error c, s.log (Call.spill_block side i b))

/-- The test `!mutable_block || mutable_block->rows() == 0` on a build accumulator. -/
def build_block_empty (s : LocalState) (i : Nat) : Bool :=
  match s.partitioned_build_blocks i with
  | some mb => decide (mb.rows.length = 0)
  | none => true

/-- The function `PartitionedHashJoinProbeLocalState::spill_build_block`. -/
def spill_build_block (env : Env) (i : Nat) (s : LocalState) : Status × LocalState :=
  let s := s.log (Call.spill_build_block i)
  if build_block_empty s i then (Status.OK, dec_task_count s)
  else
    match open_spill_stream env Side.build i s with
    | (Status.Error c, s1) => (Status.Error c, s1)
    | (Status.OK, s1) => submit_func env (Task.spill_build i) s1

/-- The function `PartitionedHashJoinProbeLocalState::spill_probe_blocks`. -/
def spill_probe_blocks (env : Env) (i : Nat) (s : LocalState) : Status × LocalState :=
  let s := s.log (Call.spill_probe_blocks i)
  match open_spill_stream env Side.probe i s with
  | (Status.Error c, s1) => (Status.Error c, s1)
  | (Status.OK, s1) =>
    if (s1.probe_blocks i).length ≠ 0 then submit_func env (Task.spill_probe i) s1
    else (Status.OK, ready_if_zero (dec_task_count s1))

/-- The task submitted by `spill_build_block` for partition `i`; `entered` is the value
that the task read from `_spill_status_ok` in its test `if (_spill_status_ok)`. -/
def spill_build_task (env : Env) (i : Nat) (entered : Bool) (s : LocalState) : LocalState :=
  let s1 :=
    if entered then
      let build_block := (s.partitioned_build_blocks i).getD Block.new
      let s0 := set_build_block s i ((s.partitioned_build_blocks i).map Block.moved_out)
      match spill_block env Side.build i build_block s0 with
      | (Status.Error c, s2) => set_spill_status s2 (Status.Error c)
      | (Status.OK, s2) => s2
    else s
  ready_if_zero (dec_task_count s1)

/-- The loop `for (auto& block : blocks)` of the task submitted by `spill_probe_blocks`. -/
def spill_probe_loop (env : Env) (i : Nat) : List Block → LocalState → LocalState
  | [], s => s
  | b :: bs, s =>
    if s.spill_status_ok then
      match spill_block env Side.probe i b s with
      | (Status.Error c, s1) => set_spill_status s1 (Status.Error c)
      | (Status.OK, s1) => spill_probe_loop env i bs s1
    else s

/-- The task submitted by `spill_probe_blocks` for partition `i`. -/
def spill_probe_task (env : Env) (i : Nat) (s : LocalState) : LocalState :=
  let s1 := spill_probe_loop env i (s.probe_blocks i) s
  let s2 := set_probe_blocks s1 i []
  ready_if_zero (dec_task_count s2)

/-- The function `PartitionedHashJoinProbeLocalState::finish_spilling`. -/
def finish_spilling (env : Env) (i : Nat) (s : LocalState) : Status × LocalState :=
  let s := s.log (Call.finish_spilling i)
  let r1 : Status × LocalState :=
    match s.spilled_streams i with
    | some st => (env.spill_eof Side.build i,
        set_stream s Side.build i (some { st with eof := true }))
    | none => (Status.OK, s)
  match r1 with
  | (Status.Error c, s1) => (Status.Error c, s1)
  | (Status.OK, s1) =>
    match s1.probe_spilling_streams i with
    | some st => (env.spill_eof Side.probe i,
        set_stream s1 Side.probe i (some { st with eof := true }))
    | none => (Status.OK, s1)

/-! ## Recovery -/

/-- Modelled from the spec: the reader of a spill stream, which is not part of this file's
source (`stream.read_next(batch_out) -> (status, end_of_stream)`). A read that fails
returns no block; a read at a block written returns that block; the read after the last
block returns a block without rows and reports end of stream (in Scenario C of the spec the
call that follows the reads of the three batches is the one that deletes the stream). -/
def read_next_block_sync (env : Env) (side : Side) (i : Nat) (st : SpillStream) :
    Status × Block × Bool × SpillStream :=
  match env.read_status side i st.read_index with
  | Status.Error c => (Status.Error c, Block.new, false, st)
  | Status.OK =>
    match st.blocks.get? st.read_index with
    | some b => (Status.OK, b, false, { st with read_index := st.read_index + 1 })
    | none => (Status.OK, Block.new, true, st)

/-- The loop `while (!eos)` of the task of `recovery_build_blocks_from_disk`; `fuel` bounds
the number of reads. -/
def recovery_build_loop (env : Env) (i : Nat) : Nat → LocalState → LocalState
  | 0, s => s
  | fuel + 1, s =>
    match s.spilled_streams i with
    | none => s
    | some st =>
      match read_next_block_sync env Side.build i st with
      | (Status.Error c, _, _, st1) =>
        set_spill_status
          ((set_stream s Side.build i (some st1)).log (Call.read_next_block_sync Side.build i))
          (Status.Error c)
      | (Status.OK, blk, eos, st1) =>
        let s1 := (set_stream s Side.build i (some st1)).log
          (Call.read_next_block_sync Side.build i)
        if blk.rows.length = 0 then
          if eos then s1 else recovery_build_loop env i fuel s1
        else
          match s1.partitioned_build_blocks i with
          | some mb =>
            if mb.rows.length = 0 then
              let s2 := set_build_block s1 i (some blk)
              if eos then s2 else recovery_build_loop env i fuel s2
            else
              match env.merge mb blk with
              | Status.Error c => set_spill_status s1 (Status.Error c)
              | Status.OK =>
                let s2 := set_build_block s1 i (some { mb with rows := mb.rows ++ blk.rows })
                if eos then s2 else recovery_build_loop env i fuel s2
          | none =>
            let s2 := set_build_block s1 i (some blk)
            if eos then s2 else recovery_build_loop env i fuel s2

/-- The number of reads that exhaust a stream: its unread blocks, and the read that reports
the end of the stream. -/
def reads_left (st : Option SpillStream) : Nat :=
  match st with
  | some st => st.blocks.length - st.read_index + 1
  | none => 0

/-- The task submitted by `recovery_build_blocks_from_disk` for partition `i`. -/
def recovery_build_task (env : Env) (i : Nat) (s : LocalState) : LocalState :=
  let s1 := recovery_build_loop env i (reads_left (s.spilled_streams i)) s
  let s2 := set_stream s1 Side.build i none
  dec_task_count (set_ready s2)

/-- The task submitted by `recovery_probe_blocks_from_disk` for partition `i`. -/
def recovery_probe_task (env : Env) (i : Nat) (s : LocalState) : LocalState :=
  match s.probe_spilling_streams i with
  | none => dec_task_count (set_ready s)
  | some st =>
    match read_next_block_sync env Side.probe i st with
    | (Status.Error c, _, eos, st1) =>
      let s1 := set_spill_status
        ((set_stream s Side.probe i (some st1)).log (Call.read_next_block_sync Side.probe i))
        (Status.Error c)
      let s2 := if eos then set_stream s1 Side.probe i none else s1
      dec_task_count (set_ready s2)
    | (Status.OK, blk, eos, st1) =>
      let s1 := (set_stream s Side.probe i (some st1)).log
        (Call.read_next_block_sync Side.probe i)
      let s2 := set_probe_blocks s1 i (s1.probe_blocks i ++ [blk])
      let s3 := if eos then set_stream s2 Side.probe i none else s2
      dec_task_count (set_ready s3)

/-- The function `PartitionedHashJoinProbeLocalState::recovery_build_blocks_from_disk`;
the second component is `has_data`. -/
def recovery_build_blocks_from_disk (env : Env) (i : Nat) (s : LocalState) :
    Status × Bool × LocalState :=
  let s := s.log (Call.recovery_build_blocks_from_disk i)
  match s.spilled_streams i with
  | none => (Status.OK, false, s)
  | some _ =>
    match submit_func env (Task.recovery_build i) (inc_task_count (block s)) with
    | (Status.Error c, s1) => (Status.Error c, true, dec_task_count s1)
    | (Status.OK, s1) => (Status.OK, true, s1)

/-- The function `PartitionedHashJoinProbeLocalState::recovery_probe_blocks_from_disk`;
the second component is `has_data`. -/
def recovery_probe_blocks_from_disk (env : Env) (i : Nat) (s : LocalState) :
    Status × Bool × LocalState :=
  let s := s.log (Call.recovery_probe_blocks_from_disk i)
  match s.probe_spilling_streams i with
  | none => (Status.OK, false, s)
  | some _ =>
    match submit_func env (Task.recovery_probe i) (inc_task_count (block s)) with
    | (Status.Error c, s1) => (Status.Error c, true, dec_task_count s1)
    | (Status.OK, s1) => (Status.OK, true, s1)

/-- A task of the pool, run from its start to its end without another task or the pipeline
thread in between. -/
def run_task (env : Env) (t : Task) (s : LocalState) : LocalState :=
  match t with
  | Task.spill_build i => spill_build_task env i s.spill_status_ok s
  | Task.spill_probe i => spill_probe_task env i s
  | Task.recovery_build i => recovery_build_task env i s
  | Task.recovery_probe i => recovery_probe_task env i s

/-! ## Revocation -/

/-- The partitions of the loop `for (i = _partition_cursor + 1; i < _partition_count; ++i)`. -/
def partitions_ahead (N cursor : Nat) : List Nat := List.range' (cursor + 1) (N - (cursor + 1))

/-- The function `PartitionedHashJoinProbeOperatorX::revocable_mem_size`. -/
def revocable_mem_size (env : Env) (N : Nat) (s : LocalState) : Nat :=
  (partitions_ahead N s.partition_cursor).foldl
    (fun mem_size i =>
      let mem_size :=
        match s.partitioned_build_blocks i with
        | some mb => if mb.rows.length > 0 then mem_size + env.allocated_bytes mb else mem_size
        | none => mem_size
      (s.probe_blocks i).foldl (fun m b => m + env.allocated_bytes b) mem_size)
    0

/-- The function `PartitionedHashJoinProbeOperatorX::_should_revoke_memory`. -/
def _should_revoke_memory (env : Env) (N : Nat) (s : LocalState) : Bool :=
  if env.sys_mem_below_water_mark then
    decide (env.min_revocable_mem > 0) && decide (revocable_mem_size env N s > env.min_revocable_mem)
  else false

/-- The loop of `_revoke_memory` over the partitions ahead of the cursor, left at the
first call that returns an error. -/
def revoke_loop (env : Env) : List Nat → LocalState → Status × LocalState
  | [], s => (Status.OK, s)
  | i :: rest, s =>
    match spill_build_block env i s with
    | (Status.Error c, s1) => (Status.Error c, s1)
    | (Status.OK, s1) =>
      match spill_probe_blocks env i s1 with
      | (Status.Error c, s2) => (Status.Error c, s2)
      | (Status.OK, s2) => revoke_loop env rest s2

/-- The end of `_revoke_memory`: `if (_spilling_task_count > 0) { _dependency->block();
wait_for_io = true; }`; the second component is `wait_for_io`. -/
def revoke_wait (s : LocalState) : Status × Bool × LocalState :=
  if s.spilling_task_count > 0 then (Status.OK, true, block s) else (Status.OK, false, s)

/-- The function `PartitionedHashJoinProbeOperatorX::_revoke_memory`, when no task of the
pool runs before it returns; the second component is `wait_for_io`. The product that sets
the counter is taken in the natural numbers: it is the `uint32_t` product of the code as
long as `N - cursor - 1 < 2 ^ 31`. -/
def _revoke_memory (env : Env) (N : Nat) (s : LocalState) : Status × Bool × LocalState :=
  if N > s.partition_cursor + 1 then
    let s0 := { s with spilling_task_count := ((N - s.partition_cursor - 1) * 2 : Nat) }
    match revoke_loop env (partitions_ahead N s.partition_cursor) s0 with
    | (Status.Error c, s1) => (Status.Error c, false, s1)
    | (Status.OK, s1) => revoke_wait s1
  else (Status.OK, false, s)

/-- The calls of `spill_build_block` and `spill_probe_blocks` in a log. -/
def spill_calls (calls : List Call) : List Call :=
  calls.filter (fun c =>
    match c with
    | Call.spill_build_block _ => true
    | Call.spill_probe_blocks _ => true
    | _ => false)

/-! ## `pull` and `get_block` -/

/-- The call `_probe_operator->push(runtime_state, &block, eos)` on the embedded probe
operator. -/
def probe_push (env : Env) (b : Block) (eos : Bool) (s : LocalState) : Status × LocalState :=
  let eng := s.runtime_state.getD Engine.new
  let s1 := s.log (Call.probe_push b eos)
  (env.probe_push eng b eos,
    { s1 with runtime_state := some { eng with pushed := eng.pushed ++ [(b, eos)] } })

/-- The call `_probe_operator->pull(runtime_state, output_block, &in_mem_eos_)` on the
embedded probe operator: status, output block, `in_mem_eos_`, state. -/
def probe_pull (env : Env) (s : LocalState) : Status × Block × Bool × LocalState :=
  let eng := s.runtime_state.getD Engine.new
  let s1 := s.log Call.probe_pull
  ((env.probe_pull eng).1, (env.probe_pull eng).2.1, (env.probe_pull eng).2.2,
    { s1 with runtime_state := some { eng with pulls := eng.pulls + 1 } })

/-- The function `PartitionedHashJoinProbeOperatorX::_setup_internal_operators`: a fresh
runtime state with the local states of the embedded operators, and the build rows of the
partition of the cursor fed to the sink. -/
def _setup_internal_operators (env : Env) (s : LocalState) : Status × LocalState :=
  let s0 := s.log (Call.setup_internal_operators s.partition_cursor)
  let s1 := { s0 with runtime_state := some Engine.new }
  match env.setup_status s.partition_cursor with
  | Status.Error c => (Status.Error c, s1)
  | Status.OK =>
    let taken : Block × LocalState :=
      match s1.partitioned_build_blocks s1.partition_cursor with
      | some mb =>
        if mb.rows.length > 0 then (mb, set_build_block s1 s1.partition_cursor none)
        else (Block.new, s1)
      | none => (Block.new, s1)
    let s2 := taken.2.log (Call.sink taken.1)
    (env.sink taken.1, { s2 with runtime_state := some { Engine.new with build := taken.1 } })

/-- The loop `while (_probe_operator->need_more_input_data(runtime_state))` of `pull` for
partition `i`; `queue` is the queue `_probe_blocks[i]` from its back to its front. The first
component is the status with which `pull` returns from inside the loop, or none when the
loop is left; the second is `*eos`. -/
def pull_feed_loop (env : Env) (i : Nat) :
    List Block → Bool → LocalState → Option Status × Bool × LocalState
  | queue, eos, s =>
    if env.probe_need_more_input_data (s.runtime_state.getD Engine.new) then
      match queue with
      | [] =>
        match recovery_probe_blocks_from_disk env i s with
        | (Status.Error c, _, s1) => (some (Status.Error c), false, s1)
        | (Status.OK, true, s1) => (some Status.OK, false, s1)
        | (Status.OK, false, s1) =>
          match probe_push env Block.new true s1 with
          | (Status.Error c, s2) => (some (Status.Error c), false, s2)
          | (Status.OK, s2) => (none, false, s2)
      | b :: rest =>
        match probe_push env b false (set_probe_blocks s i rest.reverse) with
        | (Status.Error c, s1) => (some (Status.Error c), eos, s1)
        | (Status.OK, s1) => pull_feed_loop env i rest eos s1
    else (none, eos, s)

/-- The end of `pull`, from `_probe_operator->pull` on: status, output block, `*eos`,
state. -/
def pull_output (env : Env) (N : Nat) (eos : Bool) (s : LocalState) :
    Status × Block × Bool × LocalState :=
  match probe_pull env s with
  | (Status.Error c, out, _, s1) => (Status.Error c, out, eos, s1)
  | (Status.OK, out, false, s1) => (Status.OK, out, false, s1)
  | (Status.OK, out, true, s1) =>
    let s2 := { s1 with partition_cursor := s1.partition_cursor + 1 }
    if s2.partition_cursor = N then (Status.OK, out, true, s2)
    else
      match finish_spilling env s2.partition_cursor s2 with
      | (Status.Error c, s3) => (Status.Error c, out, false, s3)
      | (Status.OK, s3) =>
        (Status.OK, out, false, { s3 with need_to_setup_internal_operators := true })

/-- The part of `pull` after the set-up: the feeding loop and the output. -/
def pull_join (env : Env) (N : Nat) (output_block : Block) (eos : Bool) (s : LocalState) :
    Status × Block × Bool × LocalState :=
  match pull_feed_loop env s.partition_cursor (s.probe_blocks s.partition_cursor).reverse
      eos s with
  | (some st, eos1, s1) => (st, output_block, eos1, s1)
  | (none, eos1, s1) => pull_output env N eos1 s1

/-- The part of `pull` after the revocation: the set-up of the embedded operators when it is
due, then the join. The `CHECK_EQ` on the gate, which aborts the process when the gate is
blocked, is left out. -/
def pull_setup (env : Env) (N : Nat) (output_block : Block) (eos : Bool) (s : LocalState) :
    Status × Block × Bool × LocalState :=
  if s.need_to_setup_internal_operators then
    match recovery_build_blocks_from_disk env s.partition_cursor s with
    | (Status.Error c, _, s1) => (Status.Error c, output_block, false, s1)
    | (Status.OK, true, s1) => (Status.OK, output_block, false, s1)
    | (Status.OK, false, s1) =>
      match _setup_internal_operators env s1 with
      | (Status.Error c, s2) => (Status.Error c, output_block, false, s2)
      | (Status.OK, s2) =>
        pull_join env N output_block false { s2 with need_to_setup_internal_operators := false }
  else pull_join env N output_block eos s

/-- The function `PartitionedHashJoinProbeOperatorX::pull`; `output_block` and `eos` are the
values of `*output_block` and `*eos` at the call, and the result is the status, the values
of `*output_block` and `*eos` at the return, and the state. -/
def pull (env : Env) (N : Nat) (output_block : Block) (eos : Bool) (s : LocalState) :
    Status × Block × Bool × LocalState :=
  if !s.spill_status_ok then (s.spill_status, output_block, eos, s)
  else if _should_revoke_memory env N s then
    match _revoke_memory env N s with
    | (Status.Error c, _, s1) => (Status.Error c, output_block, eos, s1)
    | (Status.OK, true, s1) => (Status.OK, output_block, eos, s1)
    | (Status.OK, false, s1) => pull_setup env N output_block eos s1
  else pull_setup env N output_block eos s

/-- The function `PartitionedHashJoinProbeOperatorX::need_more_input_data`. -/
def need_more_input_data (s : LocalState) : Bool := !s.child_eos

/-- The call `_child_x->get_block_after_projects(state, _child_block, &_child_eos)`. -/
def child_get_block (env : Env) (s : LocalState) : Status × LocalState :=
  let s1 := s.log Call.child_get_block
  ((env.get_block_after_projects s.fetched).1,
    { s1 with
      child_block := (env.get_block_after_projects s.fetched).2.1
      child_eos := (env.get_block_after_projects s.fetched).2.2
      fetched := s.fetched + 1 })

/-- The part of `get_block` from the fetch of the next batch of the child to the `push`.
The first component is the status with which `get_block` returns from inside this part, or
none when it goes on. -/
def get_block_fetch (env : Env) (N : Nat) (s : LocalState) : Option Status × LocalState :=
  match child_get_block env s with
  | (Status.Error c, s1) => (some (Status.Error c), s1)
  | (Status.OK, s1) =>
    let r : Option Status × LocalState :=
      if s1.child_eos then
        match finish_spilling env 0 s1 with
        | (Status.Error c, s2) => (some (Status.Error c), s2)
        | (Status.OK, s2) => (none, s2)
      else if s1.child_block.rows.length = 0 then (some Status.OK, s1)
      else (none, s1)
    match r with
    | (some st, s2) => (some st, s2)
    | (none, s2) =>
      match push env N s2.child_block s2.child_eos s2 with
      | (Status.Error c, s3) => (some (Status.Error c), s3)
      | (Status.OK, s3) => (none, s3)

/-- The block `if (need_more_input_data(state)) { ... }` of `get_block`. -/
def get_block_ingest (env : Env) (N : Nat) (s : LocalState) : Option Status × LocalState :=
  let s0 := { s with child_block := s.child_block.clear_column_data }
  if _should_revoke_memory env N s0 then
    match _revoke_memory env N s0 with
    | (Status.Error c, _, s1) => (some (Status.Error c), s1)
    | (Status.OK, true, s1) => (some Status.OK, s1)
    | (Status.OK, false, s1) => get_block_fetch env N s1
  else get_block_fetch env N s0

/-- The function `PartitionedHashJoinProbeOperatorX::get_block`: status, `*block`, `*eos`,
state. -/
def get_block (env : Env) (N : Nat) (block : Block) (s : LocalState) :
    Status × Block × Bool × LocalState :=
  let r : Option Status × LocalState :=
    if need_more_input_data s then get_block_ingest env N s else (none, s)
  match r with
  | (some st, s1) => (st, block, false, s1)
  | (none, s1) =>
    if !need_more_input_data s1 then pull env N block false s1
    else (Status.OK, block, false, s1)

/-- The spill calls of `_revoke_memory` for the partitions `l`, in the order of the loop. -/
def revoke_calls (l : List Nat) : List Call :=
  l.flatMap (fun i => [Call.spill_build_block i, Call.spill_probe_blocks i])

/-! ### `_revoke_memory` with the tasks of the pool running in between

The pipeline thread runs `_revoke_memory` call by call; between two of its steps, and after
it returned, any task waiting in the pool may run, from its start to its end. -/

/-- The calls of the loop of `_revoke_memory`. -/
inductive RevokeOp where
  | spill_build_block (i : Nat)
  | spill_probe_blocks (i : Nat)
deriving DecidableEq, Repr

/-- The calls of the loop of `_revoke_memory` for the partitions `l`, in order. -/
def revoke_ops (l : List Nat) : List RevokeOp :=
  l.flatMap (fun i => [RevokeOp.spill_build_block i, RevokeOp.spill_probe_blocks i])

/-- A call of `_revoke_memory` in progress: the state, the calls of the loop still to make,
whether the function returned, and its results `status` and `wait_for_io`. -/
structure RevokeRun where
  state : LocalState
  todo : List RevokeOp
  returned : Bool
  status : Status
  wait_for_io : Bool

/-- The call of `_revoke_memory` after its first statement, which sets the counter, for
`_partition_count > _partition_cursor + 1`. -/
def revoke_start (N : Nat) (s : LocalState) : RevokeRun :=
  { state := { s with spilling_task_count := ((N - s.partition_cursor - 1) * 2 : Nat) }
    todo := revoke_ops (partitions_ahead N s.partition_cursor)
    returned := false
    status := Status.OK
    wait_for_io := false }

/-- The result of a spill call inside the loop: an error makes `_revoke_memory` return. -/
def revoke_after_call (r : RevokeRun) (rest : List RevokeOp) (res : Status × LocalState) :
    RevokeRun :=
  match res with
  | (Status.OK, s1) => { r with state := s1, todo := rest }
  | (Status.Error c, s1) =>
    { state := s1, todo := [], returned := true, status := Status.Error c, wait_for_io := false }

/-- The next step of the pipeline thread in `_revoke_memory`: the next call of the loop, or
after the loop the test of the counter and the return. -/
def thread_step (env : Env) (r : RevokeRun) : Option RevokeRun :=
  if r.returned then none
  else
    match r.todo with
    | RevokeOp.spill_build_block i :: rest =>
      some (revoke_after_call r rest (spill_build_block env i r.state))
    | RevokeOp.spill_probe_blocks i :: rest =>
      some (revoke_after_call r rest (spill_probe_blocks env i r.state))
    | [] =>
      some { state := (revoke_wait r.state).2.2, todo := [], returned := true,
             status := (revoke_wait r.state).1, wait_for_io := (revoke_wait r.state).2.1 }

/-- A thread of the pool takes the `k`-th waiting task and runs it. -/
def task_step (env : Env) (k : Nat) (r : RevokeRun) : Option RevokeRun :=
  match r.state.thread_pool[k]? with
  | none => none
  | some t =>
    let s := { r.state with thread_pool := r.state.thread_pool.eraseIdx k }
    some { r with state := run_task env t s }

/-- What happens next: the pipeline thread makes its next step, or the `k`-th waiting task
runs. -/
inductive Event where
  | thread
  | task (k : Nat)
deriving DecidableEq, Repr

/-- One event. -/
def run_event (env : Env) (r : RevokeRun) : Event → Option RevokeRun
  | Event.thread => thread_step env r
  | Event.task k => task_step env k r

/-- A sequence of events, none when one of them cannot happen. -/
def run_events (env : Env) : List Event → RevokeRun → Option RevokeRun
  | [], r => some r
  | e :: es, r =>
    match run_event env r e with
    | some r1 => run_events env es r1
    | none => none

/-- The call of `_revoke_memory` returned and no task is left in the pool. -/
def RevokeRun.completed (r : RevokeRun) : Prop :=
  r.returned = true ∧ r.state.thread_pool = []

/-- The invariant of a call of `_revoke_memory` in which every spill call returns OK: the
counter counts the calls still to make and the tasks waiting, and the gate is blocked only
after the return, with the counter positive. -/
def RevokeInv (r : RevokeRun) : Prop :=
  r.state.spilling_task_count = (r.todo.length : Int) + (r.state.thread_pool.length : Int) ∧
  (r.returned = true → r.todo = []) ∧
  (r.state.dependency_blocked = true → r.returned = true ∧ 0 < r.state.spilling_task_count) ∧
  (∀ t ∈ r.state.thread_pool, ∃ i, t = Task.spill_build i ∨ t = Task.spill_probe i) ∧
  r.status = Status.OK

/-- The state of Scenario B: four partitions, cursor 0, build rows buffered for the
partitions 1 and 3 and probe batches queued for the partitions 1 and 2. -/
def scenario_b_state : LocalState :=
  { empty_state with
    partitioned_build_blocks := fun i =>
      if i = 1 then some { schema := 2, rows := [1, 2] }
      else if i = 2 then some { schema := 2, rows := [] }
      else if i = 3 then some { schema := 2, rows := [3] }
      else none
    probe_blocks := fun i =>
      if i = 1 then [{ schema := 1, rows := [10] }, { schema := 1, rows := [11] }]
      else if i = 2 then [{ schema := 1, rows := [12] }]
      else [] }

/-- A schedule for Scenario B: the tasks of the pool run between the calls of the loop and
after the return, not in the order of their submission. -/
def scenario_b_events : List Event :=
  [Event.thread, Event.thread, Event.task 1, Event.thread, Event.thread, Event.thread,
   Event.task 0, Event.thread, Event.thread, Event.task 1, Event.task 0]

/-- An environment in which the stream manager refuses to register a build stream. -/
def env_register_fails : Env :=
  { ok_env with register_spill_stream := fun side _ =>
      match side with
      | Side.build => Status.Error 5
      | Side.probe => Status.OK }

/-- An environment in which the thread pools reject every task. -/
def env_submit_fails : Env := { ok_env with submit_func := fun _ => Status.Error 6 }

/-- An environment in which the write of the build rows of partition `i` fails with the
error `100 + i`. -/
def env_write_fails : Env :=
  { ok_env with spill_block := fun side i _ =>
      match side with
      | Side.build => Status.Error (100 + i)
      | Side.probe => Status.OK }

/-- A state whose partition 1 has a build spill stream and a probe spill stream. -/
def state_spilled : LocalState :=
  { empty_state with
    spilled_streams := fun i =>
      if i = 1 then some { blocks := [{ schema := 2, rows := [1] }], read_index := 0, eof := true }
      else none
    probe_spilling_streams := fun i =>
      if i = 1 then some { blocks := [{ schema := 1, rows := [10] }], read_index := 0, eof := true }
      else none }

/-- The fields that the rendezvous of the spill tasks reads and writes: the counter, the
gate and the pool. -/
def rendezvous_view (s : LocalState) : Int × Bool × List Task :=
  (s.spilling_task_count, s.dependency_blocked, s.thread_pool)

/-- What a task does to the rendezvous: it decrements the counter and sets the gate ready
when the counter is then zero. -/
def task_done (v : Int × Bool × List Task) : Int × Bool × List Task :=
  (v.1 - 1, if v.1 - 1 = 0 then false else v.2.1, v.2.2)

/-- Every spill call gets its stream opened and its task accepted by the pool. -/
def spills_accepted (env : Env) : Prop :=
  (∀ side i, env.register_spill_stream side i = Status.OK) ∧
  (∀ side i, env.prepare_spill side i = Status.OK) ∧
  (∀ t, env.submit_func t = Status.OK)

/-- The log of `t` is the log of `s` followed by new calls, whose spill calls are `X`. -/
def logs_spill_calls (s t : LocalState) (X : List Call) : Prop :=
  ∃ new, t.calls = s.calls ++ new ∧ spill_calls new = X

/-- The state in which the loop of `_revoke_memory` starts: the counter is set to twice the
number of partitions ahead of the cursor (the product taken in the natural numbers, which is
the `uint32_t` product of the code as long as `N - cursor - 1 < 2 ^ 31`). -/
def with_revoke_counter (N : Nat) (s : LocalState) : LocalState :=
  { s with spilling_task_count := ((2 * (N - s.partition_cursor - 1) : Nat) : Int) }

/-- The environment of Scenario D: the write of the build rows of partition 2 fails with
the error 102, memory is short, and the child operator has more batches. -/
def scenario_d_env : Env :=
  { ok_env with
    spill_block := fun side i _ =>
      if side = Side.build ∧ i = 2 then Status.Error 102 else Status.OK
    sys_mem_below_water_mark := true
    min_revocable_mem := 1
    get_block_after_projects := fun _ => (Status.OK, { schema := 1, rows := [20, 21] }, false) }

/-- The environment of Scenario D when memory is not short. -/
def scenario_d_env_calm : Env := { scenario_d_env with sys_mem_below_water_mark := false }

/-- The state of Scenario D before the revocation: four partitions, cursor 0, build rows
buffered for the partitions 2 and 3. -/
def scenario_d_state : LocalState :=
  { empty_state with
    partitioned_build_blocks := fun i =>
      if i = 2 then some { schema := 2, rows := [5] }
      else if i = 3 then some { schema := 2, rows := [6, 7] }
      else none }

/-- The revocation of Scenario D: `_revoke_memory` returns, then the spill task of
partition 2 runs and its write fails, then the spill task of partition 3 runs. -/
def scenario_d_events : List Event :=
  [Event.thread, Event.thread, Event.thread, Event.thread, Event.thread, Event.thread,
   Event.thread, Event.task 0, Event.task 0]

/-- The state of Scenario D after the revocation. -/
def scenario_d_failed : LocalState :=
  match run_events scenario_d_env scenario_d_events (revoke_start 4 scenario_d_state) with
  | some r => r.state
  | none => scenario_d_state

/-- The state of Scenario B after `_revoke_memory` submitted its tasks, with writes of
build rows that fail. -/
def scenario_b_revoked : LocalState := (_revoke_memory env_write_fails 4 scenario_b_state).2.2

/-- A projection `view` of the state is not affected by what the spill and recovery entry
points write: the log, the spill streams of the partitions in `J`, the pool, the counter and
the gate. -/
structure SpillFrame {α : Type} (view : LocalState → α) (J : Nat → Prop) : Prop where
  log : ∀ s c, view (LocalState.log s c) = view s
  stream : ∀ s side i st, J i → view (set_stream s side i st) = view s
  pool : ∀ (s : LocalState) p, view { s with thread_pool := p } = view s
  count : ∀ (s : LocalState) n, view { s with spilling_task_count := n } = view s
  gate : ∀ (s : LocalState) b, view { s with dependency_blocked := b } = view s

/-- The calls with which `pull` feeds the embedded probe operator: `_probe_operator->push`
and `recovery_probe_blocks_from_disk`. -/
def is_feed_call (c : Call) : Bool :=
  match c with
  | Call.probe_push _ _ => true
  | Call.recovery_probe_blocks_from_disk _ => true
  | _ => false

/-- The feeding calls in a log, in order. -/
def feed_calls (calls : List Call) : List Call := calls.filter is_feed_call

/-- The calls `_probe_operator->push(block, false)` for the blocks `l`, in order. -/
def feed_pushes (l : List Block) : List Call := l.map (fun b => Call.probe_push b false)

/-- The log of `t` is the log of `s` followed by new calls, none of them a feeding call. -/
def logs_no_feed (s t : LocalState) : Prop :=
  ∃ new, t.calls = s.calls ++ new ∧ feed_calls new = []

/-- What the feeding loop of `pull` reads of the state besides the queue: the cursor and the
probe spill stream of partition `i`. -/
def feed_view (i : Nat) (s : LocalState) : Nat × Option SpillStream :=
  (s.partition_cursor, s.probe_spilling_streams i)

/-- What the feeding loop of partition `i` needs of the state before it: the cursor, the
queues and the probe spill stream of partition `i`. -/
def pre_view (i : Nat) (s : LocalState) : Nat × (Nat → List Block) × Option SpillStream :=
  (s.partition_cursor, s.probe_blocks, s.probe_spilling_streams i)

/-- How a call of `pull` feeds the embedded probe operator for the active partition `i`,
whose queue is `q0` and whose probe spill stream is `stream` at the call; `new` are the calls
it logs, `q1` is the queue, `eos_out` is `*eos` and `cursor_out` the cursor at the return.
The call pops `k` batches from the back of the queue and pushes each with `eos = false`.
It calls `recovery_probe_blocks_from_disk` at most once, with the queue empty: with a stream
it then returns with `*eos = false` and the cursor unchanged, and without a stream it pushes
the empty block with `eos = true`. -/
def FeedOutcome (i : Nat) (q0 : List Block) (stream : Option SpillStream) (new : List Call)
    (q1 : List Block) (eos_out : Bool) (cursor_out : Nat) : Prop :=
  ∃ k, k ≤ q0.length ∧ q1 = q0.take (q0.length - k) ∧
    (feed_calls new = feed_pushes (q0.reverse.take k) ∨
     (k = q0.length ∧ stream ≠ none ∧
        feed_calls new
          = feed_pushes (q0.reverse.take k) ++ [Call.recovery_probe_blocks_from_disk i] ∧
        eos_out = false ∧ cursor_out = i) ∨
     (k = q0.length ∧ stream = none ∧
        feed_calls new
          = feed_pushes (q0.reverse.take k)
            ++ [Call.recovery_probe_blocks_from_disk i, Call.probe_push Block.new true]))

/-- What the end of `pull` leaves to `finish_spilling`: everything but the log and the
spill streams. -/
def output_view (s : LocalState) : Nat × (Nat → List Block) × Option Engine :=
  (s.partition_cursor, s.probe_blocks, s.runtime_state)

/-- What a call of `pull` with result `r`, made in the state `s` with `*eos = eos`, does to
the feeding of the probe operator, to the cursor and to `*eos`. -/
def PullOutcome (env : Env) (N : Nat) (eos : Bool) (s : LocalState)
    (r : Status × Block × Bool × LocalState) : Prop :=
  ∃ new, r.2.2.2.calls = s.calls ++ new ∧
    FeedOutcome s.partition_cursor (s.probe_blocks s.partition_cursor)
      (s.probe_spilling_streams s.partition_cursor) new
      (r.2.2.2.probe_blocks s.partition_cursor) r.2.2.1 r.2.2.2.partition_cursor ∧
    (r.2.2.2.partition_cursor = s.partition_cursor ∨
      r.2.2.2.partition_cursor = s.partition_cursor + 1) ∧
    (r.2.2.2.partition_cursor = s.partition_cursor + 1 →
      Call.probe_pull ∈ new ∧
      ∃ eng, (env.probe_pull eng).1 = Status.OK ∧ (env.probe_pull eng).2.2 = true ∧
        r.2.2.2.runtime_state = some { eng with pulls := eng.pulls + 1 }) ∧
    (s.partition_cursor < N → r.2.2.2.partition_cursor = N → r.2.2.1 = true) ∧
    (r.2.2.1 = true → r.2.2.2.partition_cursor = N ∨ eos = true)

/-- The tasks waiting in the pool run, one after the other in the order of their
submission, and the pool is empty. -/
def run_pool (env : Env) (s : LocalState) : LocalState :=
  s.thread_pool.foldl (fun st t => run_task env t st) { s with thread_pool := [] }

/-- The rows of the build accumulator of partition `i` (none when it is absent). -/
def build_rows (s : LocalState) (i : Nat) : List Row :=
  match s.partitioned_build_blocks i with
  | some mb => mb.rows
  | none => []

/-- One batch of build rows is spilled: the build side, which shares the accumulators and is
not part of this file, has buffered the batch `b` for partition `i`; `spill_build_block(i)` is
called and the task it submits runs. -/
def spill_build_batch (env : Env) (i : Nat) (s : LocalState) (b : Block) : LocalState :=
  run_pool env (spill_build_block env i (set_build_block s i (some b))).2

/-- A sequence of batches is spilled, one `spill_build_block` task per batch. -/
def spill_build_batches (env : Env) (i : Nat) (bs : List Block) (s : LocalState) :
    LocalState :=
  bs.foldl (spill_build_batch env i) s

/-- One completed invocation of `recovery_build_blocks_from_disk(i)`: the call, and the run
of the task it submitted; status, `has_data`, state. -/
def recover_build (env : Env) (i : Nat) (s : LocalState) : Status × Bool × LocalState :=
  ((recovery_build_blocks_from_disk env i s).1, (recovery_build_blocks_from_disk env i s).2.1,
    run_pool env (recovery_build_blocks_from_disk env i s).2.2)

/-- One completed invocation of `recovery_probe_blocks_from_disk(i)`: the call, and the run
of the task it submitted; status, `has_data`, state. -/
def recover_probe (env : Env) (i : Nat) (s : LocalState) : Status × Bool × LocalState :=
  ((recovery_probe_blocks_from_disk env i s).1, (recovery_probe_blocks_from_disk env i s).2.1,
    run_pool env (recovery_probe_blocks_from_disk env i s).2.2)

/-- The state after `n` completed invocations of `recovery_probe_blocks_from_disk(i)`. -/
def recover_probe_times (env : Env) (i : Nat) : Nat → LocalState → LocalState
  | 0, s => s
  | n + 1, s => recover_probe_times env i n (recover_probe env i s).2.2

/-- The collaborators do not fail on the build side of partition `i`: the stream is opened,
the tasks are accepted, and writes, reads and merges succeed. -/
def build_side_ok (env : Env) (i : Nat) : Prop :=
  env.register_spill_stream Side.build i = Status.OK ∧
  env.prepare_spill Side.build i = Status.OK ∧
  env.submit_func (Task.spill_build i) = Status.OK ∧
  env.submit_func (Task.recovery_build i) = Status.OK ∧
  (∀ b, env.spill_block Side.build i b = Status.OK) ∧
  (∀ n, env.read_status Side.build i n = Status.OK) ∧
  (∀ a b, env.merge a b = Status.OK)

/-- The stream written by spilling the batches `bs`, one after the other, to the stream
`st` (a new stream when `st` is absent). -/
def stream_with (st : Option SpillStream) (bs : List Block) : SpillStream :=
  { (st.getD SpillStream.new) with blocks := (st.getD SpillStream.new).blocks ++ bs }

/-- The spilled batches of Scenario C: 10, 5 and 7 rows. -/
def scenario_c_batches : List Block :=
  [{ schema := 2, rows := List.range 10 }, { schema := 2, rows := List.range' 10 5 },
   { schema := 2, rows := List.range' 15 7 }]

/-- The probe side of Scenario C: partition 1 has a probe spill stream that holds the
batches of 10, 5 and 7 rows, none of them read. -/
def scenario_c_probe_state : LocalState :=
  { empty_state with
    probe_spilling_streams := fun i =>
      if i = 1 then some { blocks := scenario_c_batches, read_index := 0, eof := true }
      else none }

/-- An environment in which the stream manager refuses to register a probe stream. -/
def env_probe_register_fails : Env :=
  { ok_env with register_spill_stream := fun side _ =>
      match side with
      | Side.build => Status.OK
      | Side.probe => Status.Error 7 }

/-- A state in which the set-up of the embedded operators is due for partition 1, the
partition of the cursor, whose build rows are in a spill stream. -/
def state_build_pending : LocalState := { state_spilled with partition_cursor := 1 }

/-- The data that a revocation spills or leaves alone: the failure flag, the cursor, the
probe accumulators, the build accumulators and the queues of probe batches. -/
def data_view (s : LocalState) :
    Bool × Nat × (Nat → Option Block) × (Nat → Option Block) × (Nat → List Block) :=
  (s.spill_status_ok, s.partition_cursor, s.partitioned_blocks, s.partitioned_build_blocks,
    s.probe_blocks)

/-- The invariant of the data during a call of `_revoke_memory` made in the state `s`, in
which no spill call and no write fails: no failure is recorded; the cursor, the probe
accumulators and the data of the partitions not ahead of the cursor are those of `s`; the
build rows of a partition ahead of the cursor are gone unless its call or its task is still
to come, and so is its queue; the calls and the tasks to come are for partitions ahead of
the cursor. -/
def RevokeData (N : Nat) (s : LocalState) (r : RevokeRun) : Prop :=
  r.state.spill_status_ok = true ∧
  r.state.partition_cursor = s.partition_cursor ∧
  r.state.partitioned_blocks = s.partitioned_blocks ∧
  (∀ i, ¬ (s.partition_cursor < i ∧ i < N) →
    r.state.partitioned_build_blocks i = s.partitioned_build_blocks i ∧
    r.state.probe_blocks i = s.probe_blocks i) ∧
  (∀ i, s.partition_cursor < i → i < N →
    RevokeOp.spill_build_block i ∈ r.todo ∨ Task.spill_build i ∈ r.state.thread_pool ∨
    build_rows r.state i = []) ∧
  (∀ i, s.partition_cursor < i → i < N →
    RevokeOp.spill_probe_blocks i ∈ r.todo ∨ Task.spill_probe i ∈ r.state.thread_pool ∨
    r.state.probe_blocks i = []) ∧
  (∀ op ∈ r.todo, ∃ i, (s.partition_cursor < i ∧ i < N) ∧
    (op = RevokeOp.spill_build_block i ∨ op = RevokeOp.spill_probe_blocks i)) ∧
  (∀ t ∈ r.state.thread_pool, ∃ i, (s.partition_cursor < i ∧ i < N) ∧
    (t = Task.spill_build i ∨ t = Task.spill_probe i))

/-- One call of the loop of `_revoke_memory`. -/
def revoke_op_call (env : Env) (op : RevokeOp) (s : LocalState) : Status × LocalState :=
  match op with
  | RevokeOp.spill_build_block i => spill_build_block env i s
  | RevokeOp.spill_probe_blocks i => spill_probe_blocks env i s

/-- The entry that a call of the loop of `_revoke_memory` leaves in the log. -/
def revoke_op_log (op : RevokeOp) : Call :=
  match op with
  | RevokeOp.spill_build_block i => Call.spill_build_block i
  | RevokeOp.spill_probe_blocks i => Call.spill_probe_blocks i

/-- The calls `ops` made one after the other from the state `s`, every one of them returning
OK: the state after the last call, and none when one of the calls returns an error. -/
def calls_all_ok (env : Env) : List RevokeOp → LocalState → Option LocalState
  | [], s => some s
  | op :: rest, s =>
    match revoke_op_call env op s with
    | (Status.OK, s1) => calls_all_ok env rest s1
    | (Status.Error _, _) => none

/-- The value of `(_partition_count - local_state._partition_cursor - 1) * 2` in the
`uint32_t` arithmetic in which `_revoke_memory` computes it (lines 638-639). The model
takes the product in the natural numbers; the two agree when `N - cursor - 1 < 2 ^ 31`. -/
def revoke_count_u32 (N cursor : Nat) : Nat := ((N - cursor - 1) * 2) % 2 ^ 32

theorem setAt_same {α : Type} (a : Nat → α) (i : Nat) (v : α) : setAt a i v i = v := by
  simp [setAt]

theorem setAt_other {α : Type} (a : Nat → α) (i j : Nat) (v : α) (h : j ≠ i) :
    setAt a i v j = a j := by
  simp [setAt, h]

/-- The grouping loop puts row `i` in the list of partition `channel_ids[i]`, in input
order. -/
theorem partition_indexes_eq_filter (channel_ids : List Nat) (rows p : Nat) :
    partition_indexes channel_ids rows p
      = (List.range rows).filter (fun i => channel_ids.getD i 0 = p) := by
  unfold partition_indexes
  induction rows with
  | zero => simp
  | succ n ih =>
    rw [List.range_succ, List.foldl_append, List.filter_append]
    simp only [List.foldl_cons, List.foldl_nil]
    by_cases h : channel_ids.getD n 0 = p
    · subst h
      rw [setAt_same, ih]
      simp
    · rw [setAt_other _ _ _ _ (Ne.symm h), ih]
      have hn : List.filter (fun i => decide (channel_ids.getD i 0 = p)) [n] = [] :=
        List.filter_cons_of_neg (by simpa using h)
      rw [hn, List.append_nil]

/-- A loop over the partitions whose body for `i` reads and writes partition `i` only
leaves partition `p` as one run of the body for `p` on the state before the loop. -/
theorem foldl_range_probe_view (step : LocalState → Nat → LocalState)
    (hother : ∀ s i p, p ≠ i → probe_view (step s i) p = probe_view s p)
    (hlocal : ∀ s t i, probe_view s i = probe_view t i →
      probe_view (step s i) i = probe_view (step t i) i)
    (s : LocalState) (n p : Nat) :
    probe_view ((List.range n).foldl step s) p
      = if p < n then probe_view (step s p) p else probe_view s p := by
  induction n with
  | zero => simp
  | succ n ih =>
    rw [List.range_succ, List.foldl_append]
    simp only [List.foldl_cons, List.foldl_nil]
    by_cases hp : p = n
    · subst hp
      have h0 : probe_view ((List.range p).foldl step s) p = probe_view s p := by
        rw [ih]; simp
      rw [hlocal _ _ _ h0]
      simp
    · rw [hother _ _ _ hp, ih]
      have : p < n + 1 ↔ p < n := by omega
      simp [this]

theorem push_eos_step_other (s : LocalState) (i p : Nat) (h : p ≠ i) :
    probe_view (push_eos_step s i) p = probe_view s p := by
  unfold push_eos_step
  split
  · split
    · simp [probe_view, flush_partition, setAt, h]
    · rfl
  · rfl

theorem push_eos_step_local (s t : LocalState) (i : Nat)
    (h : probe_view s i = probe_view t i) :
    probe_view (push_eos_step s i) i = probe_view (push_eos_step t i) i := by
  simp only [probe_view, Prod.mk.injEq] at h
  obtain ⟨h1, h2⟩ := h
  unfold push_eos_step
  rw [← h1]
  cases hs : s.partitioned_blocks i with
  | none => simp [probe_view, hs, ← h1, h2]
  | some mb =>
    simp only []
    split
    · simp [probe_view, flush_partition, setAt, h2]
    · simp [probe_view, hs, ← h1, h2]

theorem push_shuffle_step_other (input : Block) (eos : Bool) (indexes : Nat → List Nat)
    (s : LocalState) (i p : Nat) (h : p ≠ i) :
    probe_view (push_shuffle_step input eos indexes s i) p = probe_view s p := by
  unfold push_shuffle_step
  split
  · rfl
  · simp only []
    split
    · simp [probe_view, flush_partition, setAt, h]
    · simp [probe_view, setAt, h]

theorem push_shuffle_step_local (input : Block) (eos : Bool) (indexes : Nat → List Nat)
    (s t : LocalState) (i : Nat) (h : probe_view s i = probe_view t i) :
    probe_view (push_shuffle_step input eos indexes s i) i
      = probe_view (push_shuffle_step input eos indexes t i) i := by
  simp only [probe_view, Prod.mk.injEq] at h
  obtain ⟨h1, h2⟩ := h
  unfold push_shuffle_step
  split
  · simp [probe_view, h1, h2]
  · simp only [← h1]
    split
    · simp [probe_view, flush_partition, setAt, h2]
    · simp [probe_view, setAt, h2]

theorem held_rows_congr (s t : LocalState) (p : Nat) (h : probe_view s p = probe_view t p) :
    held_rows s p = held_rows t p := by
  simp only [probe_view, Prod.mk.injEq] at h
  simp [held_rows, h.1, h.2]

/-- The view of partition `p` after `push` of a batch with rows. -/
theorem push_probe_view (env : Env) (N : Nat) (input : Block) (eos : Bool) (s : LocalState)
    (hr : 0 < input.rows.length) (hpart : env.do_partitioning input = Status.OK)
    (p : Nat) (hp : p < N) :
    probe_view (push env N input eos s).2 p
      = probe_view (push_shuffle_step input eos
          (partition_indexes (env.get_channel_ids input) input.rows.length) s p) p := by
  have hne : input.rows.length ≠ 0 := by omega
  simp only [push, push_body, hne, if_false, hpart]
  rw [foldl_range_probe_view _ (push_shuffle_step_other input eos _)
    (push_shuffle_step_local input eos _), if_pos hp]
  exact push_shuffle_step_local input eos _ _ _ _ rfl

theorem push_shuffle_step_held_rows (input : Block) (eos : Bool) (indexes : Nat → List Nat)
    (s : LocalState) (p : Nat) :
    held_rows (push_shuffle_step input eos indexes s p) p
      = held_rows s p ++ (indexes p).map (fun i => input.rows.getD i 0) := by
  unfold push_shuffle_step
  split
  · rename_i h
    have : indexes p = [] := List.length_eq_zero.mp h
    simp [this]
  · simp only []
    split
    · cases hs : s.partitioned_blocks p <;>
        simp [held_rows, flush_partition, setAt, hs, Block.add_rows, Block.clone_empty]
    · cases hs : s.partitioned_blocks p <;>
        simp [held_rows, setAt, hs, Block.add_rows, Block.clone_empty]

theorem sum_indicator_range (c N : Nat) :
    ((List.range N).map (fun p => if c = p then 1 else 0)).sum = if c < N then 1 else 0 := by
  induction N with
  | zero => simp
  | succ n ih =>
    rw [List.sum_range_succ, ih]
    by_cases h1 : c < n
    · have h2 : c ≠ n := by omega
      have h3 : c < n + 1 := by omega
      simp [h1, h2, h3]
    · by_cases h2 : c = n
      · subst h2; simp
      · have h3 : ¬ c < n + 1 := by omega
        simp [h1, h2, h3]

/-- Grouping by a key below `N` loses and duplicates nothing: the sizes of the groups add up
to the size of the list. -/
theorem sum_filter_length (f : Nat → Nat) (N : Nat) (l : List Nat)
    (h : ∀ i ∈ l, f i < N) :
    ((List.range N).map (fun p => (l.filter (fun i => f i = p)).length)).sum = l.length := by
  induction l with
  | nil => simp
  | cons x l ih =>
    have hx : f x < N := h x (List.mem_cons_self _ _)
    have hl : ∀ i ∈ l, f i < N := fun i hi => h i (List.mem_cons_of_mem _ hi)
    have hstep : ∀ p, ((x :: l).filter (fun i => f i = p)).length
        = (if f x = p then 1 else 0) + (l.filter (fun i => f i = p)).length := by
      intro p
      by_cases hxp : f x = p
      · simp [List.filter_cons, hxp]; omega
      · simp [List.filter_cons, hxp]
    simp only [hstep]
    rw [List.sum_map_add, sum_indicator_range, ih hl]
    simp [hx]; omega

/-! ### `push` -/

/-- C1 (row conservation of `push`): for a batch of `r > 0` rows whose partitioner
assignment maps every row to an index below `N`, `push` returns OK, the number of probe rows
held across the partitions (queued batches plus accumulators) grows by exactly `r`, every
partition holds afterwards what it held before followed by exactly the rows assigned to it,
in input order, and the grouping puts every row index in the list of the partition assigned to
it and of no other, once. -/
theorem push_row_conservation (env : Env) (N : Nat) (input : Block) (eos : Bool)
    (s : LocalState) (hr : 0 < input.rows.length)
    (hpart : env.do_partitioning input = Status.OK)
    (hids : ∀ i, i < input.rows.length → (env.get_channel_ids input).getD i 0 < N) :
    (push env N input eos s).1 = Status.OK ∧
    total_held_rows N (push env N input eos s).2 = total_held_rows N s + input.rows.length ∧
    (∀ p, p < N → held_rows (push env N input eos s).2 p
        = held_rows s p ++ assigned_rows (env.get_channel_ids input) input p) ∧
    (∀ i, i < input.rows.length → ∀ p,
        (i ∈ partition_indexes (env.get_channel_ids input) input.rows.length p
          ↔ (env.get_channel_ids input).getD i 0 = p)) ∧
    (∀ p, (partition_indexes (env.get_channel_ids input) input.rows.length p).Nodup) := by
  have hheld : ∀ p, p < N → held_rows (push env N input eos s).2 p
      = held_rows s p ++ assigned_rows (env.get_channel_ids input) input p := by
    intro p hp
    rw [held_rows_congr _ _ _ (push_probe_view env N input eos s hr hpart p hp),
      push_shuffle_step_held_rows, partition_indexes_eq_filter]
    rfl
  refine ⟨?_, ?_, hheld, ?_, ?_⟩
  · have hne : input.rows.length ≠ 0 := by omega
    simp [push, push_body, hne, hpart]
  · unfold total_held_rows
    have hmap : (List.range N).map (fun p => (held_rows (push env N input eos s).2 p).length)
        = (List.range N).map (fun p => (held_rows s p).length
            + ((List.range input.rows.length).filter
                (fun i => (env.get_channel_ids input).getD i 0 = p)).length) := by
      apply List.map_congr_left
      intro p hp
      rw [hheld p (List.mem_range.mp hp)]
      simp [assigned_rows]
    rw [hmap, List.sum_map_add, sum_filter_length _ N _
      (fun i hi => hids i (List.mem_range.mp hi))]
    simp
  · intro i hi p
    rw [partition_indexes_eq_filter]
    simp [List.mem_filter, hi]
  · intro p
    rw [partition_indexes_eq_filter]
    exact (List.nodup_range _).filter _

/-- Scenario A as an instance of C1: eight rows over four partitions, eight rows held. -/
theorem push_row_conservation_witness :
    0 < scenario_a_batch.rows.length ∧
    total_held_rows 4 (push ok_env 4 scenario_a_batch false empty_state).2 = 8 ∧
    held_rows (push ok_env 4 scenario_a_batch false empty_state).2 2 = [12, 16] := by
  have h := push_row_conservation ok_env 4 scenario_a_batch false empty_state
    (by decide) rfl (by decide)
  refine ⟨by decide, ?_, ?_⟩
  · rw [h.2.1]; rfl
  · rw [h.2.2.1 2 (by decide)]; rfl

/-- C2 (partition content and order of `push`): for a push that is not at end of stream, of
a batch with rows, in which no accumulator grows beyond the flush threshold, the queue of
every partition is unchanged, the accumulator of a partition that received no row is
unchanged, and the accumulator of a partition that received rows holds its previous rows
followed by the rows assigned to it in input order, with its previous schema, or the schema
of the batch when it was absent. -/
theorem push_partition_content (env : Env) (N : Nat) (input : Block) (s : LocalState)
    (hr : 0 < input.rows.length) (hpart : env.do_partitioning input = Status.OK)
    (hthr : ∀ p, p < N → (accumulator_rows s p).length
        + (assigned_rows (env.get_channel_ids input) input p).length ≤ flush_threshold)
    (p : Nat) (hp : p < N) :
    (push env N input false s).1 = Status.OK ∧
    (push env N input false s).2.probe_blocks p = s.probe_blocks p ∧
    (assigned_rows (env.get_channel_ids input) input p = [] →
      (push env N input false s).2.partitioned_blocks p = s.partitioned_blocks p) ∧
    (assigned_rows (env.get_channel_ids input) input p ≠ [] →
      (push env N input false s).2.partitioned_blocks p
        = some { schema := (match s.partitioned_blocks p with
                            | some mb => mb.schema
                            | none => input.schema)
                 rows := accumulator_rows s p
                   ++ assigned_rows (env.get_channel_ids input) input p }) := by
  have hview := push_probe_view env N input false s hr hpart p hp
  have hne : input.rows.length ≠ 0 := by omega
  have hthr := hthr p hp
  refine ⟨by simp [push, push_body, hne, hpart], ?_⟩
  simp only [probe_view, Prod.mk.injEq] at hview
  rw [hview.1, hview.2]
  simp only [assigned_rows, accumulator_rows, List.length_map] at hthr ⊢
  rw [← partition_indexes_eq_filter] at hthr ⊢
  unfold push_shuffle_step
  split
  · rename_i h
    have h0 : partition_indexes (env.get_channel_ids input) input.rows.length p = [] :=
      List.length_eq_zero.mp h
    simp [h0]
  · rename_i h
    have h0 : partition_indexes (env.get_channel_ids input) input.rows.length p ≠ [] :=
      fun h1 => h (by simp [h1])
    cases hs : s.partitioned_blocks p with
    | none =>
      rw [hs] at hthr
      have hle : ¬ (List.length (partition_indexes (env.get_channel_ids input)
          input.rows.length p) > flush_threshold) := by simp at hthr; omega
      simp [Block.add_rows, Block.clone_empty, hle, setAt, h0]
    | some mb =>
      rw [hs] at hthr
      have hle : ¬ (mb.rows.length + List.length (partition_indexes (env.get_channel_ids input)
          input.rows.length p) > flush_threshold) := by simp at hthr; omega
      simp [Block.add_rows, hle, setAt, h0]

/-- Scenario A as an instance of C2: `N = 4`, empty state, eight rows assigned
`[0,1,2,3,0,1,2,3]`; partition `i` holds exactly the rows `i` and `i + 4`. -/
theorem push_partition_content_witness :
    (push ok_env 4 scenario_a_batch false empty_state).2.partitioned_blocks 0
      = some { schema := 1, rows := [10, 14] } ∧
    (push ok_env 4 scenario_a_batch false empty_state).2.partitioned_blocks 1
      = some { schema := 1, rows := [11, 15] } ∧
    (push ok_env 4 scenario_a_batch false empty_state).2.partitioned_blocks 2
      = some { schema := 1, rows := [12, 16] } ∧
    (push ok_env 4 scenario_a_batch false empty_state).2.partitioned_blocks 3
      = some { schema := 1, rows := [13, 17] } := by
  have h := fun p hp => push_partition_content ok_env 4 scenario_a_batch empty_state
    (by decide) rfl (by decide) p hp
  refine ⟨?_, ?_, ?_, ?_⟩
  · rw [(h 0 (by decide)).2.2.2 (by decide)]; rfl
  · rw [(h 1 (by decide)).2.2.2 (by decide)]; rfl
  · rw [(h 2 (by decide)).2.2.2 (by decide)]; rfl
  · rw [(h 3 (by decide)).2.2.2 (by decide)]; rfl

/-- C3 (end-of-stream flush), the code at a failing input: two partitions, partition 0
has the row `7` buffered in its accumulator, and the last batch, pushed with
`eos = true`, has one row, assigned to partition 1. The shuffle loop skips partition 0
(`count == 0`), so its accumulator still holds the row and its queue is empty, while
partition 1 is flushed; the same state pushed with a batch without rows flushes
partition 0. -/
theorem push_eos_skips_partition_without_rows :
    (push env_all_to_one 2 { schema := 1, rows := [8] } true state_one_buffered).1 = Status.OK ∧
    (push env_all_to_one 2 { schema := 1, rows := [8] } true state_one_buffered).2.partitioned_blocks 0
      = some { schema := 1, rows := [7] } ∧
    (push env_all_to_one 2 { schema := 1, rows := [8] } true state_one_buffered).2.probe_blocks 0
      = [] ∧
    (push env_all_to_one 2 { schema := 1, rows := [8] } true state_one_buffered).2.probe_blocks 1
      = [{ schema := 1, rows := [8] }] ∧
    (push env_all_to_one 2 { schema := 1, rows := [] } true state_one_buffered).2.probe_blocks 0
      = [{ schema := 1, rows := [7] }] := by
  refine ⟨rfl, rfl, rfl, rfl, rfl⟩

/-- C4 (zero-row push): `push` of a batch without rows returns OK; when it is not the end
of the stream the state is unchanged (but for the log of calls); at the end of the stream
every partition below `N` with a non-empty accumulator gets exactly one batch, that
accumulator, appended at the back of its queue and its accumulator reset, and every other
partition keeps its accumulator and its queue. -/
theorem push_zero_rows (env : Env) (N : Nat) (input : Block) (s : LocalState)
    (h : input.rows.length = 0) :
    (push env N input false s).1 = Status.OK ∧
    (push env N input false s).2 = s.log (Call.push input false) ∧
    (push env N input true s).1 = Status.OK ∧
    (∀ p mb, p < N → s.partitioned_blocks p = some mb → mb.rows ≠ [] →
      (push env N input true s).2.probe_blocks p = s.probe_blocks p ++ [mb] ∧
      (push env N input true s).2.partitioned_blocks p = none) ∧
    (∀ p, (N ≤ p ∨ accumulator_rows s p = []) →
      (push env N input true s).2.probe_blocks p = s.probe_blocks p ∧
      (push env N input true s).2.partitioned_blocks p = s.partitioned_blocks p) := by
  have hview : ∀ p, probe_view (push env N input true s).2 p
      = if p < N then probe_view (push_eos_step s p) p else probe_view s p := by
    intro p
    simp only [push, push_body, h, if_true]
    rw [foldl_range_probe_view _ push_eos_step_other push_eos_step_local]
    split
    · exact push_eos_step_local _ _ _ rfl
    · rfl
  refine ⟨by simp [push, push_body, h], by simp [push, push_body, h],
    by simp [push, push_body, h], ?_, ?_⟩
  · intro p mb hp hs hrows
    have hv := hview p
    rw [if_pos hp] at hv
    simp only [probe_view, Prod.mk.injEq] at hv
    rw [hv.1, hv.2]
    have hlen : mb.rows.length ≠ 0 := fun h0 => hrows (List.length_eq_zero.mp h0)
    simp [push_eos_step, hs, hlen, flush_partition, setAt]
  · intro p hcase
    have hv := hview p
    simp only [probe_view] at hv
    by_cases hp : p < N
    · rw [if_pos hp] at hv
      simp only [Prod.mk.injEq] at hv
      rw [hv.1, hv.2]
      rcases hcase with h1 | h1
      · omega
      · cases hs : s.partitioned_blocks p with
        | none => simp [push_eos_step, hs]
        | some mb =>
          have h2 : mb.rows = [] := by simpa [accumulator_rows, hs] using h1
          simp [push_eos_step, hs, h2]
    · rw [if_neg hp] at hv
      simp only [Prod.mk.injEq] at hv
      exact ⟨hv.2, hv.1⟩

/-- An instance of C4: the row buffered for partition 0 is queued by an empty batch pushed
at the end of the stream. -/
theorem push_zero_rows_witness :
    (Block.mk 1 []).rows.length = 0 ∧
    (push ok_env 2 (Block.mk 1 []) true state_one_buffered).2.probe_blocks 0
      = [{ schema := 1, rows := [7] }] ∧
    (push ok_env 2 (Block.mk 1 []) true state_one_buffered).2.partitioned_blocks 0 = none := by
  have h := (push_zero_rows ok_env 2 (Block.mk 1 []) state_one_buffered rfl).2.2.2.1
    0 { schema := 1, rows := [7] } (by decide) rfl (by decide)
  exact ⟨rfl, h.1, h.2⟩

/-! ### Spilling and revocation -/

theorem set_stream_rendezvous (s : LocalState) (side : Side) (i : Nat)
    (st : Option SpillStream) : rendezvous_view (set_stream s side i st) = rendezvous_view s := by
  cases side <;> rfl

theorem spill_block_rendezvous (env : Env) (side : Side) (i : Nat) (b : Block)
    (s : LocalState) : rendezvous_view (spill_block env side i b s).2 = rendezvous_view s := by
  unfold spill_block
  split
  · simp only [set_stream_rendezvous]; rfl
  · rfl

theorem open_spill_stream_rendezvous (env : Env) (side : Side) (i : Nat) (s : LocalState) :
    rendezvous_view (open_spill_stream env side i s).2 = rendezvous_view s := by
  unfold open_spill_stream
  split
  · rfl
  · split
    · rfl
    · simp only [set_stream_rendezvous]; rfl

theorem spill_probe_loop_rendezvous (env : Env) (i : Nat) (l : List Block) (s : LocalState) :
    rendezvous_view (spill_probe_loop env i l s) = rendezvous_view s := by
  induction l generalizing s with
  | nil => rfl
  | cons b bs ih =>
    unfold spill_probe_loop
    split
    · have hb := spill_block_rendezvous env Side.probe i b s
      split
      · rename_i c s1 h1
        rw [h1] at hb
        rw [← hb]; rfl
      · rename_i s1 h1
        rw [h1] at hb
        rw [ih, ← hb]
    · rfl

theorem ready_if_zero_dec_rendezvous (s : LocalState) :
    rendezvous_view (ready_if_zero (dec_task_count s)) = task_done (rendezvous_view s) := by
  unfold ready_if_zero
  split
  · rename_i h
    have h1 : s.spilling_task_count - 1 = 0 := h
    simp [rendezvous_view, task_done, set_ready, dec_task_count, h1]
  · rename_i h
    have h1 : ¬ s.spilling_task_count - 1 = 0 := h
    simp [rendezvous_view, task_done, dec_task_count, h1]

theorem spill_build_task_rendezvous (env : Env) (i : Nat) (entered : Bool) (s : LocalState) :
    rendezvous_view (spill_build_task env i entered s) = task_done (rendezvous_view s) := by
  unfold spill_build_task
  rw [ready_if_zero_dec_rendezvous]
  congr 1
  cases entered
  · rfl
  · simp only [if_true]
    have hb := spill_block_rendezvous env Side.build i
      ((s.partitioned_build_blocks i).getD Block.new)
      (set_build_block s i ((s.partitioned_build_blocks i).map Block.moved_out))
    split
    · rename_i c s2 h1
      rw [h1] at hb
      exact hb
    · rename_i s2 h1
      rw [h1] at hb
      exact hb

theorem spill_probe_task_rendezvous (env : Env) (i : Nat) (s : LocalState) :
    rendezvous_view (spill_probe_task env i s) = task_done (rendezvous_view s) := by
  unfold spill_probe_task
  rw [ready_if_zero_dec_rendezvous]
  congr 1
  exact spill_probe_loop_rendezvous env i _ s

theorem open_spill_stream_ok (env : Env) (side : Side) (i : Nat) (s : LocalState)
    (hreg : env.register_spill_stream side i = Status.OK)
    (hprep : env.prepare_spill side i = Status.OK) :
    (open_spill_stream env side i s).1 = Status.OK := by
  unfold open_spill_stream
  split
  · rfl
  · simp [hreg, hprep]

theorem submit_func_ok (env : Env) (t : Task) (s : LocalState)
    (hsub : env.submit_func t = Status.OK) :
    (submit_func env t s).1 = Status.OK ∧
    rendezvous_view (submit_func env t s).2
      = (s.spilling_task_count, s.dependency_blocked, s.thread_pool ++ [t]) := by
  simp [submit_func, hsub, rendezvous_view, LocalState.log]

/-- When the stream is opened and the task accepted, `spill_build_block` returns OK and
either decrements the counter or adds its task to the pool. -/
theorem spill_build_block_rendezvous (env : Env) (i : Nat) (s : LocalState)
    (hreg : env.register_spill_stream Side.build i = Status.OK)
    (hprep : env.prepare_spill Side.build i = Status.OK)
    (hsub : env.submit_func (Task.spill_build i) = Status.OK) :
    (spill_build_block env i s).1 = Status.OK ∧
    (rendezvous_view (spill_build_block env i s).2
        = (s.spilling_task_count - 1, s.dependency_blocked, s.thread_pool) ∨
     rendezvous_view (spill_build_block env i s).2
        = (s.spilling_task_count, s.dependency_blocked,
            s.thread_pool ++ [Task.spill_build i])) := by
  unfold spill_build_block
  simp only []
  split
  · exact ⟨rfl, Or.inl rfl⟩
  · have hok := open_spill_stream_ok env Side.build i (s.log (Call.spill_build_block i))
      hreg hprep
    have hrv := open_spill_stream_rendezvous env Side.build i
      (s.log (Call.spill_build_block i))
    split
    · rename_i c s1 h1
      rw [h1] at hok
      cases hok
    · rename_i s1 h1
      rw [h1] at hrv
      have h2 := submit_func_ok env (Task.spill_build i) s1 hsub
      refine ⟨h2.1, Or.inr ?_⟩
      rw [h2.2]
      simp only [rendezvous_view, Prod.mk.injEq] at hrv
      rw [hrv.1, hrv.2.1, hrv.2.2]
      rfl

/-- When the stream is opened and the task accepted, `spill_probe_blocks` returns OK and
either does what a finished task does or adds its task to the pool. -/
theorem spill_probe_blocks_rendezvous (env : Env) (i : Nat) (s : LocalState)
    (hreg : env.register_spill_stream Side.probe i = Status.OK)
    (hprep : env.prepare_spill Side.probe i = Status.OK)
    (hsub : env.submit_func (Task.spill_probe i) = Status.OK) :
    (spill_probe_blocks env i s).1 = Status.OK ∧
    (rendezvous_view (spill_probe_blocks env i s).2 = task_done (rendezvous_view s) ∨
     rendezvous_view (spill_probe_blocks env i s).2
        = (s.spilling_task_count, s.dependency_blocked,
            s.thread_pool ++ [Task.spill_probe i])) := by
  unfold spill_probe_blocks
  simp only []
  have hok := open_spill_stream_ok env Side.probe i (s.log (Call.spill_probe_blocks i))
    hreg hprep
  have hrv := open_spill_stream_rendezvous env Side.probe i
    (s.log (Call.spill_probe_blocks i))
  split
  · rename_i c s1 h1
    rw [h1] at hok
    cases hok
  · rename_i s1 h1
    rw [h1] at hrv
    have hrv1 : rendezvous_view s1 = rendezvous_view s := hrv
    split
    · have h2 := submit_func_ok env (Task.spill_probe i) s1 hsub
      refine ⟨h2.1, Or.inr ?_⟩
      rw [h2.2]
      simp only [rendezvous_view, Prod.mk.injEq] at hrv1
      rw [hrv1.1, hrv1.2.1, hrv1.2.2]
    · refine ⟨rfl, Or.inl ?_⟩
      rw [ready_if_zero_dec_rendezvous, hrv1]

theorem run_spill_task_rendezvous (env : Env) (t : Task) (s : LocalState)
    (ht : ∃ i, t = Task.spill_build i ∨ t = Task.spill_probe i) :
    rendezvous_view (run_task env t s) = task_done (rendezvous_view s) := by
  obtain ⟨i, h | h⟩ := ht
  · subst h; exact spill_build_task_rendezvous env i _ s
  · subst h; exact spill_probe_task_rendezvous env i s

theorem revoke_inv_thread_step (env : Env) (henv : spills_accepted env) (r r1 : RevokeRun)
    (hinv : RevokeInv r) (hstep : thread_step env r = some r1) : RevokeInv r1 := by
  obtain ⟨hcount, hret, hblk, hpool, hst⟩ := hinv
  unfold thread_step at hstep
  cases hr : r.returned with
  | true => simp [hr] at hstep
  | false =>
    have hnb : r.state.dependency_blocked = false := by
      cases hb : r.state.dependency_blocked with
      | false => rfl
      | true => have := (hblk hb).1; rw [hr] at this; cases this
    simp only [hr, Bool.false_eq_true, if_false] at hstep
    cases htodo : r.todo with
    | nil =>
      simp only [htodo, Option.some.injEq] at hstep
      subst hstep
      rw [htodo] at hcount
      unfold revoke_wait
      by_cases hpos : r.state.spilling_task_count > 0
      · simp only [hpos, if_true]
        exact ⟨by simpa [block] using hcount, fun _ => rfl, fun _ => ⟨rfl, hpos⟩, hpool, rfl⟩
      · simp only [hpos, if_false]
        refine ⟨by simpa using hcount, fun _ => rfl, ?_, hpool, rfl⟩
        intro h0; rw [hnb] at h0; cases h0
    | cons op rest =>
      rw [htodo] at hcount
      simp only [List.length_cons] at hcount
      cases op with
      | spill_build_block i =>
        simp only [htodo, Option.some.injEq] at hstep
        have h := spill_build_block_rendezvous env i r.state (henv.1 _ _) (henv.2.1 _ _)
          (henv.2.2 _)
        cases hres : spill_build_block env i r.state with
        | mk st s1 =>
          rw [hres] at h hstep
          obtain ⟨h1, h2⟩ := h
          simp only at h1
          subst h1
          subst hstep
          simp only [revoke_after_call]
          simp only [rendezvous_view, Prod.mk.injEq] at h2
          refine ⟨?_, ?_, ?_, ?_, hst⟩
          · rcases h2 with ⟨a, _, c⟩ | ⟨a, _, c⟩
            · rw [a, c, hcount]; push_cast; ring
            · rw [a, c, hcount]; simp only [List.length_append, List.length_singleton]
              push_cast; ring
          · intro h0; simp only [hr] at h0; cases h0
          · intro h0
            rcases h2 with ⟨_, b, _⟩ | ⟨_, b, _⟩ <;> · rw [b, hnb] at h0; cases h0
          · intro t ht
            rcases h2 with ⟨_, _, c⟩ | ⟨_, _, c⟩
            · rw [c] at ht; exact hpool t ht
            · rw [c] at ht
              rcases List.mem_append.mp ht with h3 | h3
              · exact hpool t h3
              · exact ⟨i, Or.inl (List.mem_singleton.mp h3)⟩
      | spill_probe_blocks i =>
        simp only [htodo, Option.some.injEq] at hstep
        have h := spill_probe_blocks_rendezvous env i r.state (henv.1 _ _) (henv.2.1 _ _)
          (henv.2.2 _)
        cases hres : spill_probe_blocks env i r.state with
        | mk st s1 =>
          rw [hres] at h hstep
          obtain ⟨h1, h2⟩ := h
          simp only at h1
          subst h1
          subst hstep
          simp only [revoke_after_call]
          simp only [rendezvous_view, task_done, Prod.mk.injEq] at h2
          refine ⟨?_, ?_, ?_, ?_, hst⟩
          · rcases h2 with ⟨a, _, c⟩ | ⟨a, _, c⟩
            · rw [a, c, hcount]; push_cast; ring
            · rw [a, c, hcount]; simp only [List.length_append, List.length_singleton]
              push_cast; ring
          · intro h0; simp only [hr] at h0; cases h0
          · intro h0
            rcases h2 with ⟨_, b, _⟩ | ⟨_, b, _⟩
            · rw [b, hnb] at h0; simp at h0
            · rw [b, hnb] at h0; cases h0
          · intro t ht
            rcases h2 with ⟨_, _, c⟩ | ⟨_, _, c⟩
            · rw [c] at ht; exact hpool t ht
            · rw [c] at ht
              rcases List.mem_append.mp ht with h3 | h3
              · exact hpool t h3
              · exact ⟨i, Or.inr (List.mem_singleton.mp h3)⟩

theorem revoke_inv_task_step (env : Env) (k : Nat) (r r1 : RevokeRun)
    (hinv : RevokeInv r) (hstep : task_step env k r = some r1) : RevokeInv r1 := by
  obtain ⟨hcount, hret, hblk, hpool, hst⟩ := hinv
  unfold task_step at hstep
  cases hk : r.state.thread_pool[k]? with
  | none => simp [hk] at hstep
  | some t =>
    simp only [hk, Option.some.injEq] at hstep
    subst hstep
    have hlt : k < r.state.thread_pool.length := (List.getElem?_eq_some.mp hk).1
    have hmem : t ∈ r.state.thread_pool := List.getElem?_mem hk
    have hrv := run_spill_task_rendezvous env t
      { r.state with thread_pool := r.state.thread_pool.eraseIdx k } (hpool t hmem)
    simp only [rendezvous_view, task_done, Prod.mk.injEq] at hrv
    obtain ⟨a, b, c⟩ := hrv
    have hlen : (r.state.thread_pool.eraseIdx k).length + 1 = r.state.thread_pool.length := by
      rw [List.length_eraseIdx, if_pos hlt]; omega
    refine ⟨?_, hret, ?_, ?_, hst⟩
    · show (run_task env t _).spilling_task_count
        = (r.todo.length : Int) + ((run_task env t _).thread_pool.length : Int)
      rw [a, c, hcount, ← hlen]; push_cast; ring
    · intro h0
      have h0 : (run_task env t _).dependency_blocked = true := h0
      rw [b] at h0
      by_cases hz : r.state.spilling_task_count - 1 = 0
      · simp [hz] at h0
      · simp only [hz, if_false] at h0
        have h1 := hblk h0
        refine ⟨h1.1, ?_⟩
        show 0 < (run_task env t _).spilling_task_count
        rw [a]
        omega
    · intro u hu
      have hu : u ∈ (run_task env t _).thread_pool := hu
      rw [c] at hu
      exact hpool u (List.mem_of_mem_eraseIdx hu)

theorem revoke_inv_run_events (env : Env) (henv : spills_accepted env) (events : List Event) :
    ∀ r r1 : RevokeRun, RevokeInv r → run_events env events r = some r1 → RevokeInv r1 := by
  induction events with
  | nil =>
    intro r r1 hinv h
    simp only [run_events, Option.some.injEq] at h
    subst h
    exact hinv
  | cons e es ih =>
    intro r r1 hinv h
    unfold run_events at h
    cases he : run_event env r e with
    | none => simp [he] at h
    | some r2 =>
      simp only [he] at h
      refine ih r2 r1 ?_ h
      cases e with
      | thread => exact revoke_inv_thread_step env henv r r2 hinv he
      | task k => exact revoke_inv_task_step env k r r2 hinv he

theorem run_events_append (env : Env) (a b : List Event) (r : RevokeRun) :
    run_events env (a ++ b) r = (run_events env a r).bind (run_events env b) := by
  induction a generalizing r with
  | nil => rfl
  | cons e es ih =>
    simp only [List.cons_append, run_events]
    cases run_event env r e with
    | none => rfl
    | some r1 => exact ih r1

theorem thread_step_cons (env : Env) (henv : spills_accepted env) (r : RevokeRun)
    (op : RevokeOp) (rest : List RevokeOp) (hr : r.returned = false)
    (htodo : r.todo = op :: rest) :
    ∃ r1, thread_step env r = some r1 ∧ r1.todo = rest ∧ r1.returned = false := by
  unfold thread_step
  simp only [hr, Bool.false_eq_true, if_false, htodo]
  cases op with
  | spill_build_block i =>
    have h := (spill_build_block_rendezvous env i r.state (henv.1 _ _) (henv.2.1 _ _)
      (henv.2.2 _)).1
    cases hres : spill_build_block env i r.state with
    | mk st s1 =>
      rw [hres] at h
      simp only at h
      subst h
      refine ⟨{ r with state := s1, todo := rest }, ?_, rfl, hr⟩
      simp only [hres, revoke_after_call]
  | spill_probe_blocks i =>
    have h := (spill_probe_blocks_rendezvous env i r.state (henv.1 _ _) (henv.2.1 _ _)
      (henv.2.2 _)).1
    cases hres : spill_probe_blocks env i r.state with
    | mk st s1 =>
      rw [hres] at h
      simp only at h
      subst h
      refine ⟨{ r with state := s1, todo := rest }, ?_, rfl, hr⟩
      simp only [hres, revoke_after_call]

/-- The pipeline thread can always finish its call of `_revoke_memory`. -/
theorem thread_drains (env : Env) (henv : spills_accepted env) (n : Nat) :
    ∀ r : RevokeRun, RevokeInv r → r.returned = false → r.todo.length = n →
      ∃ events r1, run_events env events r = some r1 ∧ r1.returned = true := by
  induction n with
  | zero =>
    intro r _ hr hn
    have htodo : r.todo = [] := List.length_eq_zero.mp hn
    refine ⟨[Event.thread],
      { state := (revoke_wait r.state).2.2, todo := [], returned := true,
        status := (revoke_wait r.state).1, wait_for_io := (revoke_wait r.state).2.1 }, ?_, rfl⟩
    simp only [run_events, run_event, thread_step, hr, Bool.false_eq_true, if_false, htodo]
  | succ n ih =>
    intro r hinv hr hn
    cases htodo : r.todo with
    | nil => rw [htodo] at hn; cases hn
    | cons op rest =>
      obtain ⟨r1, h1, h2, h3⟩ := thread_step_cons env henv r op rest hr htodo
      have hinv1 := revoke_inv_thread_step env henv r r1 hinv h1
      have hlen : r1.todo.length = n := by
        rw [h2]; rw [htodo] at hn; simpa using hn
      obtain ⟨events, r2, h4, h5⟩ := ih r1 hinv1 h3 hlen
      refine ⟨Event.thread :: events, r2, ?_, h5⟩
      simp only [run_events, run_event, h1, h4]

/-- The tasks waiting in the pool can always be run to the last. -/
theorem pool_drains (env : Env) (n : Nat) :
    ∀ r : RevokeRun, RevokeInv r → r.state.thread_pool.length = n →
      ∃ events r1, run_events env events r = some r1 ∧ r1.state.thread_pool = [] ∧
        r1.returned = r.returned := by
  induction n with
  | zero =>
    intro r _ hn
    exact ⟨[], r, rfl, List.length_eq_zero.mp hn, rfl⟩
  | succ n ih =>
    intro r hinv hn
    cases hpool : r.state.thread_pool with
    | nil => rw [hpool] at hn; cases hn
    | cons t ts =>
      have hstep : task_step env 0 r
          = some { r with state := run_task env t { r.state with thread_pool := ts } } := by
        simp [task_step, hpool]
      have hinv1 := revoke_inv_task_step env 0 r _ hinv hstep
      have hspill : ∃ i, t = Task.spill_build i ∨ t = Task.spill_probe i :=
        hinv.2.2.2.1 t (by rw [hpool]; exact List.mem_cons_self _ _)
      have hrv := run_spill_task_rendezvous env t { r.state with thread_pool := ts } hspill
      simp only [rendezvous_view, task_done, Prod.mk.injEq] at hrv
      have hlen : (run_task env t { r.state with thread_pool := ts }).thread_pool.length = n := by
        rw [hrv.2.2]; rw [hpool] at hn; simpa using hn
      obtain ⟨events, r2, h4, h5, h6⟩ := ih _ hinv1 hlen
      refine ⟨Event.task 0 :: events, r2, ?_, h5, h6⟩
      simp only [run_events, run_event, hstep, h4]

theorem revoke_ops_length (l : List Nat) : (revoke_ops l).length = 2 * l.length := by
  induction l with
  | nil => rfl
  | cons i rest ih =>
    simp only [revoke_ops, List.flatMap_cons, List.length_append, List.length_cons,
      List.length_nil] at ih ⊢
    omega

theorem revoke_start_inv (N : Nat) (s : LocalState) (hpool : s.thread_pool = [])
    (hgate : s.dependency_blocked = false) : RevokeInv (revoke_start N s) := by
  refine ⟨?_, ?_, ?_, ?_, rfl⟩
  · simp only [revoke_start, hpool, revoke_ops_length, partitions_ahead, List.length_range',
      List.length_nil]
    push_cast
    omega
  · intro h; cases h
  · intro h
    simp only [revoke_start, hgate] at h
    cases h
  · intro t ht
    simp only [revoke_start, hpool] at ht
    cases ht

/-- The pipeline thread running alone through the steps of the interleaved model computes
`_revoke_memory`. -/
theorem thread_alone (env : Env) (l : List Nat) :
    ∀ s0 : LocalState, ∃ n r,
      run_events env (List.replicate n Event.thread)
        { state := s0, todo := revoke_ops l, returned := false, status := Status.OK,
          wait_for_io := false } = some r ∧
      r.returned = true ∧
      (r.status, r.wait_for_io, r.state)
        = (match revoke_loop env l s0 with
           | (Status.Error c, s1) => (Status.Error c, false, s1)
           | (Status.OK, s1) => revoke_wait s1) := by
  induction l with
  | nil =>
    intro s0
    exact ⟨1, _, rfl, rfl, rfl⟩
  | cons i rest ih =>
    intro s0
    have hops : revoke_ops (i :: rest)
        = RevokeOp.spill_build_block i :: RevokeOp.spill_probe_blocks i :: revoke_ops rest := rfl
    rw [hops]
    cases hb : spill_build_block env i s0 with
    | mk st s1 =>
      cases st with
      | Error c =>
        refine ⟨1, ⟨s1, [], true, Status.Error c, false⟩, ?_, rfl, ?_⟩
        · simp [List.replicate, run_events, run_event, thread_step, hb, revoke_after_call]
        · simp [revoke_loop, hb]
      | OK =>
        cases hp : spill_probe_blocks env i s1 with
        | mk st2 s2 =>
          cases st2 with
          | Error c =>
            refine ⟨2, ⟨s2, [], true, Status.Error c, false⟩, ?_, rfl, ?_⟩
            · simp [List.replicate, run_events, run_event, thread_step, hb, hp,
                revoke_after_call]
            · simp [revoke_loop, hb, hp]
          | OK =>
            obtain ⟨n, r, h1, h2, h3⟩ := ih s2
            refine ⟨n + 2, r, ?_, h2, ?_⟩
            · simp only [List.replicate, run_events, run_event, thread_step, hb, hp,
                revoke_after_call, Bool.false_eq_true, if_false]
              exact h1
            · rw [h3]
              simp [revoke_loop, hb, hp]

/-- C6, as amended (rendezvous completion): for a call of `_revoke_memory` with
`cursor + 1 < N`, made with an empty pool and a ready gate, in which every spill call gets
its stream opened and its task accepted (whatever the writes do): in every order in which
the pipeline thread steps through the call and the submitted tasks run, each from its start
to its end, the counter is never negative, and once the call returned and every task ran
the counter is 0 and the gate is ready; every such run can be continued until that point;
and the thread alone runs `_revoke_memory`. -/
theorem revoke_rendezvous (env : Env) (N : Nat) (s : LocalState)
    (hc : s.partition_cursor + 1 < N) (hpool : s.thread_pool = [])
    (hgate : s.dependency_blocked = false) (henv : spills_accepted env) :
    (∀ events r, run_events env events (revoke_start N s) = some r →
      0 ≤ r.state.spilling_task_count ∧
      (r.completed → r.state.spilling_task_count = 0 ∧ r.state.dependency_blocked = false)) ∧
    (∀ events r, run_events env events (revoke_start N s) = some r →
      ∃ more r1, run_events env more r = some r1 ∧ r1.completed) ∧
    (∃ n r, run_events env (List.replicate n Event.thread) (revoke_start N s) = some r ∧
      r.returned = true ∧ (r.status, r.wait_for_io, r.state) = _revoke_memory env N s) := by
  have hinv0 := revoke_start_inv N s hpool hgate
  refine ⟨?_, ?_, ?_⟩
  · intro events r hrun
    obtain ⟨hcount, hret, hblk, _, _⟩ := revoke_inv_run_events env henv events _ r hinv0 hrun
    refine ⟨by rw [hcount]; positivity, ?_⟩
    intro hdone
    have h0 : r.state.spilling_task_count = 0 := by
      rw [hcount, hret hdone.1, hdone.2]; rfl
    refine ⟨h0, ?_⟩
    cases hb : r.state.dependency_blocked with
    | false => rfl
    | true => have := (hblk hb).2; omega
  · intro events r hrun
    have hinv := revoke_inv_run_events env henv events _ r hinv0 hrun
    cases hr : r.returned with
    | false =>
      obtain ⟨ev1, r1, h1, h2⟩ := thread_drains env henv _ r hinv hr rfl
      have hinv1 := revoke_inv_run_events env henv ev1 r r1 hinv h1
      obtain ⟨ev2, r2, h3, h4, h5⟩ := pool_drains env _ r1 hinv1 rfl
      refine ⟨ev1 ++ ev2, r2, ?_, ?_, h4⟩
      · rw [run_events_append, h1]; exact h3
      · rw [h5, h2]
    | true =>
      obtain ⟨ev2, r2, h3, h4, h5⟩ := pool_drains env _ r hinv rfl
      exact ⟨ev2, r2, h3, by rw [h5, hr], h4⟩
  · obtain ⟨n, r, h1, h2, h3⟩ := thread_alone env (partitions_ahead N s.partition_cursor)
      { s with spilling_task_count := ((N - s.partition_cursor - 1) * 2 : Nat) }
    refine ⟨n, r, h1, h2, ?_⟩
    rw [h3]
    have hN : N > s.partition_cursor + 1 := hc
    simp only [_revoke_memory, hN, if_true]

/-- Scenario B as an instance of C6: `cursor = 0`, `N = 4`; after the six decrements of
the schedule `scenario_b_events` the call returned, the pool is empty, the counter is 0 and
the gate is ready. -/
theorem revoke_rendezvous_witness :
    scenario_b_state.partition_cursor + 1 < 4 ∧
    (revoke_start 4 scenario_b_state).state.spilling_task_count = 6 ∧
    ∃ r, run_events ok_env scenario_b_events (revoke_start 4 scenario_b_state) = some r ∧
      r.completed ∧ r.state.spilling_task_count = 0 ∧ r.state.dependency_blocked = false := by
  have hsome : (run_events ok_env scenario_b_events (revoke_start 4 scenario_b_state)).isSome
      = true := by decide
  have hrun : run_events ok_env scenario_b_events (revoke_start 4 scenario_b_state)
      = some ((run_events ok_env scenario_b_events (revoke_start 4 scenario_b_state)).get hsome) :=
    (Option.some_get hsome).symm
  have hdone : ((run_events ok_env scenario_b_events
      (revoke_start 4 scenario_b_state)).get hsome).completed := ⟨rfl, rfl⟩
  have h := (revoke_rendezvous ok_env 4 scenario_b_state (by decide) rfl rfl
    ⟨fun _ _ => rfl, fun _ _ => rfl, fun _ => rfl⟩).1 scenario_b_events _ hrun
  exact ⟨by decide, by decide, _, hrun, hdone, h.2 hdone⟩

/-- C6 as stated fails when a spill stream cannot be opened: every submission succeeds and
no write fails, but the stream manager refuses to register the build stream of partition 1,
so `_revoke_memory` returns the error at its first spill call. No task was submitted, the
call returned, and the counter stays at 6. -/
theorem revoke_rendezvous_needs_streams :
    (∀ t, env_register_fails.submit_func t = Status.OK) ∧
    (∀ side i b, env_register_fails.spill_block side i b = Status.OK) ∧
    scenario_b_state.partition_cursor + 1 < 4 ∧
    (∃ r, run_events env_register_fails [Event.thread] (revoke_start 4 scenario_b_state)
        = some r ∧ r.completed ∧ r.status = Status.Error 5 ∧
        r.state.spilling_task_count = 6) ∧
    (_revoke_memory env_register_fails 4 scenario_b_state).1 = Status.Error 5 ∧
    (_revoke_memory env_register_fails 4 scenario_b_state).2.2.thread_pool = [] ∧
    (_revoke_memory env_register_fails 4 scenario_b_state).2.2.spilling_task_count = 6 := by
  refine ⟨fun _ => rfl, fun _ _ _ => rfl, by decide, ⟨_, rfl, ⟨rfl, rfl⟩, rfl, rfl⟩,
    rfl, rfl, rfl⟩

/-! ### The calls issued by `_revoke_memory` -/

theorem spill_calls_append (a b : List Call) :
    spill_calls (a ++ b) = spill_calls a ++ spill_calls b := by
  simp [spill_calls, List.filter_append]

theorem logs_spill_calls_refl (s : LocalState) : logs_spill_calls s s [] :=
  ⟨[], by simp, rfl⟩

theorem logs_spill_calls_trans (s t u : LocalState) (X Y : List Call)
    (h1 : logs_spill_calls s t X) (h2 : logs_spill_calls t u Y) :
    logs_spill_calls s u (X ++ Y) := by
  obtain ⟨n1, e1, f1⟩ := h1
  obtain ⟨n2, e2, f2⟩ := h2
  exact ⟨n1 ++ n2, by rw [e2, e1, List.append_assoc], by rw [spill_calls_append, f1, f2]⟩

theorem set_stream_calls (s : LocalState) (side : Side) (i : Nat) (st : Option SpillStream) :
    (set_stream s side i st).calls = s.calls := by
  cases side <;> rfl

theorem open_spill_stream_logs (env : Env) (side : Side) (i : Nat) (s : LocalState) :
    logs_spill_calls s (open_spill_stream env side i s).2 [] := by
  unfold open_spill_stream
  split
  · exact logs_spill_calls_refl s
  · split
    · exact ⟨[Call.register_spill_stream side i], rfl, rfl⟩
    · exact ⟨[Call.register_spill_stream side i], by rw [set_stream_calls]; rfl, rfl⟩

theorem submit_func_logs (env : Env) (t : Task) (s : LocalState) :
    logs_spill_calls s (submit_func env t s).2 [] := by
  unfold submit_func
  split
  · exact ⟨[Call.submit_func t], rfl, rfl⟩
  · exact ⟨[Call.submit_func t], rfl, rfl⟩

theorem ready_if_zero_calls (s : LocalState) : (ready_if_zero s).calls = s.calls := by
  unfold ready_if_zero
  split <;> rfl

theorem spill_build_block_logs (env : Env) (i : Nat) (s : LocalState) :
    logs_spill_calls s (spill_build_block env i s).2 [Call.spill_build_block i] := by
  have h0 : logs_spill_calls s (s.log (Call.spill_build_block i)) [Call.spill_build_block i] :=
    ⟨[Call.spill_build_block i], rfl, rfl⟩
  unfold spill_build_block
  simp only []
  split
  · exact h0
  · have h1 := open_spill_stream_logs env Side.build i (s.log (Call.spill_build_block i))
    split
    · rename_i c s1 h2
      rw [h2] at h1
      exact logs_spill_calls_trans _ _ _ _ _ h0 h1
    · rename_i s1 h2
      rw [h2] at h1
      exact logs_spill_calls_trans _ _ _ _ _ (logs_spill_calls_trans _ _ _ _ _ h0 h1)
        (submit_func_logs env _ s1)

theorem spill_probe_blocks_logs (env : Env) (i : Nat) (s : LocalState) :
    logs_spill_calls s (spill_probe_blocks env i s).2 [Call.spill_probe_blocks i] := by
  have h0 : logs_spill_calls s (s.log (Call.spill_probe_blocks i)) [Call.spill_probe_blocks i] :=
    ⟨[Call.spill_probe_blocks i], rfl, rfl⟩
  unfold spill_probe_blocks
  simp only []
  have h1 := open_spill_stream_logs env Side.probe i (s.log (Call.spill_probe_blocks i))
  split
  · rename_i c s1 h2
    rw [h2] at h1
    exact logs_spill_calls_trans _ _ _ _ _ h0 h1
  · rename_i s1 h2
    rw [h2] at h1
    have h3 : logs_spill_calls s s1 [Call.spill_probe_blocks i] :=
      logs_spill_calls_trans _ _ _ _ _ h0 h1
    split
    · exact logs_spill_calls_trans _ _ _ _ _ h3 (submit_func_logs env _ s1)
    · obtain ⟨new, e, f⟩ := h3
      exact ⟨new, by rw [ready_if_zero_calls]; exact e, f⟩

/-- The loop of `_revoke_memory` issues a prefix of the spill calls of its partitions, in
order, and all of them when it returns OK. -/
theorem revoke_loop_logs (env : Env) (l : List Nat) :
    ∀ s : LocalState, ∃ X, logs_spill_calls s (revoke_loop env l s).2 X ∧
      X <+: revoke_calls l ∧ ((revoke_loop env l s).1 = Status.OK → X = revoke_calls l) := by
  induction l with
  | nil =>
    intro s
    exact ⟨[], logs_spill_calls_refl s, List.prefix_refl _, fun _ => rfl⟩
  | cons i rest ih =>
    intro s
    have hcalls : revoke_calls (i :: rest)
        = [Call.spill_build_block i] ++ ([Call.spill_probe_blocks i] ++ revoke_calls rest) := rfl
    have hb := spill_build_block_logs env i s
    unfold revoke_loop
    cases hres : spill_build_block env i s with
    | mk st s1 =>
      rw [hres] at hb
      cases st with
      | Error c =>
        refine ⟨_, hb, ?_, ?_⟩
        · rw [hcalls]; exact List.prefix_append _ _
        · intro h; cases h
      | OK =>
        have hp := spill_probe_blocks_logs env i s1
        cases hres2 : spill_probe_blocks env i s1 with
        | mk st2 s2 =>
          rw [hres2] at hp
          have hbp := logs_spill_calls_trans _ _ _ _ _ hb hp
          cases st2 with
          | Error c =>
            simp only [hres2]
            refine ⟨_, hbp, ?_, ?_⟩
            · rw [hcalls, ← List.append_assoc]; exact List.prefix_append _ _
            · intro h; cases h
          | OK =>
            simp only [hres2]
            obtain ⟨X, h1, h2, h3⟩ := ih s2
            refine ⟨_, logs_spill_calls_trans _ _ _ _ _ hbp h1, ?_, ?_⟩
            · rw [hcalls, List.append_assoc]
              exact (List.prefix_append_right_inj _).mpr
                ((List.prefix_append_right_inj _).mpr h2)
            · intro h
              rw [h3 h, hcalls, List.append_assoc]

theorem count_revoke_calls (l : List Nat) (i : Nat) :
    (revoke_calls l).count (Call.spill_build_block i) = l.count i ∧
    (revoke_calls l).count (Call.spill_probe_blocks i) = l.count i := by
  induction l with
  | nil => exact ⟨rfl, rfl⟩
  | cons j rest ih =>
    have hcalls : revoke_calls (j :: rest)
        = Call.spill_build_block j :: Call.spill_probe_blocks j :: revoke_calls rest := rfl
    rw [hcalls]
    simp only [List.count_cons, ih.1, ih.2]
    by_cases h : j = i
    · subst h; simp
    · simp [h]

theorem count_partitions_ahead (N cursor i : Nat) :
    (partitions_ahead N cursor).count i = if cursor < i ∧ i < N then 1 else 0 := by
  unfold partitions_ahead
  rw [List.count_eq_of_nodup (List.nodup_range' _ _)]
  simp only [List.mem_range'_1]
  by_cases h : cursor < i ∧ i < N
  · rw [if_pos h, if_pos]; omega
  · rw [if_neg h, if_neg]; omega

theorem revoke_ops_cons (i : Nat) (rest : List Nat) :
    revoke_ops (i :: rest)
      = RevokeOp.spill_build_block i :: RevokeOp.spill_probe_blocks i :: revoke_ops rest := rfl

theorem revoke_ops_log (l : List Nat) : (revoke_ops l).map revoke_op_log = revoke_calls l := by
  induction l with
  | nil => rfl
  | cons i rest ih =>
    rw [revoke_ops_cons]
    show Call.spill_build_block i :: Call.spill_probe_blocks i
      :: (revoke_ops rest).map revoke_op_log = _
    rw [ih]
    rfl

theorem revoke_op_call_logs (env : Env) (op : RevokeOp) (s : LocalState) :
    logs_spill_calls s (revoke_op_call env op s).2 [revoke_op_log op] := by
  cases op with
  | spill_build_block i => exact spill_build_block_logs env i s
  | spill_probe_blocks i => exact spill_probe_blocks_logs env i s

theorem calls_all_ok_logs (env : Env) :
    ∀ (ops : List RevokeOp) (s pre : LocalState), calls_all_ok env ops s = some pre →
      logs_spill_calls s pre (ops.map revoke_op_log) := by
  intro ops
  induction ops with
  | nil =>
    intro s pre h
    simp only [calls_all_ok, Option.some.injEq] at h
    subst h
    exact logs_spill_calls_refl s
  | cons op rest ih =>
    intro s pre h
    have hl := revoke_op_call_logs env op s
    unfold calls_all_ok at h
    cases hres : revoke_op_call env op s with
    | mk st s1 =>
      rw [hres] at h hl
      cases st with
      | Error c => simp at h
      | OK =>
        simp only at h
        exact logs_spill_calls_trans _ _ _ _ _ hl (ih s1 pre h)

theorem calls_all_ok_cons_ok (env : Env) (op : RevokeOp) (rest : List RevokeOp)
    (s s1 : LocalState) (h : revoke_op_call env op s = (Status.OK, s1)) :
    calls_all_ok env (op :: rest) s = calls_all_ok env rest s1 := by
  simp only [calls_all_ok, h]

/-- The loop of `_revoke_memory` stops at the first call that returns an error: when it
returns an error, some first calls of the loop returned OK one after the other, the next call
returned that error, and the loop returned with the state that this call left; when it
returns OK, every call of the loop returned OK. -/
theorem revoke_loop_stops (env : Env) (l : List Nat) :
    ∀ s : LocalState,
      (∀ c, (revoke_loop env l s).1 = Status.Error c →
        ∃ k op pre, (revoke_ops l)[k]? = some op ∧
          calls_all_ok env ((revoke_ops l).take k) s = some pre ∧
          revoke_op_call env op pre = (Status.Error c, (revoke_loop env l s).2)) ∧
      ((revoke_loop env l s).1 = Status.OK →
        calls_all_ok env (revoke_ops l) s = some (revoke_loop env l s).2) := by
  induction l with
  | nil =>
    intro s
    exact ⟨fun c h => (by cases h), fun _ => rfl⟩
  | cons i rest ih =>
    intro s
    rw [revoke_ops_cons]
    cases hres : spill_build_block env i s with
    | mk st s1 =>
      have hcall1 : revoke_op_call env (RevokeOp.spill_build_block i) s = (st, s1) := hres
      cases st with
      | Error c1 =>
        have hval : revoke_loop env (i :: rest) s = (Status.Error c1, s1) := by
          simp only [revoke_loop, hres]
        rw [hval]
        refine ⟨fun c h => ?_, fun h => by cases h⟩
        have hc : c1 = c := by injection h
        subst hc
        exact ⟨0, RevokeOp.spill_build_block i, s, by simp, rfl, hcall1⟩
      | OK =>
        cases hres2 : spill_probe_blocks env i s1 with
        | mk st2 s2 =>
          have hcall2 : revoke_op_call env (RevokeOp.spill_probe_blocks i) s1 = (st2, s2) :=
            hres2
          cases st2 with
          | Error c2 =>
            have hval : revoke_loop env (i :: rest) s = (Status.Error c2, s2) := by
              simp only [revoke_loop, hres, hres2]
            rw [hval]
            refine ⟨fun c h => ?_, fun h => by cases h⟩
            have hc : c2 = c := by injection h
            subst hc
            refine ⟨1, RevokeOp.spill_probe_blocks i, s1, by simp, ?_, hcall2⟩
            show calls_all_ok env [RevokeOp.spill_build_block i] s = some s1
            rw [calls_all_ok_cons_ok env _ _ s s1 hcall1]
            rfl
          | OK =>
            have hval : revoke_loop env (i :: rest) s = revoke_loop env rest s2 := by
              simp only [revoke_loop, hres, hres2]
            rw [hval]
            obtain ⟨ih1, ih2⟩ := ih s2
            refine ⟨fun c h => ?_, fun h => ?_⟩
            · obtain ⟨k, op, pre, g1, g2, g3⟩ := ih1 c h
              refine ⟨k + 2, op, pre, ?_, ?_, g3⟩
              · simpa using g1
              · show calls_all_ok env (RevokeOp.spill_build_block i
                  :: RevokeOp.spill_probe_blocks i :: (revoke_ops rest).take k) s = some pre
                rw [calls_all_ok_cons_ok env _ _ s s1 hcall1,
                  calls_all_ok_cons_ok env _ _ s1 s2 hcall2]
                exact g2
            · rw [calls_all_ok_cons_ok env _ _ s s1 hcall1,
                calls_all_ok_cons_ok env _ _ s1 s2 hcall2]
              exact ih2 h

theorem take_succ_map_log (ops : List RevokeOp) (k : Nat) (op : RevokeOp)
    (h : ops[k]? = some op) :
    (ops.take k).map revoke_op_log ++ [revoke_op_log op]
      = (ops.map revoke_op_log).take (k + 1) := by
  rw [List.take_succ, List.map_take, List.getElem?_map, h]
  rfl

theorem revoke_count_u32_eq (N cursor : Nat) (h : N - cursor - 1 < 2 ^ 31) :
    revoke_count_u32 N cursor = 2 * (N - cursor - 1) := by
  unfold revoke_count_u32
  rw [Nat.mod_eq_of_lt (by omega)]
  omega

/-- C5, as amended (scope and counter of `_revoke_memory`): when `cursor + 1 < N` the
function first sets the counter to `2 * (N - cursor - 1)`, which for
`N - cursor - 1 < 2 ^ 30` is the product that the code computes in `uint32_t` and is below
`2 ^ 31`, so that it fits a signed 32-bit counter, with no call issued yet, and then runs
the loop of spill calls; the spill calls it issues are a prefix of `spill_build_block i, spill_probe_blocks i`
for `i = cursor + 1, ..., N - 1`, so none is issued twice or for an index at most the
cursor; when it returns OK they are all of them, exactly one `spill_build_block` and one
`spill_probe_blocks` for each `i` with `cursor < i < N`, and every one of them returned OK;
when it returns an error, the loop stopped at the first call that returned an error: the
calls before it returned OK one after the other, that call returned the error and left the
state with which the function returns, `wait_for_io` is false, and the spill calls issued
are the calls up to that one. When `cursor + 1 ≥ N` it returns OK with
`wait_for_io = false` and the state, counter and log included, unchanged. -/
theorem revoke_memory_scope (env : Env) (N : Nat) (s : LocalState) :
    (s.partition_cursor + 1 < N →
      (with_revoke_counter N s).spilling_task_count
        = ((2 * (N - s.partition_cursor - 1) : Nat) : Int) ∧
      (N - s.partition_cursor - 1 < 2 ^ 30 →
        (with_revoke_counter N s).spilling_task_count
          = ((revoke_count_u32 N s.partition_cursor : Nat) : Int) ∧
        (with_revoke_counter N s).spilling_task_count < 2 ^ 31) ∧
      (with_revoke_counter N s).calls = s.calls ∧
      _revoke_memory env N s
        = (match revoke_loop env (partitions_ahead N s.partition_cursor)
              (with_revoke_counter N s) with
           | (Status.Error c, s1) => (Status.Error c, false, s1)
           | (Status.OK, s1) => revoke_wait s1) ∧
      ∃ new, (_revoke_memory env N s).2.2.calls = s.calls ++ new ∧
        spill_calls new <+: revoke_calls (partitions_ahead N s.partition_cursor) ∧
        (∀ i, new.count (Call.spill_build_block i)
              ≤ (if s.partition_cursor < i ∧ i < N then 1 else 0) ∧
            new.count (Call.spill_probe_blocks i)
              ≤ (if s.partition_cursor < i ∧ i < N then 1 else 0)) ∧
        ((_revoke_memory env N s).1 = Status.OK →
          spill_calls new = revoke_calls (partitions_ahead N s.partition_cursor) ∧
          ∀ i, new.count (Call.spill_build_block i)
                = (if s.partition_cursor < i ∧ i < N then 1 else 0) ∧
              new.count (Call.spill_probe_blocks i)
                = (if s.partition_cursor < i ∧ i < N then 1 else 0)) ∧
        ((_revoke_memory env N s).1 = Status.OK →
          ∃ s1, calls_all_ok env (revoke_ops (partitions_ahead N s.partition_cursor))
              (with_revoke_counter N s) = some s1 ∧
            _revoke_memory env N s = revoke_wait s1) ∧
        (∀ c, (_revoke_memory env N s).1 = Status.Error c →
          ∃ k op pre,
            (revoke_ops (partitions_ahead N s.partition_cursor))[k]? = some op ∧
            calls_all_ok env ((revoke_ops (partitions_ahead N s.partition_cursor)).take k)
              (with_revoke_counter N s) = some pre ∧
            revoke_op_call env op pre = (Status.Error c, (_revoke_memory env N s).2.2) ∧
            (_revoke_memory env N s).2.1 = false ∧
            spill_calls new
              = (revoke_calls (partitions_ahead N s.partition_cursor)).take (k + 1))) ∧
    (N ≤ s.partition_cursor + 1 → _revoke_memory env N s = (Status.OK, false, s)) := by
  constructor
  · intro hc
    have hN : N > s.partition_cursor + 1 := hc
    have heq : _revoke_memory env N s
        = (match revoke_loop env (partitions_ahead N s.partition_cursor)
              (with_revoke_counter N s) with
           | (Status.Error c, s1) => (Status.Error c, false, s1)
           | (Status.OK, s1) => revoke_wait s1) := by
      simp only [_revoke_memory, hN, if_true, with_revoke_counter]
      have h2 : (N - s.partition_cursor - 1) * 2 = 2 * (N - s.partition_cursor - 1) :=
        Nat.mul_comm _ _
      rw [h2]
    refine ⟨rfl, ?_, rfl, heq, ?_⟩
    · intro h30
      refine ⟨?_, ?_⟩
      · rw [revoke_count_u32_eq N s.partition_cursor (by omega)]
        rfl
      · show ((2 * (N - s.partition_cursor - 1) : Nat) : Int) < 2 ^ 31
        have hlt : 2 * (N - s.partition_cursor - 1) < 2 ^ 31 := by omega
        exact_mod_cast hlt
    obtain ⟨X, ⟨new, hnew, hX⟩, hpre, hall⟩ :=
      revoke_loop_logs env (partitions_ahead N s.partition_cursor) (with_revoke_counter N s)
    obtain ⟨hstop, hallok⟩ :=
      revoke_loop_stops env (partitions_ahead N s.partition_cursor) (with_revoke_counter N s)
    have hcalls : (_revoke_memory env N s).2.2.calls = s.calls ++ new := by
      rw [heq]
      cases hres : revoke_loop env (partitions_ahead N s.partition_cursor)
          (with_revoke_counter N s) with
      | mk st s1 =>
        rw [hres] at hnew
        cases st with
        | Error c => exact hnew
        | OK =>
          simp only [revoke_wait]
          split <;> exact hnew
    have hstatus : (_revoke_memory env N s).1
        = (revoke_loop env (partitions_ahead N s.partition_cursor)
            (with_revoke_counter N s)).1 := by
      rw [heq]
      cases hres : revoke_loop env (partitions_ahead N s.partition_cursor)
          (with_revoke_counter N s) with
      | mk st s1 =>
        cases st with
        | Error c => rfl
        | OK =>
          simp only [revoke_wait]
          split <;> rfl
    have hcb : ∀ i, new.count (Call.spill_build_block i)
        = (spill_calls new).count (Call.spill_build_block i) := by
      intro i
      exact (List.count_filter rfl).symm
    have hcp : ∀ i, new.count (Call.spill_probe_blocks i)
        = (spill_calls new).count (Call.spill_probe_blocks i) := by
      intro i
      exact (List.count_filter rfl).symm
    refine ⟨new, hcalls, by rw [hX]; exact hpre, ?_, ?_, ?_, ?_⟩
    · intro i
      rw [hcb, hcp, hX, ← count_partitions_ahead,
        ← (count_revoke_calls (partitions_ahead N s.partition_cursor) i).1]
      refine ⟨hpre.count_le _, ?_⟩
      rw [(count_revoke_calls (partitions_ahead N s.partition_cursor) i).1,
        ← (count_revoke_calls (partitions_ahead N s.partition_cursor) i).2]
      exact hpre.count_le _
    · intro hok
      rw [hstatus] at hok
      have hfull := hall hok
      refine ⟨by rw [hX, hfull], ?_⟩
      intro i
      rw [hcb, hcp, hX, hfull, (count_revoke_calls _ i).1, (count_revoke_calls _ i).2,
        count_partitions_ahead]
      exact ⟨rfl, rfl⟩
    · intro hok
      rw [hstatus] at hok
      refine ⟨_, hallok hok, ?_⟩
      rw [heq]
      cases hres : revoke_loop env (partitions_ahead N s.partition_cursor)
          (with_revoke_counter N s) with
      | mk st s1 =>
        rw [hres] at hok
        have hst : st = Status.OK := hok
        subst hst
        rfl
    · intro c herr
      rw [hstatus] at herr
      obtain ⟨k, op, pre, g1, g2, g3⟩ := hstop c herr
      have hfinal : (_revoke_memory env N s).2.1 = false ∧
          (_revoke_memory env N s).2.2
            = (revoke_loop env (partitions_ahead N s.partition_cursor)
                (with_revoke_counter N s)).2 := by
        rw [heq]
        cases hres : revoke_loop env (partitions_ahead N s.partition_cursor)
            (with_revoke_counter N s) with
        | mk st s1 =>
          rw [hres] at herr
          have hst : st = Status.Error c := herr
          subst hst
          exact ⟨rfl, rfl⟩
      refine ⟨k, op, pre, g1, g2, by rw [hfinal.2]; exact g3, hfinal.1, ?_⟩
      obtain ⟨n1, e1, f1⟩ := calls_all_ok_logs env _ _ pre g2
      have hl2 := revoke_op_call_logs env op pre
      rw [g3] at hl2
      obtain ⟨n2, e2, f2⟩ := hl2
      have e2s : (revoke_loop env (partitions_ahead N s.partition_cursor)
          (with_revoke_counter N s)).2.calls = pre.calls ++ n2 := e2
      have e1s : pre.calls = s.calls ++ n1 := e1
      have hnew2 : new = n1 ++ n2 := by
        have h3 : s.calls ++ new = s.calls ++ (n1 ++ n2) := by
          rw [← hcalls, hfinal.2, e2s, e1s, List.append_assoc]
        exact List.append_cancel_left h3
      rw [hnew2, spill_calls_append, f1, f2, take_succ_map_log _ k op g1, revoke_ops_log]
  · intro hc
    have hN : ¬ N > s.partition_cursor + 1 := by omega
    simp only [_revoke_memory, hN, if_false]

/-- Scenario B as an instance of C5: `cursor = 0`, `N = 4`; the counter is set to 6 and the
six spill calls of the partitions 1, 2, 3 are issued, in order. -/
theorem revoke_memory_scope_witness :
    scenario_b_state.partition_cursor + 1 < 4 ∧
    (with_revoke_counter 4 scenario_b_state).spilling_task_count = 6 ∧
    (_revoke_memory ok_env 4 scenario_b_state).1 = Status.OK ∧
    spill_calls (_revoke_memory ok_env 4 scenario_b_state).2.2.calls
      = [Call.spill_build_block 1, Call.spill_probe_blocks 1, Call.spill_build_block 2,
         Call.spill_probe_blocks 2, Call.spill_build_block 3, Call.spill_probe_blocks 3] := by
  have hc : scenario_b_state.partition_cursor + 1 < 4 := by decide
  obtain ⟨new, h1, _, _, h2, _, _⟩ :=
    ((revoke_memory_scope ok_env 4 scenario_b_state).1 hc).2.2.2.2
  have hok : (_revoke_memory ok_env 4 scenario_b_state).1 = Status.OK := rfl
  refine ⟨hc, rfl, hok, ?_⟩
  rw [h1, spill_calls_append, (h2 hok).1]
  rfl

/-- C5 as stated fails when a spill call returns an error: with four partitions, cursor 0
and a stream manager that refuses to register a build stream, `_revoke_memory` returns the
error after `spill_build_block(1)`, so that no `spill_probe_blocks` and no call for the
partitions 2 and 3 is issued. It fails as well where the 32-bit product wraps: with
`N - cursor - 1 = 2 ^ 31` the code computes the counter 0. -/
theorem revoke_memory_stops_at_error :
    scenario_b_state.partition_cursor + 1 < 4 ∧
    (_revoke_memory env_register_fails 4 scenario_b_state).1 = Status.Error 5 ∧
    spill_calls (_revoke_memory env_register_fails 4 scenario_b_state).2.2.calls
      = [Call.spill_build_block 1] ∧
    (_revoke_memory env_register_fails 4 scenario_b_state).2.2.calls.count
      (Call.spill_probe_blocks 1) = 0 ∧
    (_revoke_memory env_register_fails 4 scenario_b_state).2.2.calls.count
      (Call.spill_build_block 2) = 0 ∧
    revoke_count_u32 (2 ^ 31 + 1) 0 = 0 := by
  refine ⟨by decide, rfl, rfl, rfl, rfl, by norm_num [revoke_count_u32]⟩

/-! ### Failures -/

/-- C7 (submission-failure decrement), the code at failing inputs: when the pool rejects the
task, `spill_build_block` and `spill_probe_blocks` return the error without decrementing the
counter, so `_revoke_memory` returns with the counter at 6 and no task in the pool to bring
it to zero; `recovery_build_blocks_from_disk` and `recovery_probe_blocks_from_disk` do take
back their increment, and leave the gate blocked with no task in the pool to set it
ready. -/
theorem submit_failure_keeps_counter :
    (spill_build_block env_submit_fails 1 (with_revoke_counter 4 scenario_b_state)).1
      = Status.Error 6 ∧
    (spill_build_block env_submit_fails 1
      (with_revoke_counter 4 scenario_b_state)).2.spilling_task_count = 6 ∧
    (spill_probe_blocks env_submit_fails 1 (with_revoke_counter 4 scenario_b_state)).1
      = Status.Error 6 ∧
    (spill_probe_blocks env_submit_fails 1
      (with_revoke_counter 4 scenario_b_state)).2.spilling_task_count = 6 ∧
    (_revoke_memory env_submit_fails 4 scenario_b_state).1 = Status.Error 6 ∧
    (_revoke_memory env_submit_fails 4 scenario_b_state).2.2.spilling_task_count = 6 ∧
    (_revoke_memory env_submit_fails 4 scenario_b_state).2.2.thread_pool = [] ∧
    (recovery_build_blocks_from_disk env_submit_fails 1 state_spilled).1 = Status.Error 6 ∧
    (recovery_build_blocks_from_disk env_submit_fails 1 state_spilled).2.2.spilling_task_count
      = state_spilled.spilling_task_count ∧
    (recovery_build_blocks_from_disk env_submit_fails 1 state_spilled).2.2.dependency_blocked
      = true ∧
    (recovery_build_blocks_from_disk env_submit_fails 1 state_spilled).2.2.thread_pool = [] ∧
    (recovery_probe_blocks_from_disk env_submit_fails 1 state_spilled).1 = Status.Error 6 ∧
    (recovery_probe_blocks_from_disk env_submit_fails 1 state_spilled).2.2.spilling_task_count
      = state_spilled.spilling_task_count ∧
    (recovery_probe_blocks_from_disk env_submit_fails 1 state_spilled).2.2.dependency_blocked
      = true ∧
    (recovery_probe_blocks_from_disk env_submit_fails 1 state_spilled).2.2.thread_pool = [] := by
  refine ⟨rfl, rfl, rfl, rfl, rfl, rfl, rfl, rfl, rfl, rfl, rfl, rfl, rfl, rfl, rfl⟩

theorem spill_block_status (env : Env) (side : Side) (i : Nat) (b : Block) (s : LocalState) :
    (spill_block env side i b s).2.spill_status_ok = s.spill_status_ok ∧
    (spill_block env side i b s).2.spill_status = s.spill_status := by
  unfold spill_block
  split
  · cases side <;> exact ⟨rfl, rfl⟩
  · exact ⟨rfl, rfl⟩

theorem ready_if_zero_dec_status (s : LocalState) :
    (ready_if_zero (dec_task_count s)).spill_status_ok = s.spill_status_ok ∧
    (ready_if_zero (dec_task_count s)).spill_status = s.spill_status := by
  unfold ready_if_zero
  split <;> exact ⟨rfl, rfl⟩

/-- A spill task that runs from its start to its end after a failure was recorded leaves
the sticky failure cell as it is. -/
theorem run_spill_task_keeps_failure (env : Env) (t : Task) (s : LocalState)
    (ht : ∃ i, t = Task.spill_build i ∨ t = Task.spill_probe i)
    (hfail : s.spill_status_ok = false) :
    (run_task env t s).spill_status_ok = false ∧
    (run_task env t s).spill_status = s.spill_status := by
  obtain ⟨i, h | h⟩ := ht
  · subst h
    simp only [run_task, spill_build_task, hfail, Bool.false_eq_true, if_false]
    rw [(ready_if_zero_dec_status s).1, (ready_if_zero_dec_status s).2]
    exact ⟨hfail, rfl⟩
  · subst h
    have hloop : spill_probe_loop env i (s.probe_blocks i) s = s := by
      cases s.probe_blocks i with
      | nil => rfl
      | cons b bs => simp [spill_probe_loop, hfail]
    simp only [run_task, spill_probe_task, hloop]
    rw [(ready_if_zero_dec_status _).1, (ready_if_zero_dec_status _).2]
    exact ⟨hfail, rfl⟩

/-- C8 (first failure wins), the code at a failing input: the spill tasks of the build rows
of the partitions 1 and 3 are both in the pool, and their writes fail with the errors 101
and 103. Both tasks read `_spill_status_ok` as true before either write fails. The task of
partition 1 records 101; the task of partition 3 then records 103 over it. Had the second
task started after the first ended, it would have left 101 in place. -/
theorem second_failure_overwrites_first :
    scenario_b_revoked.spill_status_ok = true ∧
    scenario_b_revoked.thread_pool
      = [Task.spill_build 1, Task.spill_probe 1, Task.spill_probe 2, Task.spill_build 3] ∧
    (spill_build_task env_write_fails 1 scenario_b_revoked.spill_status_ok
      scenario_b_revoked).spill_status_ok = false ∧
    (spill_build_task env_write_fails 1 scenario_b_revoked.spill_status_ok
      scenario_b_revoked).spill_status = Status.Error 101 ∧
    (spill_build_task env_write_fails 3 scenario_b_revoked.spill_status_ok
      (spill_build_task env_write_fails 1 scenario_b_revoked.spill_status_ok
        scenario_b_revoked)).spill_status = Status.Error 103 ∧
    (run_task env_write_fails (Task.spill_build 3)
      (run_task env_write_fails (Task.spill_build 1) scenario_b_revoked)).spill_status
      = Status.Error 101 := by
  refine ⟨rfl, rfl, rfl, rfl, rfl, rfl⟩

/-- C9 (`pull` short-circuits on failure): in a state whose sticky failure cell is set,
`pull` returns the stored status and leaves `*output_block`, `*eos` and the whole state
unchanged: cursor, set-up flag, accumulators, queues, streams, counter, gate, pool, and the
log of calls, to which no spill, recovery or join call is added. -/
theorem pull_short_circuits (env : Env) (N : Nat) (output_block : Block) (eos : Bool)
    (s : LocalState) (hfail : s.spill_status_ok = false) :
    pull env N output_block eos s = (s.spill_status, output_block, eos, s) := by
  simp [pull, hfail]

/-- Scenario D as an instance of C9: four partitions, the write of partition 2 failed during
the revocation; the next `pull` returns that error, the cursor stays at 0 and no call is
added to the log. -/
theorem pull_short_circuits_witness :
    scenario_d_failed.spill_status_ok = false ∧
    scenario_d_failed.spill_status = Status.Error 102 ∧
    scenario_d_failed.spilling_task_count = 0 ∧
    scenario_d_failed.dependency_blocked = false ∧
    (pull scenario_d_env 4 Block.new false scenario_d_failed).1 = Status.Error 102 ∧
    (pull scenario_d_env 4 Block.new false scenario_d_failed).2.2.2.partition_cursor = 0 ∧
    (pull scenario_d_env 4 Block.new false scenario_d_failed).2.2.2.calls
      = scenario_d_failed.calls := by
  have h := pull_short_circuits scenario_d_env 4 Block.new false scenario_d_failed rfl
  refine ⟨rfl, rfl, rfl, rfl, ?_, ?_, ?_⟩
  · rw [h]; rfl
  · rw [h]; rfl
  · rw [h]

/-- C10 (`get_block` short-circuits on failure), the code at a failing input: in the state
of Scenario D after the failed write, with the child operator not at its end, `get_block`
does not test the failure cell before the `pull`. When memory is short it runs
`_revoke_memory`, which submits a spill task for partition 3 and blocks the gate, and
returns OK; when memory is not short it fetches the next batch of the child, pushes its
rows into the probe accumulators, and returns OK. -/
theorem get_block_ignores_failure :
    scenario_d_failed.spill_status_ok = false ∧
    need_more_input_data scenario_d_failed = true ∧
    (get_block scenario_d_env 4 Block.new scenario_d_failed).1 = Status.OK ∧
    (get_block scenario_d_env 4 Block.new scenario_d_failed).2.2.2.thread_pool
      = [Task.spill_build 3] ∧
    (get_block scenario_d_env 4 Block.new scenario_d_failed).2.2.2.dependency_blocked = true ∧
    (get_block scenario_d_env_calm 4 Block.new scenario_d_failed).1 = Status.OK ∧
    (get_block scenario_d_env_calm 4 Block.new scenario_d_failed).2.2.2.fetched
      = scenario_d_failed.fetched + 1 ∧
    (get_block scenario_d_env_calm 4 Block.new scenario_d_failed).2.2.2.partitioned_blocks 0
      = some { schema := 1, rows := [20] } ∧
    (get_block scenario_d_env_calm 4 Block.new scenario_d_failed).2.2.2.partitioned_blocks 1
      = some { schema := 1, rows := [21] } ∧
    (get_block scenario_d_env_calm 4 Block.new scenario_d_failed).2.2.2.calls
      = scenario_d_failed.calls
        ++ [Call.child_get_block, Call.push { schema := 1, rows := [20, 21] } false] := by
  refine ⟨rfl, rfl, rfl, rfl, rfl, rfl, rfl, rfl, rfl, rfl⟩

/-! ### What the spill and recovery entry points leave alone -/

theorem open_spill_stream_frame {α : Type} {view : LocalState → α} {J : Nat → Prop}
    (hf : SpillFrame view J) (env : Env) (side : Side) (i : Nat) (hi : J i) (s : LocalState) :
    view (open_spill_stream env side i s).2 = view s := by
  unfold open_spill_stream
  split
  · rfl
  · split
    · exact hf.log s _
    · simp only [hf.stream _ _ _ _ hi, hf.log]

theorem submit_func_frame {α : Type} {view : LocalState → α} {J : Nat → Prop}
    (hf : SpillFrame view J) (env : Env) (t : Task) (s : LocalState) :
    view (submit_func env t s).2 = view s := by
  unfold submit_func
  split
  · simp only [hf.pool, hf.log]
  · exact hf.log s _

theorem ready_if_zero_frame {α : Type} {view : LocalState → α} {J : Nat → Prop}
    (hf : SpillFrame view J) (s : LocalState) : view (ready_if_zero s) = view s := by
  unfold ready_if_zero
  split
  · exact hf.gate s false
  · rfl

theorem spill_build_block_frame {α : Type} {view : LocalState → α} {J : Nat → Prop}
    (hf : SpillFrame view J) (env : Env) (i : Nat) (hi : J i) (s : LocalState) :
    view (spill_build_block env i s).2 = view s := by
  unfold spill_build_block
  simp only []
  split
  · exact (hf.count _ _).trans (hf.log s _)
  · have h := open_spill_stream_frame hf env Side.build i hi (s.log (Call.spill_build_block i))
    rw [hf.log] at h
    split
    · rename_i c s1 h1
      rw [h1] at h
      exact h
    · rename_i s1 h1
      rw [h1] at h
      rw [submit_func_frame hf]
      exact h

theorem spill_probe_blocks_frame {α : Type} {view : LocalState → α} {J : Nat → Prop}
    (hf : SpillFrame view J) (env : Env) (i : Nat) (hi : J i) (s : LocalState) :
    view (spill_probe_blocks env i s).2 = view s := by
  unfold spill_probe_blocks
  simp only []
  have h := open_spill_stream_frame hf env Side.probe i hi (s.log (Call.spill_probe_blocks i))
  rw [hf.log] at h
  split
  · rename_i c s1 h1
    rw [h1] at h
    exact h
  · rename_i s1 h1
    rw [h1] at h
    split
    · rw [submit_func_frame hf]; exact h
    · rw [ready_if_zero_frame hf]
      exact (hf.count _ _).trans h

theorem revoke_loop_frame {α : Type} {view : LocalState → α} {J : Nat → Prop}
    (hf : SpillFrame view J) (env : Env) (l : List Nat) (hl : ∀ i ∈ l, J i) :
    ∀ s : LocalState, view (revoke_loop env l s).2 = view s := by
  induction l with
  | nil => intro s; rfl
  | cons i rest ih =>
    intro s
    have hi : J i := hl i (List.mem_cons_self _ _)
    have hrest : ∀ j ∈ rest, J j := fun j hj => hl j (List.mem_cons_of_mem _ hj)
    have hb := spill_build_block_frame hf env i hi s
    unfold revoke_loop
    cases hres : spill_build_block env i s with
    | mk st s1 =>
      rw [hres] at hb
      cases st with
      | Error c => exact hb
      | OK =>
        have hp := spill_probe_blocks_frame hf env i hi s1
        cases hres2 : spill_probe_blocks env i s1 with
        | mk st2 s2 =>
          rw [hres2] at hp
          cases st2 with
          | Error c => simp only [hres2]; exact hp.trans hb
          | OK => simp only [hres2]; rw [ih hrest s2]; exact hp.trans hb

theorem revoke_wait_frame {α : Type} {view : LocalState → α} {J : Nat → Prop}
    (hf : SpillFrame view J) (s : LocalState) : view (revoke_wait s).2.2 = view s := by
  unfold revoke_wait
  split
  · exact hf.gate s true
  · rfl

theorem mem_partitions_ahead (N cursor i : Nat) :
    i ∈ partitions_ahead N cursor ↔ cursor < i ∧ i < N := by
  unfold partitions_ahead
  rw [List.mem_range'_1]
  omega

/-- What `_revoke_memory` leaves alone: every projection of the state that does not read the
log, the pool, the counter, the gate, or the spill streams of the partitions ahead of the
cursor. -/
theorem revoke_memory_frame {α : Type} {view : LocalState → α} {J : Nat → Prop}
    (hf : SpillFrame view J) (env : Env) (N : Nat) (s : LocalState)
    (hJ : ∀ i, s.partition_cursor < i → i < N → J i) :
    view (_revoke_memory env N s).2.2 = view s := by
  unfold _revoke_memory
  split
  · have h := revoke_loop_frame hf env (partitions_ahead N s.partition_cursor)
      (fun i hi => hJ i ((mem_partitions_ahead _ _ _).mp hi).1
        ((mem_partitions_ahead _ _ _).mp hi).2)
      { s with spilling_task_count := ((N - s.partition_cursor - 1) * 2 : Nat) }
    have h0 := hf.count s (((N - s.partition_cursor - 1) * 2 : Nat) : Int)
    simp only []
    cases hres : revoke_loop env (partitions_ahead N s.partition_cursor)
        { s with spilling_task_count := ((N - s.partition_cursor - 1) * 2 : Nat) } with
    | mk st s1 =>
      rw [hres] at h
      cases st with
      | Error c => exact h.trans h0
      | OK => simp only [revoke_wait_frame hf]; exact h.trans h0
  · rfl

theorem recovery_build_blocks_from_disk_frame {α : Type} {view : LocalState → α}
    {J : Nat → Prop} (hf : SpillFrame view J) (env : Env) (i : Nat) (s : LocalState) :
    view (recovery_build_blocks_from_disk env i s).2.2 = view s := by
  unfold recovery_build_blocks_from_disk
  simp only []
  split
  · exact hf.log s _
  · have h := submit_func_frame hf env (Task.recovery_build i)
      (inc_task_count (block (s.log (Call.recovery_build_blocks_from_disk i))))
    have h0 : view (inc_task_count (block (s.log (Call.recovery_build_blocks_from_disk i))))
        = view s := (hf.count _ _).trans ((hf.gate _ _).trans (hf.log s _))
    split
    · rename_i c s1 h1
      rw [h1] at h
      exact (hf.count _ _).trans (h.trans h0)
    · rename_i s1 h1
      rw [h1] at h
      exact h.trans h0

theorem recovery_probe_blocks_from_disk_frame {α : Type} {view : LocalState → α}
    {J : Nat → Prop} (hf : SpillFrame view J) (env : Env) (i : Nat) (s : LocalState) :
    view (recovery_probe_blocks_from_disk env i s).2.2 = view s := by
  unfold recovery_probe_blocks_from_disk
  simp only []
  split
  · exact hf.log s _
  · have h := submit_func_frame hf env (Task.recovery_probe i)
      (inc_task_count (block (s.log (Call.recovery_probe_blocks_from_disk i))))
    have h0 : view (inc_task_count (block (s.log (Call.recovery_probe_blocks_from_disk i))))
        = view s := (hf.count _ _).trans ((hf.gate _ _).trans (hf.log s _))
    split
    · rename_i c s1 h1
      rw [h1] at h
      exact (hf.count _ _).trans (h.trans h0)
    · rename_i s1 h1
      rw [h1] at h
      exact h.trans h0

/-! ### The feeding loop of `pull` -/

theorem feed_calls_append (a b : List Call) :
    feed_calls (a ++ b) = feed_calls a ++ feed_calls b := by
  simp [feed_calls, List.filter_append]

theorem probe_push_view (env : Env) (b : Block) (eos : Bool) (s : LocalState) (i : Nat) :
    (probe_push env b eos s).2.calls = s.calls ++ [Call.probe_push b eos] ∧
    feed_view i (probe_push env b eos s).2 = feed_view i s ∧
    (probe_push env b eos s).2.probe_blocks = s.probe_blocks :=
  ⟨rfl, rfl, rfl⟩

theorem recovery_probe_blocks_from_disk_none (env : Env) (i : Nat) (s : LocalState)
    (h : s.probe_spilling_streams i = none) :
    recovery_probe_blocks_from_disk env i s
      = (Status.OK, false, s.log (Call.recovery_probe_blocks_from_disk i)) := by
  simp [recovery_probe_blocks_from_disk, LocalState.log, h]

theorem recovery_probe_blocks_from_disk_some (env : Env) (i : Nat) (s : LocalState)
    (h : s.probe_spilling_streams i ≠ none) :
    (recovery_probe_blocks_from_disk env i s).2.1 = true ∧
    (recovery_probe_blocks_from_disk env i s).2.2.calls
      = s.calls ++ [Call.recovery_probe_blocks_from_disk i,
          Call.submit_func (Task.recovery_probe i)] ∧
    (recovery_probe_blocks_from_disk env i s).2.2.probe_blocks = s.probe_blocks ∧
    (recovery_probe_blocks_from_disk env i s).2.2.partition_cursor = s.partition_cursor := by
  cases hs : s.probe_spilling_streams i with
  | none => exact absurd hs h
  | some st =>
    cases hsub : env.submit_func (Task.recovery_probe i) <;>
      simp [recovery_probe_blocks_from_disk, LocalState.log, hs, submit_func, hsub,
        dec_task_count, inc_task_count, block]

theorem pull_feed_loop_stop (env : Env) (i : Nat) (q : List Block) (eos : Bool)
    (s : LocalState)
    (h : env.probe_need_more_input_data (s.runtime_state.getD Engine.new) = false) :
    pull_feed_loop env i q eos s = (none, eos, s) := by
  cases q <;> simp [pull_feed_loop, h]

theorem pull_feed_loop_nil (env : Env) (i : Nat) (eos : Bool) (s : LocalState)
    (h : env.probe_need_more_input_data (s.runtime_state.getD Engine.new) = true) :
    pull_feed_loop env i [] eos s
      = (match recovery_probe_blocks_from_disk env i s with
         | (Status.Error c, _, s1) => (some (Status.Error c), false, s1)
         | (Status.OK, true, s1) => (some Status.OK, false, s1)
         | (Status.OK, false, s1) =>
           match probe_push env Block.new true s1 with
           | (Status.Error c, s2) => (some (Status.Error c), false, s2)
           | (Status.OK, s2) => (none, false, s2)) := by
  simp [pull_feed_loop, h]

theorem pull_feed_loop_cons (env : Env) (i : Nat) (b : Block) (rest : List Block)
    (eos : Bool) (s : LocalState)
    (h : env.probe_need_more_input_data (s.runtime_state.getD Engine.new) = true) :
    pull_feed_loop env i (b :: rest) eos s
      = (match probe_push env b false (set_probe_blocks s i rest.reverse) with
         | (Status.Error c, s1) => (some (Status.Error c), eos, s1)
         | (Status.OK, s1) => pull_feed_loop env i rest eos s1) := by
  simp [pull_feed_loop, h]

/-- The feeding loop of `pull` on the queue `q` (from its back to its front): it pops `k`
blocks and pushes each with `eos = false`; it calls `recovery_probe_blocks_from_disk` only
with the queue empty, returns from `pull` with `*eos = false` when the partition has a probe
spill stream, and pushes the empty block with `eos = true` only when it has none. -/
theorem pull_feed_loop_spec (env : Env) (i : Nat) :
    ∀ (q : List Block) (eos : Bool) (s : LocalState), s.probe_blocks i = q.reverse →
    ∃ new k,
      (pull_feed_loop env i q eos s).2.2.calls = s.calls ++ new ∧
      k ≤ q.length ∧
      (pull_feed_loop env i q eos s).2.2.partition_cursor = s.partition_cursor ∧
      ((pull_feed_loop env i q eos s).2.1 = true → eos = true) ∧
      (pull_feed_loop env i q eos s).2.2.probe_blocks i = (q.drop k).reverse ∧
      (feed_calls new = feed_pushes (q.take k) ∨
       (k = q.length ∧ s.probe_spilling_streams i ≠ none ∧
          feed_calls new
            = feed_pushes (q.take k) ++ [Call.recovery_probe_blocks_from_disk i] ∧
          (pull_feed_loop env i q eos s).1 ≠ none ∧
          (pull_feed_loop env i q eos s).2.1 = false) ∨
       (k = q.length ∧ s.probe_spilling_streams i = none ∧
          feed_calls new
            = feed_pushes (q.take k)
              ++ [Call.recovery_probe_blocks_from_disk i, Call.probe_push Block.new true])) := by
  intro q
  induction q with
  | nil =>
    intro eos s hq
    cases hneed : env.probe_need_more_input_data (s.runtime_state.getD Engine.new) with
    | false =>
      rw [pull_feed_loop_stop env i [] eos s hneed]
      exact ⟨[], 0, by simp, Nat.le_refl _, rfl, (fun h => h), by simpa using hq, Or.inl rfl⟩
    | true =>
      rw [pull_feed_loop_nil env i eos s hneed]
      cases hs : s.probe_spilling_streams i with
      | none =>
        rw [recovery_probe_blocks_from_disk_none env i s hs]
        simp only []
        have hpv := probe_push_view env Block.new true
          (s.log (Call.recovery_probe_blocks_from_disk i)) i
        cases hres : probe_push env Block.new true
            (s.log (Call.recovery_probe_blocks_from_disk i)) with
        | mk st1 s2 =>
          rw [hres] at hpv
          obtain ⟨hc, hv, hb⟩ := hpv
          simp only at hc hv hb
          simp only [feed_view, Prod.mk.injEq] at hv
          have hcalls : s2.calls
              = s.calls ++ [Call.recovery_probe_blocks_from_disk i,
                  Call.probe_push Block.new true] := by
            rw [hc]; simp [LocalState.log]
          have hcur : s2.partition_cursor = s.partition_cursor := hv.1
          have hqueue : s2.probe_blocks i = ([].drop 0 : List Block).reverse := by
            rw [hb]; simpa [LocalState.log] using hq
          have hfeed : feed_calls [Call.recovery_probe_blocks_from_disk i,
                Call.probe_push Block.new true]
              = feed_pushes (([] : List Block).take 0)
                ++ [Call.recovery_probe_blocks_from_disk i,
                    Call.probe_push Block.new true] := rfl
          cases st1 with
          | Error c =>
            exact ⟨_, 0, hcalls, Nat.le_refl _, hcur, (fun h => by cases h), hqueue,
              Or.inr (Or.inr ⟨by simp, by simp, hfeed⟩)⟩
          | OK =>
            exact ⟨_, 0, hcalls, Nat.le_refl _, hcur, (fun h => by cases h), hqueue,
              Or.inr (Or.inr ⟨by simp, by simp, hfeed⟩)⟩
      | some st =>
        have hne : s.probe_spilling_streams i ≠ none := by rw [hs]; exact Option.some_ne_none _
        obtain ⟨h1, h2, h3, h4⟩ := recovery_probe_blocks_from_disk_some env i s hne
        cases hres : recovery_probe_blocks_from_disk env i s with
        | mk st1 rest1 =>
          cases rest1 with
          | mk hd s1 =>
            rw [hres] at h1 h2 h3 h4
            simp only at h1 h2 h3 h4
            subst h1
            have hqueue : s1.probe_blocks i = ([].drop 0 : List Block).reverse := by
              rw [h3]; simpa using hq
            have hfeed : feed_calls [Call.recovery_probe_blocks_from_disk i,
                  Call.submit_func (Task.recovery_probe i)]
                = feed_pushes (([] : List Block).take 0)
                  ++ [Call.recovery_probe_blocks_from_disk i] := rfl
            rw [← hs]
            cases st1 with
            | Error c =>
              exact ⟨_, 0, h2, Nat.le_refl _, h4, (fun h => by cases h), hqueue,
                Or.inr (Or.inl ⟨rfl, hne, hfeed, (fun h => by cases h), rfl⟩)⟩
            | OK =>
              exact ⟨_, 0, h2, Nat.le_refl _, h4, (fun h => by cases h), hqueue,
                Or.inr (Or.inl ⟨rfl, hne, hfeed, (fun h => by cases h), rfl⟩)⟩
  | cons b rest ih =>
    intro eos s hq
    cases hneed : env.probe_need_more_input_data (s.runtime_state.getD Engine.new) with
    | false =>
      rw [pull_feed_loop_stop env i _ eos s hneed]
      exact ⟨[], 0, by simp, Nat.zero_le _, rfl, (fun h => h), by simpa using hq, Or.inl rfl⟩
    | true =>
      rw [pull_feed_loop_cons env i b rest eos s hneed]
      have hpv := probe_push_view env b false (set_probe_blocks s i rest.reverse) i
      cases hres : probe_push env b false (set_probe_blocks s i rest.reverse) with
      | mk st1 s1 =>
        rw [hres] at hpv
        obtain ⟨hc, hv, hb⟩ := hpv
        simp only at hc hv hb
        simp only [feed_view, set_probe_blocks, Prod.mk.injEq] at hv
        have hq1 : s1.probe_blocks i = rest.reverse := by
          simp [hb, set_probe_blocks, setAt]
        have hc1 : s1.calls = s.calls ++ [Call.probe_push b false] := by
          simpa [set_probe_blocks] using hc
        cases st1 with
        | Error c =>
          exact ⟨[Call.probe_push b false], 1, hc1, by simp, hv.1, (fun h => h),
            by simpa using hq1, Or.inl rfl⟩
        | OK =>
          obtain ⟨new, k, h1, h2, h3, h4, h5, h6⟩ := ih eos s1 hq1
          simp only []
          refine ⟨Call.probe_push b false :: new, k + 1, ?_, by simpa using h2, ?_, h4, ?_, ?_⟩
          · rw [h1, hc1]; simp
          · rw [h3]; exact hv.1
          · simpa using h5
          · have hcons : feed_calls (Call.probe_push b false :: new)
                = Call.probe_push b false :: feed_calls new := rfl
            have htake : feed_pushes ((b :: rest).take (k + 1))
                = Call.probe_push b false :: feed_pushes (rest.take k) := rfl
            rw [htake, hcons]
            rcases h6 with h6 | ⟨hk, hs, hf, hr, he⟩ | ⟨hk, hs, hf⟩
            · exact Or.inl (by rw [h6])
            · refine Or.inr (Or.inl ⟨by simp [hk], ?_, ?_, hr, he⟩)
              · rw [← hv.2]; exact hs
              · rw [hf]; rfl
            · refine Or.inr (Or.inr ⟨by simp [hk], ?_, ?_⟩)
              · rw [← hv.2]; exact hs
              · rw [hf]; rfl

/-! ### Calls that do not feed the probe operator -/

theorem logs_no_feed_refl (s : LocalState) : logs_no_feed s s := ⟨[], by simp, rfl⟩

theorem logs_no_feed_trans (s t u : LocalState) (h1 : logs_no_feed s t)
    (h2 : logs_no_feed t u) : logs_no_feed s u := by
  obtain ⟨n1, e1, f1⟩ := h1
  obtain ⟨n2, e2, f2⟩ := h2
  exact ⟨n1 ++ n2, by rw [e2, e1, List.append_assoc], by rw [feed_calls_append, f1, f2]; rfl⟩

theorem logs_no_feed_log (s : LocalState) (c : Call) (hc : is_feed_call c = false) :
    logs_no_feed s (s.log c) :=
  ⟨[c], rfl, by simp [feed_calls, hc]⟩

theorem logs_no_feed_of_calls_eq (s t u : LocalState) (h : logs_no_feed s t)
    (hu : u.calls = t.calls) : logs_no_feed s u := by
  obtain ⟨n, e, f⟩ := h
  exact ⟨n, by rw [hu, e], f⟩

theorem open_spill_stream_no_feed (env : Env) (side : Side) (i : Nat) (s : LocalState) :
    logs_no_feed s (open_spill_stream env side i s).2 := by
  unfold open_spill_stream
  split
  · exact logs_no_feed_refl s
  · split
    · exact logs_no_feed_log s _ rfl
    · exact logs_no_feed_of_calls_eq _ _ _
        (logs_no_feed_log s (Call.register_spill_stream side i) rfl) (set_stream_calls _ _ _ _)

theorem submit_func_no_feed (env : Env) (t : Task) (s : LocalState) :
    logs_no_feed s (submit_func env t s).2 := by
  unfold submit_func
  split
  · exact logs_no_feed_of_calls_eq _ _ _ (logs_no_feed_log s (Call.submit_func t) rfl) rfl
  · exact logs_no_feed_log s _ rfl

theorem spill_build_block_no_feed (env : Env) (i : Nat) (s : LocalState) :
    logs_no_feed s (spill_build_block env i s).2 := by
  have h0 : logs_no_feed s (s.log (Call.spill_build_block i)) := logs_no_feed_log s _ rfl
  unfold spill_build_block
  simp only []
  split
  · exact logs_no_feed_of_calls_eq _ _ _ h0 rfl
  · have h1 := open_spill_stream_no_feed env Side.build i (s.log (Call.spill_build_block i))
    split
    · rename_i c s1 h2
      rw [h2] at h1
      exact logs_no_feed_trans _ _ _ h0 h1
    · rename_i s1 h2
      rw [h2] at h1
      exact logs_no_feed_trans _ _ _ (logs_no_feed_trans _ _ _ h0 h1)
        (submit_func_no_feed env _ s1)

theorem spill_probe_blocks_no_feed (env : Env) (i : Nat) (s : LocalState) :
    logs_no_feed s (spill_probe_blocks env i s).2 := by
  have h0 : logs_no_feed s (s.log (Call.spill_probe_blocks i)) := logs_no_feed_log s _ rfl
  unfold spill_probe_blocks
  simp only []
  have h1 := open_spill_stream_no_feed env Side.probe i (s.log (Call.spill_probe_blocks i))
  split
  · rename_i c s1 h2
    rw [h2] at h1
    exact logs_no_feed_trans _ _ _ h0 h1
  · rename_i s1 h2
    rw [h2] at h1
    have h3 : logs_no_feed s s1 := logs_no_feed_trans _ _ _ h0 h1
    split
    · exact logs_no_feed_trans _ _ _ h3 (submit_func_no_feed env _ s1)
    · exact logs_no_feed_of_calls_eq _ _ _ h3 (by rw [ready_if_zero_calls]; rfl)

theorem revoke_loop_no_feed (env : Env) (l : List Nat) :
    ∀ s : LocalState, logs_no_feed s (revoke_loop env l s).2 := by
  induction l with
  | nil => intro s; exact logs_no_feed_refl s
  | cons i rest ih =>
    intro s
    have hb := spill_build_block_no_feed env i s
    unfold revoke_loop
    cases hres : spill_build_block env i s with
    | mk st s1 =>
      rw [hres] at hb
      cases st with
      | Error c => exact hb
      | OK =>
        have hp := spill_probe_blocks_no_feed env i s1
        cases hres2 : spill_probe_blocks env i s1 with
        | mk st2 s2 =>
          rw [hres2] at hp
          cases st2 with
          | Error c => simp only [hres2]; exact logs_no_feed_trans _ _ _ hb hp
          | OK =>
            simp only [hres2]
            exact logs_no_feed_trans _ _ _ (logs_no_feed_trans _ _ _ hb hp) (ih s2)

theorem revoke_memory_no_feed (env : Env) (N : Nat) (s : LocalState) :
    logs_no_feed s (_revoke_memory env N s).2.2 := by
  unfold _revoke_memory
  split
  · have h := revoke_loop_no_feed env (partitions_ahead N s.partition_cursor)
      { s with spilling_task_count := ((N - s.partition_cursor - 1) * 2 : Nat) }
    simp only []
    cases hres : revoke_loop env (partitions_ahead N s.partition_cursor)
        { s with spilling_task_count := ((N - s.partition_cursor - 1) * 2 : Nat) } with
    | mk st s1 =>
      rw [hres] at h
      obtain ⟨n, e, f⟩ := h
      cases st with
      | Error c => exact ⟨n, e, f⟩
      | OK =>
        simp only [revoke_wait]
        split <;> exact ⟨n, e, f⟩
  · exact logs_no_feed_refl s

theorem recovery_build_blocks_from_disk_no_feed (env : Env) (i : Nat) (s : LocalState) :
    logs_no_feed s (recovery_build_blocks_from_disk env i s).2.2 := by
  have h0 : logs_no_feed s (s.log (Call.recovery_build_blocks_from_disk i)) :=
    logs_no_feed_log s _ rfl
  unfold recovery_build_blocks_from_disk
  simp only []
  split
  · exact h0
  · have h1 := submit_func_no_feed env (Task.recovery_build i)
      (inc_task_count (block (s.log (Call.recovery_build_blocks_from_disk i))))
    have h2 : logs_no_feed s
        (inc_task_count (block (s.log (Call.recovery_build_blocks_from_disk i)))) :=
      logs_no_feed_of_calls_eq _ _ _ h0 rfl
    split
    · rename_i c s1 h3
      rw [h3] at h1
      exact logs_no_feed_of_calls_eq _ _ _ (logs_no_feed_trans _ _ _ h2 h1) rfl
    · rename_i s1 h3
      rw [h3] at h1
      exact logs_no_feed_trans _ _ _ h2 h1

theorem pre_view_frame (i : Nat) : SpillFrame (pre_view i) (fun j => j ≠ i) where
  log := fun _ _ => rfl
  stream := by
    intro s side j st hj
    cases side
    · rfl
    · have hij : i ≠ j := fun h => hj h.symm
      simp [pre_view, set_stream, setAt, hij]
  pool := fun _ _ => rfl
  count := fun _ _ => rfl
  gate := fun _ _ => rfl

theorem output_view_frame : SpillFrame output_view (fun _ => True) where
  log := fun _ _ => rfl
  stream := by
    intro s side j st _
    cases side <;> rfl
  pool := fun _ _ => rfl
  count := fun _ _ => rfl
  gate := fun _ _ => rfl

theorem finish_spilling_frame {α : Type} {view : LocalState → α}
    (hf : SpillFrame view (fun _ => True)) (env : Env) (i : Nat) (s : LocalState) :
    view (finish_spilling env i s).2 = view s := by
  unfold finish_spilling
  simp only []
  cases h1 : (s.log (Call.finish_spilling i)).spilled_streams i with
  | none =>
    simp only []
    cases h2 : (s.log (Call.finish_spilling i)).probe_spilling_streams i with
    | none => exact hf.log s _
    | some st => simp only [hf.stream _ _ _ _ trivial, hf.log]
  | some st =>
    simp only []
    cases h3 : env.spill_eof Side.build i with
    | Error c => simp only [hf.stream _ _ _ _ trivial, hf.log]
    | OK =>
      simp only []
      split
      · simp only [hf.stream _ _ _ _ trivial, hf.log]
      · simp only [hf.stream _ _ _ _ trivial, hf.log]

theorem finish_spilling_no_feed (env : Env) (i : Nat) (s : LocalState) :
    logs_no_feed s (finish_spilling env i s).2 := by
  have h0 : logs_no_feed s (s.log (Call.finish_spilling i)) := logs_no_feed_log s _ rfl
  refine logs_no_feed_of_calls_eq _ _ _ h0 ?_
  unfold finish_spilling
  simp only []
  cases h1 : (s.log (Call.finish_spilling i)).spilled_streams i with
  | none =>
    simp only []
    cases h2 : (s.log (Call.finish_spilling i)).probe_spilling_streams i with
    | none => rfl
    | some st => simp only [set_stream_calls]
  | some st =>
    simp only []
    cases h3 : env.spill_eof Side.build i with
    | Error c => simp only [set_stream_calls]
    | OK =>
      simp only []
      split
      · simp only [set_stream_calls]
      · simp only [set_stream_calls]

/-! ### The end of `pull` and the cursor -/

/-- The end of `pull`: no feeding call, the queues untouched; the cursor stays or moves by
one, and moves only when `_probe_operator->pull` was called and returned OK with
`in_mem_eos_` set; `*eos` is true when the cursor reached `N`, and otherwise false or not
written. -/
theorem pull_output_spec (env : Env) (N : Nat) (eos : Bool) (s : LocalState) :
    ∃ new, (pull_output env N eos s).2.2.2.calls = s.calls ++ new ∧ feed_calls new = [] ∧
    (pull_output env N eos s).2.2.2.probe_blocks = s.probe_blocks ∧
    ((pull_output env N eos s).2.2.2.partition_cursor = s.partition_cursor ∨
      (pull_output env N eos s).2.2.2.partition_cursor = s.partition_cursor + 1) ∧
    ((pull_output env N eos s).2.2.2.partition_cursor = s.partition_cursor + 1 →
      Call.probe_pull ∈ new ∧
      (env.probe_pull (s.runtime_state.getD Engine.new)).1 = Status.OK ∧
      (env.probe_pull (s.runtime_state.getD Engine.new)).2.2 = true ∧
      (pull_output env N eos s).2.2.2.runtime_state
        = some { (s.runtime_state.getD Engine.new) with
                 pulls := (s.runtime_state.getD Engine.new).pulls + 1 }) ∧
    (s.partition_cursor < N → (pull_output env N eos s).2.2.2.partition_cursor = N →
      (pull_output env N eos s).2.2.1 = true) ∧
    ((pull_output env N eos s).2.2.1 = true →
      (pull_output env N eos s).2.2.2.partition_cursor = N ∨ eos = true) := by
  have hcalls : (probe_pull env s).2.2.2.calls = s.calls ++ [Call.probe_pull] := rfl
  have hnomem : (probe_pull env s).2.2.2.partition_cursor ≠ s.partition_cursor + 1 := by
    simp [probe_pull, LocalState.log]
  cases h1 : (env.probe_pull (s.runtime_state.getD Engine.new)).1 with
  | Error c =>
    have hval : pull_output env N eos s
        = (Status.Error c, (probe_pull env s).2.1, eos, (probe_pull env s).2.2.2) := by
      simp [pull_output, probe_pull, h1]
    rw [hval]
    exact ⟨[Call.probe_pull], hcalls, rfl, rfl, Or.inl rfl, (fun h => absurd h hnomem),
      (fun hc h => absurd h (by simp only [probe_pull, LocalState.log]; omega)),
      (fun h => Or.inr h)⟩
  | OK =>
    cases h2 : (env.probe_pull (s.runtime_state.getD Engine.new)).2.2 with
    | false =>
      have hval : pull_output env N eos s
          = (Status.OK, (probe_pull env s).2.1, false, (probe_pull env s).2.2.2) := by
        simp [pull_output, probe_pull, h1, h2]
      rw [hval]
      exact ⟨[Call.probe_pull], hcalls, rfl, rfl, Or.inl rfl, (fun h => absurd h hnomem),
        (fun hc h => absurd h (by simp only [probe_pull, LocalState.log]; omega)),
        (fun h => by cases h)⟩
    | true =>
      by_cases hN : s.partition_cursor + 1 = N
      · have hval : pull_output env N eos s
            = (Status.OK, (probe_pull env s).2.1, true,
                { (probe_pull env s).2.2.2 with partition_cursor := s.partition_cursor + 1 }) := by
          simp [pull_output, probe_pull, h1, h2, hN, LocalState.log]
        rw [hval]
        exact ⟨[Call.probe_pull], hcalls, rfl, rfl, Or.inr rfl,
          (fun _ => ⟨List.mem_singleton.mpr rfl, rfl, rfl, rfl⟩),
          (fun _ _ => rfl), (fun _ => Or.inl hN)⟩
      · have hfs := finish_spilling_frame output_view_frame env (s.partition_cursor + 1)
          { (probe_pull env s).2.2.2 with partition_cursor := s.partition_cursor + 1 }
        have hfl := finish_spilling_no_feed env (s.partition_cursor + 1)
          { (probe_pull env s).2.2.2 with partition_cursor := s.partition_cursor + 1 }
        have hval : pull_output env N eos s
            = (match finish_spilling env (s.partition_cursor + 1)
                { (probe_pull env s).2.2.2 with
                  partition_cursor := s.partition_cursor + 1 } with
               | (Status.Error c, s3) => (Status.Error c, (probe_pull env s).2.1, false, s3)
               | (Status.OK, s3) =>
                 (Status.OK, (probe_pull env s).2.1, false,
                   { s3 with need_to_setup_internal_operators := true })) := by
          simp [pull_output, probe_pull, h1, h2, hN, LocalState.log]
        rw [hval]
        cases hres : finish_spilling env (s.partition_cursor + 1)
            { (probe_pull env s).2.2.2 with partition_cursor := s.partition_cursor + 1 } with
        | mk st s3 =>
          rw [hres] at hfs hfl
          simp only [output_view, Prod.mk.injEq] at hfs
          obtain ⟨hcur, hpb, hrt⟩ := hfs
          obtain ⟨n, e, f⟩ := hfl
          have hrt3 : s3.runtime_state
              = some { (s.runtime_state.getD Engine.new) with
                       pulls := (s.runtime_state.getD Engine.new).pulls + 1 } := hrt
          have e1 : s3.calls = s.calls ++ ([Call.probe_pull] ++ n) := by
            rw [e]; simp [probe_pull, LocalState.log]
          have hf1 : feed_calls ([Call.probe_pull] ++ n) = [] := by
            rw [feed_calls_append, f]; rfl
          have hmem : Call.probe_pull ∈ [Call.probe_pull] ++ n := by simp
          have hcur3 : s3.partition_cursor = s.partition_cursor + 1 := hcur
          have hpb3 : s3.probe_blocks = s.probe_blocks := hpb
          have hN3 : s3.partition_cursor ≠ N := by rw [hcur3]; exact hN
          cases st with
          | Error c =>
            exact ⟨_, e1, hf1, hpb3, Or.inr hcur3, (fun _ => ⟨hmem, rfl, rfl, hrt3⟩),
              (fun _ h => absurd h hN3), (fun h => by cases h)⟩
          | OK =>
            exact ⟨_, e1, hf1, hpb3, Or.inr hcur3, (fun _ => ⟨hmem, rfl, rfl, hrt3⟩),
              (fun _ h => absurd h hN3), (fun h => by cases h)⟩

/-- A return of `pull` before the feeding loop, after calls that do not feed. -/
theorem pull_outcome_return (env : Env) (N : Nat) (eos eos1 : Bool) (s s1 : LocalState)
    (st : Status) (out : Block) (hlog : logs_no_feed s s1)
    (hview : pre_view s.partition_cursor s1 = pre_view s.partition_cursor s)
    (heos : eos1 = true → eos = true) :
    PullOutcome env N eos s (st, out, eos1, s1) := by
  obtain ⟨new, e, f⟩ := hlog
  simp only [pre_view, Prod.mk.injEq] at hview
  obtain ⟨hcur, hpb, _⟩ := hview
  refine ⟨new, e, ⟨0, Nat.zero_le _, ?_, Or.inl ?_⟩, Or.inl hcur, ?_, ?_, ?_⟩
  · simp [hpb]
  · rw [f]; rfl
  · intro h
    have h1 : s1.partition_cursor = s.partition_cursor + 1 := h
    omega
  · intro hc h
    have h1 : s1.partition_cursor = N := h
    omega
  · intro h
    exact Or.inr (heos h)

/-- The outcome of the rest of `pull`, run after calls that do not feed, is an outcome of
the whole call. -/
theorem pull_outcome_lift (env : Env) (N : Nat) (eos eos1 : Bool) (s s1 : LocalState)
    (r : Status × Block × Bool × LocalState) (hlog : logs_no_feed s s1)
    (hview : pre_view s.partition_cursor s1 = pre_view s.partition_cursor s)
    (heos : eos1 = true → eos = true) (h : PullOutcome env N eos1 s1 r) :
    PullOutcome env N eos s r := by
  obtain ⟨pre, e, f⟩ := hlog
  simp only [pre_view, Prod.mk.injEq] at hview
  obtain ⟨hcur, hpb, hst⟩ := hview
  obtain ⟨new, h1, h2, h3, h4, h5, h6⟩ := h
  rw [hcur, hpb, hst] at h2
  rw [hcur] at h3 h4 h5
  refine ⟨pre ++ new, by rw [h1, e, List.append_assoc], ?_, h3, ?_, h5, ?_⟩
  · obtain ⟨k, hk, hq, hcase⟩ := h2
    refine ⟨k, hk, hq, ?_⟩
    rw [feed_calls_append, f, List.nil_append]
    exact hcase
  · intro hc
    exact ⟨List.mem_append_right _ (h4 hc).1, (h4 hc).2⟩
  · intro hc
    rcases h6 hc with h7 | h7
    · exact Or.inl h7
    · exact Or.inr (heos h7)

/-- The feeding loop and the end of `pull`. -/
theorem pull_join_spec (env : Env) (N : Nat) (out : Block) (eos : Bool) (s : LocalState) :
    PullOutcome env N eos s (pull_join env N out eos s) := by
  have hq : s.probe_blocks s.partition_cursor
      = ((s.probe_blocks s.partition_cursor).reverse).reverse := by simp
  obtain ⟨new1, k, h1, h2, h3, h4, h5, h6⟩ :=
    pull_feed_loop_spec env s.partition_cursor _ eos s hq
  have hk : k ≤ (s.probe_blocks s.partition_cursor).length := by simpa using h2
  have hq1 : (((s.probe_blocks s.partition_cursor).reverse).drop k).reverse
      = (s.probe_blocks s.partition_cursor).take
          ((s.probe_blocks s.partition_cursor).length - k) := by
    rw [List.reverse_drop]; simp
  rw [hq1] at h5
  unfold pull_join
  cases hres : pull_feed_loop env s.partition_cursor
      (s.probe_blocks s.partition_cursor).reverse eos s with
  | mk ost rest1 =>
    cases rest1 with
    | mk eos1 s1 =>
      rw [hres] at h1 h3 h4 h5 h6
      simp only at h1 h3 h4 h5 h6
      cases ost with
      | some st =>
        refine ⟨new1, h1, ⟨k, hk, h5, ?_⟩, Or.inl h3, ?_, ?_, ?_⟩
        · rcases h6 with h6 | ⟨a, b, c, _, e⟩ | ⟨a, b, c⟩
          · exact Or.inl h6
          · exact Or.inr (Or.inl ⟨by simpa using a, b, c, e, h3⟩)
          · exact Or.inr (Or.inr ⟨by simpa using a, b, c⟩)
        · intro h
          have h7 : s1.partition_cursor = s.partition_cursor + 1 := h
          omega
        · intro hc h
          have h7 : s1.partition_cursor = N := h
          omega
        · intro h
          exact Or.inr (h4 h)
      | none =>
        obtain ⟨new2, g1, g2, g3, g4, g5, g6, g7⟩ := pull_output_spec env N eos1 s1
        rw [h3] at g4 g5 g6
        refine ⟨new1 ++ new2, by rw [g1, h1, List.append_assoc], ⟨k, hk, ?_, ?_⟩, g4, ?_, g6, ?_⟩
        · show (pull_output env N eos1 s1).2.2.2.probe_blocks s.partition_cursor = _
          rw [g3]; exact h5
        · rw [feed_calls_append, g2, List.append_nil]
          rcases h6 with h6 | ⟨_, _, _, d, _⟩ | ⟨a, b, c⟩
          · exact Or.inl h6
          · exact absurd rfl d
          · exact Or.inr (Or.inr ⟨by simpa using a, b, c⟩)
        · intro hc
          exact ⟨List.mem_append_right _ (g5 hc).1, _, (g5 hc).2.1, (g5 hc).2.2.1,
            (g5 hc).2.2.2⟩
        · intro h
          rcases g7 h with h7 | h7
          · exact Or.inl h7
          · exact Or.inr (h4 h7)

theorem setup_internal_operators_pre (env : Env) (s : LocalState) (i : Nat) :
    logs_no_feed s (_setup_internal_operators env s).2 ∧
    pre_view i (_setup_internal_operators env s).2 = pre_view i s := by
  unfold _setup_internal_operators
  simp only []
  cases hst : env.setup_status s.partition_cursor with
  | Error c =>
    exact ⟨⟨[Call.setup_internal_operators s.partition_cursor], rfl, rfl⟩, rfl⟩
  | OK =>
    simp only []
    cases hb : s.partitioned_build_blocks s.partition_cursor with
    | none =>
      simp only [LocalState.log, hb]
      exact ⟨⟨[Call.setup_internal_operators s.partition_cursor, Call.sink Block.new],
        by simp, rfl⟩, rfl⟩
    | some mb =>
      by_cases hr : mb.rows.length > 0
      · simp only [LocalState.log, hb, hr, if_true, set_build_block]
        exact ⟨⟨[Call.setup_internal_operators s.partition_cursor, Call.sink mb],
          by simp, rfl⟩, rfl⟩
      · simp only [LocalState.log, hb, hr, if_false]
        exact ⟨⟨[Call.setup_internal_operators s.partition_cursor, Call.sink Block.new],
          by simp, rfl⟩, rfl⟩

/-- The set-up, the feeding loop and the end of `pull`. -/
theorem pull_setup_spec (env : Env) (N : Nat) (out : Block) (eos : Bool) (s : LocalState) :
    PullOutcome env N eos s (pull_setup env N out eos s) := by
  unfold pull_setup
  split
  · have hl := recovery_build_blocks_from_disk_no_feed env s.partition_cursor s
    have hv := recovery_build_blocks_from_disk_frame (pre_view_frame s.partition_cursor) env
      s.partition_cursor s
    cases hres : recovery_build_blocks_from_disk env s.partition_cursor s with
    | mk st rest1 =>
      cases rest1 with
      | mk has_data s1 =>
        rw [hres] at hl hv
        simp only at hl hv
        cases st with
        | Error c =>
          exact pull_outcome_return env N eos false s s1 _ out hl hv (fun h => by cases h)
        | OK =>
          cases has_data with
          | true =>
            exact pull_outcome_return env N eos false s s1 _ out hl hv (fun h => by cases h)
          | false =>
            simp only []
            have hcur : s1.partition_cursor = s.partition_cursor := by
              simp only [pre_view, Prod.mk.injEq] at hv
              exact hv.1
            obtain ⟨hl2, hv2⟩ := setup_internal_operators_pre env s1 s.partition_cursor
            have hl3 := logs_no_feed_trans _ _ _ hl hl2
            have hv3 := hv2.trans hv
            cases hres2 : _setup_internal_operators env s1 with
            | mk st2 s2 =>
              rw [hres2] at hl3 hv3
              simp only at hl3 hv3
              cases st2 with
              | Error c =>
                exact pull_outcome_return env N eos false s s2 _ out hl3 hv3
                  (fun h => by cases h)
              | OK =>
                simp only []
                have hcur2 : s2.partition_cursor = s.partition_cursor := by
                  simp only [pre_view, Prod.mk.injEq] at hv3
                  exact hv3.1
                refine pull_outcome_lift env N eos false s
                  { s2 with need_to_setup_internal_operators := false } _
                  (logs_no_feed_of_calls_eq _ _ _ hl3 rfl) hv3 (fun h => by cases h) ?_
                exact pull_join_spec env N out false _
  · exact pull_join_spec env N out eos s

/-- The whole of `pull`. -/
theorem pull_spec (env : Env) (N : Nat) (out : Block) (eos : Bool) (s : LocalState) :
    PullOutcome env N eos s (pull env N out eos s) := by
  unfold pull
  split
  · exact pull_outcome_return env N eos eos s s _ out (logs_no_feed_refl s) rfl (fun h => h)
  · split
    · have hl := revoke_memory_no_feed env N s
      have hv := revoke_memory_frame (pre_view_frame s.partition_cursor) env N s
        (fun i h1 _ => by omega)
      cases hres : _revoke_memory env N s with
      | mk st rest1 =>
        cases rest1 with
        | mk wait s1 =>
          rw [hres] at hl hv
          simp only at hl hv
          cases st with
          | Error c =>
            exact pull_outcome_return env N eos eos s s1 _ out hl hv (fun h => h)
          | OK =>
            cases wait with
            | true => exact pull_outcome_return env N eos eos s s1 _ out hl hv (fun h => h)
            | false =>
              simp only []
              exact pull_outcome_lift env N eos eos s s1 _ hl hv (fun h => h)
                (pull_setup_spec env N out eos s1)
    · exact pull_setup_spec env N out eos s

/-- C11 (cursor monotonicity): for a state with `cursor < N`, one call of `pull` leaves the
cursor unchanged or increases it by exactly 1, never beyond `N`; it increases it only if in
that call `_probe_operator->pull` was called and returned OK with `in_mem_eos_` set; when the
cursor is `N` after the call `*eos` is true, and when `*eos` is true after the call the
cursor is `N` or `*eos` was true before and not written; so, called with `*eos = false` as
`get_block` does, `pull` reports `*eos = true` if and only if the cursor is `N` after the
call. -/
theorem pull_cursor_monotone (env : Env) (N : Nat) (out : Block) (eos : Bool)
    (s : LocalState) (hc : s.partition_cursor < N) :
    ((pull env N out eos s).2.2.2.partition_cursor = s.partition_cursor ∨
      (pull env N out eos s).2.2.2.partition_cursor = s.partition_cursor + 1) ∧
    (pull env N out eos s).2.2.2.partition_cursor ≤ N ∧
    ((pull env N out eos s).2.2.2.partition_cursor = s.partition_cursor + 1 →
      ∃ new eng, (pull env N out eos s).2.2.2.calls = s.calls ++ new ∧
        Call.probe_pull ∈ new ∧
        (env.probe_pull eng).1 = Status.OK ∧ (env.probe_pull eng).2.2 = true ∧
        (pull env N out eos s).2.2.2.runtime_state
          = some { eng with pulls := eng.pulls + 1 }) ∧
    ((pull env N out eos s).2.2.2.partition_cursor = N →
      (pull env N out eos s).2.2.1 = true) ∧
    ((pull env N out eos s).2.2.1 = true →
      (pull env N out eos s).2.2.2.partition_cursor = N ∨ eos = true) ∧
    ((pull env N out false s).2.2.1 = true ↔
      (pull env N out false s).2.2.2.partition_cursor = N) := by
  obtain ⟨new, h1, _, h3, h4, h5, h6⟩ := pull_spec env N out eos s
  obtain ⟨_, _, _, _, _, g5, g6⟩ := pull_spec env N out false s
  refine ⟨h3, ?_, ?_, h5 hc, h6, ?_⟩
  · rcases h3 with h | h <;> omega
  · intro h
    obtain ⟨hm, eng, he1, he2, he3⟩ := h4 h
    exact ⟨new, eng, h1, hm, he1, he2, he3⟩
  · constructor
    · intro h
      rcases g6 h with h7 | h7
      · exact h7
      · cases h7
    · exact g5 hc

/-- An instance of C11: with one partition, nothing buffered and an embedded join that is
done after one `pull`, the call moves the cursor from 0 to 1 and reports `*eos = true`. -/
theorem pull_cursor_monotone_witness :
    empty_state.partition_cursor < 1 ∧
    (pull ok_env 1 Block.new false empty_state).2.2.2.partition_cursor = 1 ∧
    (pull ok_env 1 Block.new false empty_state).2.2.1 = true := by
  have h := pull_cursor_monotone ok_env 1 Block.new false empty_state (by decide)
  have hcur : (pull ok_env 1 Block.new false empty_state).2.2.2.partition_cursor = 1 := rfl
  exact ⟨by decide, hcur, h.2.2.2.1 hcur⟩

/-! ### Spill and recovery of the build rows of one partition -/

theorem ready_if_zero_data (s : LocalState) :
    (ready_if_zero s).spill_status_ok = s.spill_status_ok ∧
    (ready_if_zero s).thread_pool = s.thread_pool ∧
    (ready_if_zero s).spilled_streams = s.spilled_streams ∧
    (ready_if_zero s).partitioned_build_blocks = s.partitioned_build_blocks := by
  unfold ready_if_zero
  split <;> exact ⟨rfl, rfl, rfl, rfl⟩

/-- One batch spilled: its rows are appended to the build spill stream of the partition,
and the accumulator is left without rows. -/
theorem spill_build_batch_spec (env : Env) (i : Nat) (s : LocalState) (b : Block)
    (henv : build_side_ok env i) (hok : s.spill_status_ok = true)
    (hpool : s.thread_pool = []) (hb : b.rows ≠ []) :
    (spill_build_batch env i s b).spill_status_ok = true ∧
    (spill_build_batch env i s b).thread_pool = [] ∧
    (spill_build_batch env i s b).spilled_streams i
      = some (stream_with (s.spilled_streams i) [b]) ∧
    (spill_build_batch env i s b).partitioned_build_blocks i = some b.moved_out := by
  obtain ⟨hreg, hprep, hsub, _, hwrite, _, _⟩ := henv
  have hlen : ¬ b.rows.length = 0 := fun h => hb (List.length_eq_zero.mp h)
  cases hs : s.spilled_streams i with
  | none =>
    simp only [spill_build_batch, spill_build_block, build_block_empty, set_build_block, setAt,
      LocalState.log, open_spill_stream, streams, hs, hreg, hprep, submit_func, hsub, run_pool,
      hpool, run_task, spill_build_task, hok, spill_block, set_stream, hwrite, if_true,
      List.nil_append, List.foldl_cons, List.foldl_nil, decide_eq_true_eq, hlen,
      Bool.false_eq_true, if_false, Option.map_some', Option.getD_some]
    rw [(ready_if_zero_data _).1, (ready_if_zero_data _).2.1, (ready_if_zero_data _).2.2.1,
      (ready_if_zero_data _).2.2.2]
    simp [dec_task_count, stream_with, SpillStream.new, setAt, Block.moved_out]
  | some st =>
    simp only [spill_build_batch, spill_build_block, build_block_empty, set_build_block, setAt,
      LocalState.log, open_spill_stream, streams, hs, submit_func, hsub, run_pool,
      hpool, run_task, spill_build_task, hok, spill_block, set_stream, hwrite, if_true,
      List.nil_append, List.foldl_cons, List.foldl_nil, decide_eq_true_eq, hlen,
      Bool.false_eq_true, if_false, Option.map_some', Option.getD_some]
    rw [(ready_if_zero_data _).1, (ready_if_zero_data _).2.1, (ready_if_zero_data _).2.2.1,
      (ready_if_zero_data _).2.2.2]
    simp [dec_task_count, stream_with, setAt, hs, Block.moved_out]

theorem stream_with_some (o : Option SpillStream) (l1 l2 : List Block) :
    stream_with (some (stream_with o l1)) l2 = stream_with o (l1 ++ l2) := by
  simp [stream_with, List.append_assoc]

/-- A sequence of batches spilled: the build spill stream of the partition holds the
batches, in order, after what it held before, and the accumulator is left without rows. -/
theorem spill_build_batches_spec (env : Env) (i : Nat) (henv : build_side_ok env i) :
    ∀ (bs : List Block) (s : LocalState), s.spill_status_ok = true → s.thread_pool = [] →
      (∀ b ∈ bs, b.rows ≠ []) → bs ≠ [] →
      (spill_build_batches env i bs s).spill_status_ok = true ∧
      (spill_build_batches env i bs s).thread_pool = [] ∧
      (spill_build_batches env i bs s).spilled_streams i
        = some (stream_with (s.spilled_streams i) bs) ∧
      build_rows (spill_build_batches env i bs s) i = [] := by
  intro bs
  induction bs with
  | nil => intro s _ _ _ h; exact absurd rfl h
  | cons b rest ih =>
    intro s hok hpool hrows _
    obtain ⟨h1, h2, h3, h4⟩ := spill_build_batch_spec env i s b henv hok hpool
      (hrows b (List.mem_cons_self _ _))
    have hstep : spill_build_batches env i (b :: rest) s
        = spill_build_batches env i rest (spill_build_batch env i s b) := rfl
    rw [hstep]
    cases hrest : rest with
    | nil =>
      refine ⟨h1, h2, h3, ?_⟩
      show build_rows (spill_build_batch env i s b) i = []
      simp [build_rows, h4, Block.moved_out]
    | cons c rest2 =>
      rw [← hrest]
      obtain ⟨g1, g2, g3, g4⟩ := ih (spill_build_batch env i s b) h1 h2
        (fun x hx => hrows x (List.mem_cons_of_mem _ hx)) (by rw [hrest]; simp)
      refine ⟨g1, g2, ?_, g4⟩
      rw [g3, h3, stream_with_some]
      rfl

theorem finish_spilling_build (env : Env) (i : Nat) (s : LocalState) :
    (finish_spilling env i s).2.spilled_streams i
      = (s.spilled_streams i).map (fun st => { st with eof := true }) ∧
    (finish_spilling env i s).2.partitioned_build_blocks = s.partitioned_build_blocks ∧
    (finish_spilling env i s).2.spill_status_ok = s.spill_status_ok ∧
    rendezvous_view (finish_spilling env i s).2 = rendezvous_view s := by
  unfold finish_spilling
  simp only []
  cases h1 : (s.log (Call.finish_spilling i)).spilled_streams i with
  | none =>
    have h1s : s.spilled_streams i = none := h1
    simp only [h1s, Option.map_none']
    cases h2 : (s.log (Call.finish_spilling i)).probe_spilling_streams i with
    | none => exact ⟨h1s, rfl, rfl, rfl⟩
    | some st => exact ⟨h1s, rfl, rfl, rfl⟩
  | some st =>
    have h1s : s.spilled_streams i = some st := h1
    simp only [h1s, Option.map_some']
    cases h3 : env.spill_eof Side.build i with
    | Error c => simp [set_stream, setAt, LocalState.log, rendezvous_view]
    | OK =>
      simp only []
      split <;> simp [set_stream, setAt, LocalState.log, rendezvous_view]

theorem read_next_block_sync_some (env : Env) (side : Side) (i : Nat) (st : SpillStream)
    (b : Block) (hread : env.read_status side i st.read_index = Status.OK)
    (h : st.blocks.get? st.read_index = some b) :
    read_next_block_sync env side i st
      = (Status.OK, b, false, { st with read_index := st.read_index + 1 }) := by
  unfold read_next_block_sync
  rw [hread]
  simp only [h]

theorem read_next_block_sync_none (env : Env) (side : Side) (i : Nat) (st : SpillStream)
    (hread : env.read_status side i st.read_index = Status.OK)
    (h : st.blocks.get? st.read_index = none) :
    read_next_block_sync env side i st = (Status.OK, Block.new, true, st) := by
  unfold read_next_block_sync
  rw [hread]
  simp only [h]

theorem drop_of_get_some {α : Type} (l : List α) (n : Nat) (a : α)
    (h : l.get? n = some a) : n < l.length ∧ l.drop n = a :: l.drop (n + 1) := by
  rw [List.get?_eq_getElem?] at h
  obtain ⟨hlt, hget⟩ := List.getElem?_eq_some.mp h
  refine ⟨hlt, ?_⟩
  rw [List.drop_eq_getElem_cons hlt, hget]

/-- The read loop of the build recovery task, with reads and merges that succeed and fuel
for every unread block and the read that reports the end: the accumulator gains the rows of
the unread blocks, in the order in which they were written. -/
theorem recovery_build_loop_spec (env : Env) (i : Nat)
    (hread : ∀ n, env.read_status Side.build i n = Status.OK)
    (hmerge : ∀ a b, env.merge a b = Status.OK) :
    ∀ (fuel : Nat) (s : LocalState) (st : SpillStream), s.spilled_streams i = some st →
      st.blocks.length - st.read_index + 1 ≤ fuel →
      build_rows (recovery_build_loop env i fuel s) i
        = build_rows s i ++ (st.blocks.drop st.read_index).flatMap Block.rows ∧
      rendezvous_view (recovery_build_loop env i fuel s) = rendezvous_view s ∧
      (recovery_build_loop env i fuel s).spill_status_ok = s.spill_status_ok := by
  intro fuel
  induction fuel with
  | zero => intro s st _ hf; omega
  | succ n ih =>
    intro s st hs hf
    rw [recovery_build_loop]
    simp only [hs]
    cases hb : st.blocks.get? st.read_index with
    | none =>
      rw [read_next_block_sync_none env Side.build i st (hread _) hb]
      have hdrop : st.blocks.drop st.read_index = [] :=
        List.drop_eq_nil_of_le (List.get?_eq_none.mp hb)
      simp [hdrop, Block.new, set_stream, setAt, LocalState.log, build_rows, rendezvous_view]
    | some b =>
      rw [read_next_block_sync_some env Side.build i st b (hread _) hb]
      obtain ⟨hlt, hdrop⟩ := drop_of_get_some _ _ _ hb
      simp only [Bool.false_eq_true, if_false]
      have e1 : ((set_stream s Side.build i
          (some { st with read_index := st.read_index + 1 })).log
          (Call.read_next_block_sync Side.build i)).spilled_streams i
          = some { st with read_index := st.read_index + 1 } := by
        simp [set_stream, setAt, LocalState.log]
      have e2 : ((set_stream s Side.build i
          (some { st with read_index := st.read_index + 1 })).log
          (Call.read_next_block_sync Side.build i)).partitioned_build_blocks
          = s.partitioned_build_blocks := rfl
      have e3 : rendezvous_view ((set_stream s Side.build i
          (some { st with read_index := st.read_index + 1 })).log
          (Call.read_next_block_sync Side.build i)) = rendezvous_view s := rfl
      have e4 : ((set_stream s Side.build i
          (some { st with read_index := st.read_index + 1 })).log
          (Call.read_next_block_sync Side.build i)).spill_status_ok
          = s.spill_status_ok := rfl
      generalize (set_stream s Side.build i
          (some { st with read_index := st.read_index + 1 })).log
          (Call.read_next_block_sync Side.build i) = s1 at e1 e2 e3 e4 ⊢
      have hfuel : ({ st with read_index := st.read_index + 1 } : SpillStream).blocks.length
          - ({ st with read_index := st.read_index + 1 } : SpillStream).read_index + 1 ≤ n := by
        show st.blocks.length - (st.read_index + 1) + 1 ≤ n
        omega
      have hstep : ∀ v : Option Block,
          build_rows (set_build_block s1 i v) i = build_rows s i ++ b.rows →
          build_rows (recovery_build_loop env i n (set_build_block s1 i v)) i
            = build_rows s i ++ (st.blocks.drop st.read_index).flatMap Block.rows ∧
          rendezvous_view (recovery_build_loop env i n (set_build_block s1 i v))
            = rendezvous_view s ∧
          (recovery_build_loop env i n (set_build_block s1 i v)).spill_status_ok
            = s.spill_status_ok := by
        intro v hv
        obtain ⟨g1, g2, g3⟩ := ih (set_build_block s1 i v) _ e1 hfuel
        refine ⟨?_, g2.trans e3, g3.trans e4⟩
        rw [g1, hv, hdrop]
        simp [List.flatMap, List.append_assoc]
      by_cases hrows : b.rows.length = 0
      · have hnil : b.rows = [] := List.length_eq_zero.mp hrows
        simp only [hrows, if_true]
        obtain ⟨g1, g2, g3⟩ := ih s1 _ e1 hfuel
        refine ⟨?_, g2.trans e3, g3.trans e4⟩
        rw [g1, hdrop]
        simp [build_rows, e2, hnil, List.flatMap]
      · simp only [hrows, if_false]
        rw [e2]
        cases hmb : s.partitioned_build_blocks i with
        | none =>
          simp only []
          exact hstep (some b) (by simp [build_rows, set_build_block, setAt, hmb])
        | some mb =>
          simp only []
          by_cases hz : mb.rows.length = 0
          · simp only [hz, if_true]
            have hmnil : mb.rows = [] := List.length_eq_zero.mp hz
            exact hstep (some b) (by simp [build_rows, set_build_block, setAt, hmb, hmnil])
          · simp only [hz, if_false, hmerge]
            exact hstep _ (by simp [build_rows, set_build_block, setAt, hmb])

/-- More fuel than the unread blocks and the read that reports the end changes nothing:
the read loop ends at the end of the stream, not at the end of the fuel. -/
theorem recovery_build_loop_fuel (env : Env) (i : Nat)
    (hread : ∀ n, env.read_status Side.build i n = Status.OK)
    (hmerge : ∀ a b, env.merge a b = Status.OK) :
    ∀ (n : Nat) (s : LocalState) (st : SpillStream), s.spilled_streams i = some st →
      st.blocks.length - st.read_index + 1 ≤ n →
      recovery_build_loop env i (n + 1) s = recovery_build_loop env i n s := by
  intro n
  induction n with
  | zero => intro s st _ hf; omega
  | succ n ih =>
    intro s st hs hf
    have hl : ∀ m, recovery_build_loop env i (m + 1) s
        = match read_next_block_sync env Side.build i st with
          | (Status.Error c, _, _, st1) =>
            set_spill_status
              ((set_stream s Side.build i (some st1)).log
                (Call.read_next_block_sync Side.build i)) (Status.Error c)
          | (Status.OK, blk, eos, st1) =>
            if blk.rows.length = 0 then
              if eos then (set_stream s Side.build i (some st1)).log
                (Call.read_next_block_sync Side.build i)
              else recovery_build_loop env i m ((set_stream s Side.build i (some st1)).log
                (Call.read_next_block_sync Side.build i))
            else
              match ((set_stream s Side.build i (some st1)).log
                (Call.read_next_block_sync Side.build i)).partitioned_build_blocks i with
              | some mb =>
                if mb.rows.length = 0 then
                  if eos then set_build_block ((set_stream s Side.build i (some st1)).log
                    (Call.read_next_block_sync Side.build i)) i (some blk)
                  else recovery_build_loop env i m
                    (set_build_block ((set_stream s Side.build i (some st1)).log
                      (Call.read_next_block_sync Side.build i)) i (some blk))
                else
                  match env.merge mb blk with
                  | Status.Error c =>
                    set_spill_status ((set_stream s Side.build i (some st1)).log
                      (Call.read_next_block_sync Side.build i)) (Status.Error c)
                  | Status.OK =>
                    if eos then set_build_block ((set_stream s Side.build i (some st1)).log
                      (Call.read_next_block_sync Side.build i)) i
                      (some { mb with rows := mb.rows ++ blk.rows })
                    else recovery_build_loop env i m
                      (set_build_block ((set_stream s Side.build i (some st1)).log
                        (Call.read_next_block_sync Side.build i)) i
                        (some { mb with rows := mb.rows ++ blk.rows }))
              | none =>
                if eos then set_build_block ((set_stream s Side.build i (some st1)).log
                  (Call.read_next_block_sync Side.build i)) i (some blk)
                else recovery_build_loop env i m
                  (set_build_block ((set_stream s Side.build i (some st1)).log
                    (Call.read_next_block_sync Side.build i)) i (some blk)) := by
      intro m
      rw [recovery_build_loop]
      simp only [hs]
    rw [hl (n + 1), hl n]
    cases hb : st.blocks.get? st.read_index with
    | none =>
      rw [read_next_block_sync_none env Side.build i st (hread _) hb]
      simp [Block.new]
    | some b =>
      rw [read_next_block_sync_some env Side.build i st b (hread _) hb]
      obtain ⟨hlt, _⟩ := drop_of_get_some _ _ _ hb
      simp only [Bool.false_eq_true, if_false]
      have e1 : ((set_stream s Side.build i
          (some { st with read_index := st.read_index + 1 })).log
          (Call.read_next_block_sync Side.build i)).spilled_streams i
          = some { st with read_index := st.read_index + 1 } := by
        simp [set_stream, setAt, LocalState.log]
      have hfuel : ({ st with read_index := st.read_index + 1 } : SpillStream).blocks.length
          - ({ st with read_index := st.read_index + 1 } : SpillStream).read_index + 1 ≤ n := by
        show st.blocks.length - (st.read_index + 1) + 1 ≤ n
        omega
      generalize (set_stream s Side.build i
          (some { st with read_index := st.read_index + 1 })).log
          (Call.read_next_block_sync Side.build i) = s1 at e1 ⊢
      have hstep : ∀ v : Option Block,
          recovery_build_loop env i (n + 1) (set_build_block s1 i v)
            = recovery_build_loop env i n (set_build_block s1 i v) :=
        fun v => ih (set_build_block s1 i v) _ e1 hfuel
      by_cases hrows : b.rows.length = 0
      · simp only [hrows, if_true]
        exact ih s1 _ e1 hfuel
      · simp only [hrows, if_false]
        cases hmb : s1.partitioned_build_blocks i with
        | none => exact hstep _
        | some mb =>
          simp only []
          by_cases hz : mb.rows.length = 0
          · simp only [hz, if_true]
            exact hstep _
          · simp only [hz, if_false, hmerge]
            exact hstep _

/-- One completed invocation of the build recovery on a partition with a build spill
stream, the task accepted, reads and merges succeeding: the accumulator gains the rows of
the unread blocks, the stream handle is reset, the counter is back to its value, the gate is
ready. -/
theorem recover_build_spec (env : Env) (i : Nat) (s : LocalState) (st : SpillStream)
    (hsubmit : env.submit_func (Task.recovery_build i) = Status.OK)
    (hread : ∀ n, env.read_status Side.build i n = Status.OK)
    (hmerge : ∀ a b, env.merge a b = Status.OK)
    (hst : s.spilled_streams i = some st) (hpool : s.thread_pool = []) :
    (recover_build env i s).1 = Status.OK ∧ (recover_build env i s).2.1 = true ∧
    build_rows (recover_build env i s).2.2 i
      = build_rows s i ++ (st.blocks.drop st.read_index).flatMap Block.rows ∧
    (recover_build env i s).2.2.spilled_streams i = none ∧
    (recover_build env i s).2.2.spilling_task_count = s.spilling_task_count ∧
    (recover_build env i s).2.2.dependency_blocked = false ∧
    (recover_build env i s).2.2.thread_pool = [] ∧
    (recover_build env i s).2.2.spill_status_ok = s.spill_status_ok := by
  have hcall : recovery_build_blocks_from_disk env i s
      = (Status.OK, true,
          { (inc_task_count (block (s.log (Call.recovery_build_blocks_from_disk i)))).log
              (Call.submit_func (Task.recovery_build i)) with
            thread_pool := [Task.recovery_build i] }) := by
    have h0 : (s.log (Call.recovery_build_blocks_from_disk i)).spilled_streams i = some st :=
      hst
    unfold recovery_build_blocks_from_disk
    simp only [h0, submit_func, hsubmit]
    simp [inc_task_count, block, LocalState.log, hpool]
  unfold recover_build
  rw [hcall]
  simp only [run_pool, List.foldl_cons, List.foldl_nil, run_task]
  generalize hs3 : ({ ({ (inc_task_count (block (s.log
      (Call.recovery_build_blocks_from_disk i)))).log
      (Call.submit_func (Task.recovery_build i)) with
      thread_pool := [Task.recovery_build i] } : LocalState) with
      thread_pool := [] } : LocalState) = s3
  have k1 : s3.spilled_streams i = some st := by rw [← hs3]; exact hst
  have k2 : build_rows s3 i = build_rows s i := by rw [← hs3]; rfl
  have k3 : s3.spilling_task_count = s.spilling_task_count + 1 := by rw [← hs3]; rfl
  have k4 : s3.thread_pool = [] := by rw [← hs3]
  have k5 : s3.spill_status_ok = s.spill_status_ok := by rw [← hs3]; rfl
  obtain ⟨g1, g2, g3⟩ := recovery_build_loop_spec env i hread hmerge
    (reads_left (s3.spilled_streams i)) s3 st k1 (by rw [k1]; exact Nat.le_refl _)
  have g2c : (recovery_build_loop env i (reads_left (s3.spilled_streams i)) s3).spilling_task_count
      = s3.spilling_task_count := congrArg (fun v => v.1) g2
  have g2p : (recovery_build_loop env i (reads_left (s3.spilled_streams i)) s3).thread_pool
      = s3.thread_pool := congrArg (fun v => v.2.2) g2
  refine ⟨trivial, trivial, ?_, ?_, ?_, rfl, ?_, ?_⟩
  · show build_rows (recovery_build_loop env i (reads_left (s3.spilled_streams i)) s3) i = _
    rw [g1, k2]
  · simp [recovery_build_task, dec_task_count, set_ready, set_stream, setAt]
  · show (recovery_build_loop env i (reads_left (s3.spilled_streams i)) s3).spilling_task_count
      - 1 = _
    rw [g2c, k3]
    omega
  · show (recovery_build_loop env i (reads_left (s3.spilled_streams i)) s3).thread_pool = []
    rw [g2p, k4]
  · show (recovery_build_loop env i (reads_left (s3.spilled_streams i)) s3).spill_status_ok = _
    rw [g3, k5]

/-- Claim C12: build spill and recovery round trip. Batches with rows spilled to a
partition without a build spill stream, one `spill_build_block` task per batch, with no
failure; after `finish_spilling` and one completed `recovery_build_blocks_from_disk` the
call returned OK with `has_data`, the build accumulator is one batch that holds exactly the
rows spilled, in the order spilled, their number the sum of the row counts of the batches;
the build spill stream handle is absent, the counter of outstanding tasks has the value it
had before the call, the gate is ready and no failure is recorded. -/
theorem build_round_trip (env : Env) (i : Nat) (bs : List Block) (s : LocalState)
    (henv : build_side_ok env i) (hok : s.spill_status_ok = true)
    (hpool : s.thread_pool = []) (hstream : s.spilled_streams i = none)
    (hne : bs ≠ []) (hrows : ∀ b ∈ bs, b.rows ≠ []) :
    (recover_build env i (finish_spilling env i (spill_build_batches env i bs s)).2).1
      = Status.OK ∧
    (recover_build env i (finish_spilling env i (spill_build_batches env i bs s)).2).2.1
      = true ∧
    (∃ mb, (recover_build env i
        (finish_spilling env i (spill_build_batches env i bs s)).2).2.2.partitioned_build_blocks i
        = some mb ∧ mb.rows = bs.flatMap Block.rows ∧
      mb.rows.length = (bs.map (fun b => b.rows.length)).sum) ∧
    (recover_build env i
      (finish_spilling env i (spill_build_batches env i bs s)).2).2.2.spilled_streams i = none ∧
    (recover_build env i
      (finish_spilling env i (spill_build_batches env i bs s)).2).2.2.spilling_task_count
      = (finish_spilling env i (spill_build_batches env i bs s)).2.spilling_task_count ∧
    (recover_build env i
      (finish_spilling env i (spill_build_batches env i bs s)).2).2.2.dependency_blocked
      = false ∧
    (recover_build env i
      (finish_spilling env i (spill_build_batches env i bs s)).2).2.2.spill_status_ok = true := by
  obtain ⟨b1, b2, b3, b4⟩ := spill_build_batches_spec env i henv bs s hok hpool hrows hne
  obtain ⟨f1, f2, f3, f4⟩ := finish_spilling_build env i (spill_build_batches env i bs s)
  have hpool2 : (finish_spilling env i (spill_build_batches env i bs s)).2.thread_pool = [] :=
    (congrArg (fun v => v.2.2) f4).trans b2
  have hrows2 : build_rows (finish_spilling env i (spill_build_batches env i bs s)).2 i = [] := by
    unfold build_rows
    rw [f2]
    exact b4
  rw [b3, hstream] at f1
  obtain ⟨r1, r2, r3, r4, r5, r6, _, r8⟩ := recover_build_spec env i
    (finish_spilling env i (spill_build_batches env i bs s)).2 _ henv.2.2.2.1
    henv.2.2.2.2.2.1 henv.2.2.2.2.2.2 f1 hpool2
  have hall : build_rows (recover_build env i
      (finish_spilling env i (spill_build_batches env i bs s)).2).2.2 i
      = bs.flatMap Block.rows := by
    rw [r3, hrows2]
    simp [stream_with, SpillStream.new]
  have hnonempty : bs.flatMap Block.rows ≠ [] := by
    cases bs with
    | nil => exact absurd rfl hne
    | cons b rest =>
      intro h
      have hb : b.rows = [] := by
        simp [List.flatMap] at h
        exact h.1
      exact hrows b (List.mem_cons_self _ _) hb
  refine ⟨r1, r2, ?_, r4, r5, r6, r8.trans (f3.trans b1)⟩
  unfold build_rows at hall
  cases hacc : (recover_build env i
      (finish_spilling env i (spill_build_batches env i bs s)).2).2.2.partitioned_build_blocks i with
  | none =>
    rw [hacc] at hall
    exact absurd hall.symm hnonempty
  | some mb =>
    rw [hacc] at hall
    have hmb : mb.rows = bs.flatMap Block.rows := hall
    refine ⟨mb, rfl, hmb, ?_⟩
    rw [hmb]
    simp [List.flatMap, List.length_flatten, Function.comp_def]

/-- Scenario C on the build side: batches of 10, 5 and 7 rows spilled to partition 1 are
recovered into one build batch of 22 rows. -/
theorem build_round_trip_witness :
    ∃ mb, (recover_build ok_env 1 (finish_spilling ok_env 1
        (spill_build_batches ok_env 1 scenario_c_batches empty_state)).2).2.2.partitioned_build_blocks 1
        = some mb ∧ mb.rows = List.range 22 ∧ mb.rows.length = 22 := by
  obtain ⟨_, _, ⟨mb, h1, h2, h3⟩, _⟩ := build_round_trip ok_env 1 scenario_c_batches empty_state
    (by simp [build_side_ok, ok_env]) rfl rfl rfl (by decide) (by decide)
  exact ⟨mb, h1, h2.trans (by decide), h3.trans (by decide)⟩

/-! ### Recovery of the probe batches of one partition -/

theorem recover_probe_call (env : Env) (i : Nat) (s : LocalState) (st : SpillStream)
    (hsubmit : env.submit_func (Task.recovery_probe i) = Status.OK)
    (hst : s.probe_spilling_streams i = some st) (hpool : s.thread_pool = []) :
    recovery_probe_blocks_from_disk env i s
      = (Status.OK, true,
          { (inc_task_count (block (s.log (Call.recovery_probe_blocks_from_disk i)))).log
              (Call.submit_func (Task.recovery_probe i)) with
            thread_pool := [Task.recovery_probe i] }) := by
  have h0 : (s.log (Call.recovery_probe_blocks_from_disk i)).probe_spilling_streams i
      = some st := hst
  unfold recovery_probe_blocks_from_disk
  simp only [h0, submit_func, hsubmit]
  simp [inc_task_count, block, LocalState.log, hpool]

/-- One completed invocation of the probe recovery on a partition with a probe spill
stream, the task accepted and the read succeeding: `has_data` is reported; a block read is
appended to the queue and the stream stays; at the end of the stream an entry without rows
is appended and the stream handle is reset. -/
theorem recover_probe_spec (env : Env) (i : Nat) (s : LocalState) (st : SpillStream)
    (hsubmit : env.submit_func (Task.recovery_probe i) = Status.OK)
    (hread : env.read_status Side.probe i st.read_index = Status.OK)
    (hst : s.probe_spilling_streams i = some st) (hpool : s.thread_pool = []) :
    (recover_probe env i s).1 = Status.OK ∧ (recover_probe env i s).2.1 = true ∧
    (recover_probe env i s).2.2.probe_blocks i
      = s.probe_blocks i ++ [(st.blocks.get? st.read_index).getD Block.new] ∧
    (recover_probe env i s).2.2.probe_spilling_streams i
      = (st.blocks.get? st.read_index).map
          (fun _ => { st with read_index := st.read_index + 1 }) ∧
    (recover_probe env i s).2.2.thread_pool = [] ∧
    (recover_probe env i s).2.2.spilling_task_count = s.spilling_task_count ∧
    (recover_probe env i s).2.2.dependency_blocked = false ∧
    (recover_probe env i s).2.2.spill_status_ok = s.spill_status_ok := by
  unfold recover_probe
  rw [recover_probe_call env i s st hsubmit hst hpool]
  simp only [run_pool, List.foldl_cons, List.foldl_nil, run_task]
  generalize hs3 : ({ ({ (inc_task_count (block (s.log
      (Call.recovery_probe_blocks_from_disk i)))).log
      (Call.submit_func (Task.recovery_probe i)) with
      thread_pool := [Task.recovery_probe i] } : LocalState) with
      thread_pool := [] } : LocalState) = s3
  have k1 : s3.probe_spilling_streams i = some st := by rw [← hs3]; exact hst
  have k2 : s3.probe_blocks = s.probe_blocks := by rw [← hs3]; rfl
  have k3 : s3.spilling_task_count = s.spilling_task_count + 1 := by rw [← hs3]; rfl
  have k4 : s3.thread_pool = [] := by rw [← hs3]
  have k5 : s3.spill_status_ok = s.spill_status_ok := by rw [← hs3]; rfl
  unfold recovery_probe_task
  simp only [k1]
  cases hb : st.blocks.get? st.read_index with
  | none =>
    rw [read_next_block_sync_none env Side.probe i st hread hb]
    simp [set_probe_blocks, setAt, set_stream, set_ready, dec_task_count, LocalState.log,
      k2, k3, k4, k5]
  | some b =>
    rw [read_next_block_sync_some env Side.probe i st b hread hb]
    simp [set_probe_blocks, setAt, set_stream, set_ready, dec_task_count, LocalState.log,
      k2, k3, k4, k5]

theorem recover_probe_times_succ (env : Env) (i : Nat) :
    ∀ (n : Nat) (s : LocalState),
      recover_probe_times env i (n + 1) s
        = (recover_probe env i (recover_probe_times env i n s)).2.2 := by
  intro n
  induction n with
  | zero => intro s; rfl
  | succ n ih =>
    intro s
    show recover_probe_times env i (n + 1) (recover_probe env i s).2.2 = _
    rw [ih]
    rfl

/-- Completed invocations of the probe recovery, as many as there are unread blocks at
most: each appends the next unread block to the queue and leaves the stream in place. -/
theorem recover_probe_times_spec (env : Env) (i : Nat)
    (hsubmit : env.submit_func (Task.recovery_probe i) = Status.OK)
    (hread : ∀ n, env.read_status Side.probe i n = Status.OK) :
    ∀ (n : Nat) (s : LocalState) (st : SpillStream), s.probe_spilling_streams i = some st →
      s.thread_pool = [] → st.read_index + n ≤ st.blocks.length →
      (recover_probe_times env i n s).probe_blocks i
        = s.probe_blocks i ++ (st.blocks.drop st.read_index).take n ∧
      (recover_probe_times env i n s).probe_spilling_streams i
        = some { st with read_index := st.read_index + n } ∧
      (recover_probe_times env i n s).thread_pool = [] ∧
      (recover_probe_times env i n s).spilling_task_count = s.spilling_task_count ∧
      (recover_probe_times env i n s).spill_status_ok = s.spill_status_ok := by
  intro n
  induction n with
  | zero =>
    intro s st hst hpool _
    exact ⟨by simp [recover_probe_times], hst, hpool, rfl, rfl⟩
  | succ n ih =>
    intro s st hst hpool hlen
    have hlt : st.read_index < st.blocks.length := by omega
    have hb : st.blocks.get? st.read_index = some (st.blocks.get ⟨st.read_index, hlt⟩) :=
      List.get?_eq_get hlt
    obtain ⟨_, hdrop⟩ := drop_of_get_some _ _ _ hb
    obtain ⟨_, _, r3, r4, r5, r6, _, r8⟩ := recover_probe_spec env i s st hsubmit (hread _)
      hst hpool
    rw [hb] at r3 r4
    obtain ⟨g1, g2, g3, g4, g5⟩ := ih (recover_probe env i s).2.2
      { st with read_index := st.read_index + 1 } r4 r5
      (by show st.read_index + 1 + n ≤ st.blocks.length; omega)
    show (recover_probe_times env i n (recover_probe env i s).2.2).probe_blocks i = _ ∧
      (recover_probe_times env i n (recover_probe env i s).2.2).probe_spilling_streams i = _ ∧
      (recover_probe_times env i n (recover_probe env i s).2.2).thread_pool = [] ∧
      (recover_probe_times env i n (recover_probe env i s).2.2).spilling_task_count = _ ∧
      (recover_probe_times env i n (recover_probe env i s).2.2).spill_status_ok = _
    refine ⟨?_, ?_, g3, g4.trans r6, g5.trans r8⟩
    · rw [g1, r3, hdrop]
      simp only [Option.getD_some, List.take_succ_cons, List.append_assoc,
        List.singleton_append]
    · rw [g2]
      simp only [Option.some.injEq, SpillStream.mk.injEq, true_and, and_true]
      omega

/-- Claim C13, the claim as stated fails: in Scenario C, after three completed invocations
have put the batches of 10, 5 and 7 rows in the queue of partition 1, the fourth invocation
still finds the probe spill stream: it reports `has_data = true`, its read reports the end
of the stream, and the queue has a fourth entry, without rows. -/
theorem probe_recovery_fourth_call_has_data :
    (recover_probe_times ok_env 1 3 scenario_c_probe_state).probe_blocks 1
      = scenario_c_batches ∧
    (recover_probe_times ok_env 1 3 scenario_c_probe_state).probe_spilling_streams 1 ≠ none ∧
    (recover_probe ok_env 1 (recover_probe_times ok_env 1 3 scenario_c_probe_state)).2.1
      = true ∧
    (recover_probe ok_env 1
      (recover_probe_times ok_env 1 3 scenario_c_probe_state)).2.2.probe_blocks 1
      = scenario_c_batches ++ [Block.new] ∧
    (recover_probe ok_env 1
      (recover_probe_times ok_env 1 3 scenario_c_probe_state)).2.2.probe_spilling_streams 1
      = none := by
  refine ⟨by decide, by decide, by decide, by decide, by decide⟩

/-- Claim C13, amended: incremental probe recovery. A partition has a probe spill stream
with `k` unread blocks; the recovery tasks are accepted and the reads succeed. Each of the
first `k` completed invocations of `recovery_probe_blocks_from_disk` reports `has_data`,
reads one block and appends it to the queue, so that after `n ≤ k` invocations the queue has
gained the first `n` unread blocks, in order, and the stream is still there. The invocation
`k + 1` reports `has_data` as well: its read reports the end of the stream, an entry without
rows is appended and the stream handle is reset. The invocation `k + 2` reports
`has_data = false`; without a probe spill stream the call returns OK with
`has_data = false` at once and changes only the log of calls. -/
theorem probe_recovery_incremental (env : Env) (i : Nat) (s : LocalState) (st : SpillStream)
    (hsubmit : env.submit_func (Task.recovery_probe i) = Status.OK)
    (hread : ∀ n, env.read_status Side.probe i n = Status.OK)
    (hst : s.probe_spilling_streams i = some st) (hpool : s.thread_pool = [])
    (hidx : st.read_index ≤ st.blocks.length) :
    (∀ n, n ≤ st.blocks.length - st.read_index →
      (recover_probe_times env i n s).probe_blocks i
        = s.probe_blocks i ++ (st.blocks.drop st.read_index).take n ∧
      (recover_probe_times env i n s).probe_spilling_streams i
        = some { st with read_index := st.read_index + n } ∧
      (recover_probe env i (recover_probe_times env i n s)).1 = Status.OK ∧
      (recover_probe env i (recover_probe_times env i n s)).2.1 = true) ∧
    (recover_probe_times env i (st.blocks.length - st.read_index + 1) s).probe_blocks i
      = s.probe_blocks i ++ st.blocks.drop st.read_index ++ [Block.new] ∧
    (recover_probe_times env i
      (st.blocks.length - st.read_index + 1) s).probe_spilling_streams i = none ∧
    (recover_probe env i
      (recover_probe_times env i (st.blocks.length - st.read_index + 1) s)).2.1 = false ∧
    (∀ s0 : LocalState, s0.probe_spilling_streams i = none →
      recovery_probe_blocks_from_disk env i s0
        = (Status.OK, false, s0.log (Call.recovery_probe_blocks_from_disk i))) := by
  have hn : ∀ n, n ≤ st.blocks.length - st.read_index →
      (recover_probe_times env i n s).probe_blocks i
        = s.probe_blocks i ++ (st.blocks.drop st.read_index).take n ∧
      (recover_probe_times env i n s).probe_spilling_streams i
        = some { st with read_index := st.read_index + n } ∧
      (recover_probe_times env i n s).thread_pool = [] := by
    intro n hle
    obtain ⟨g1, g2, g3, _, _⟩ := recover_probe_times_spec env i hsubmit hread n s st hst hpool
      (by omega)
    exact ⟨g1, g2, g3⟩
  obtain ⟨k1, k2, k3⟩ := hn (st.blocks.length - st.read_index) (Nat.le_refl _)
  have hnone : ({ st with read_index := st.read_index
      + (st.blocks.length - st.read_index) } : SpillStream).blocks.get?
      ({ st with read_index := st.read_index
        + (st.blocks.length - st.read_index) } : SpillStream).read_index = none := by
    apply List.get?_eq_none.mpr
    show st.blocks.length ≤ st.read_index + (st.blocks.length - st.read_index)
    omega
  obtain ⟨_, _, e3, e4, _, _, _, _⟩ := recover_probe_spec env i
    (recover_probe_times env i (st.blocks.length - st.read_index) s) _ hsubmit (hread _) k2 k3
  rw [hnone] at e3 e4
  refine ⟨?_, ?_, ?_, ?_, fun s0 h0 => recovery_probe_blocks_from_disk_none env i s0 h0⟩
  · intro n hle
    obtain ⟨g1, g2, g3⟩ := hn n hle
    obtain ⟨r1, r2, _⟩ := recover_probe_spec env i (recover_probe_times env i n s) _ hsubmit
      (hread _) g2 g3
    exact ⟨g1, g2, r1, r2⟩
  · rw [recover_probe_times_succ, e3, k1]
    have htake : (st.blocks.drop st.read_index).take (st.blocks.length - st.read_index)
        = st.blocks.drop st.read_index :=
      List.take_of_length_le (by simp)
    rw [htake]
    rfl
  · rw [recover_probe_times_succ, e4]
    rfl
  · have hend : (recover_probe_times env i
        (st.blocks.length - st.read_index + 1) s).probe_spilling_streams i = none := by
      rw [recover_probe_times_succ, e4]
      rfl
    unfold recover_probe
    rw [recovery_probe_blocks_from_disk_none env i _ hend]

/-- Scenario C on the probe side: three completed invocations put the batches of 10, 5 and
7 rows in the queue of partition 1, 22 rows in three entries; the fourth invocation reports
`has_data`, the fifth does not. -/
theorem probe_recovery_incremental_witness :
    (recover_probe_times ok_env 1 3 scenario_c_probe_state).probe_blocks 1
      = scenario_c_batches ∧
    (recover_probe ok_env 1 (recover_probe_times ok_env 1 3 scenario_c_probe_state)).2.1
      = true ∧
    (recover_probe ok_env 1 (recover_probe_times ok_env 1 4 scenario_c_probe_state)).2.1
      = false := by
  obtain ⟨h1, _, _, h4, _⟩ := probe_recovery_incremental ok_env 1 scenario_c_probe_state
    { blocks := scenario_c_batches, read_index := 0, eof := true } rfl (fun _ => rfl) rfl rfl
    (by decide)
  exact ⟨(h1 3 (by decide)).1, (h1 3 (by decide)).2.2.2, h4⟩

/-! ### The spill of an empty queue -/

/-- Claim C14, the code at an empty queue without a stream: partition 1 has no probe batch
queued and no probe spill stream, the counter is 6. `spill_probe_blocks(1)` registers a
probe spill stream before it looks at the queue, so that the partition has a stream after
the call, which returns OK, decrements the counter and submits no task; when the
registration fails the call returns that error and the counter is not decremented. The
sibling `spill_build_block(1)` on an empty accumulator tests the accumulator first and
opens no stream. -/
theorem spill_probe_blocks_opens_stream :
    (with_revoke_counter 4 empty_state).probe_blocks 1 = [] ∧
    (with_revoke_counter 4 empty_state).probe_spilling_streams 1 = none ∧
    (with_revoke_counter 4 empty_state).spilling_task_count = 6 ∧
    (spill_probe_blocks ok_env 1 (with_revoke_counter 4 empty_state)).1 = Status.OK ∧
    (spill_probe_blocks ok_env 1 (with_revoke_counter 4 empty_state)).2.probe_spilling_streams 1
      = some SpillStream.new ∧
    (spill_probe_blocks ok_env 1 (with_revoke_counter 4 empty_state)).2.calls
      = [Call.spill_probe_blocks 1, Call.register_spill_stream Side.probe 1] ∧
    (spill_probe_blocks ok_env 1 (with_revoke_counter 4 empty_state)).2.spilling_task_count
      = 5 ∧
    (spill_probe_blocks ok_env 1 (with_revoke_counter 4 empty_state)).2.thread_pool = [] ∧
    (spill_probe_blocks env_probe_register_fails 1 (with_revoke_counter 4 empty_state)).1
      = Status.Error 7 ∧
    (spill_probe_blocks env_probe_register_fails 1
      (with_revoke_counter 4 empty_state)).2.spilling_task_count = 6 ∧
    (spill_build_block ok_env 1 (with_revoke_counter 4 empty_state)).1 = Status.OK ∧
    (spill_build_block ok_env 1 (with_revoke_counter 4 empty_state)).2.spilled_streams 1
      = none ∧
    (spill_build_block ok_env 1 (with_revoke_counter 4 empty_state)).2.calls
      = [Call.spill_build_block 1] ∧
    (spill_build_block env_register_fails 1 (with_revoke_counter 4 empty_state)).1
      = Status.OK := by
  refine ⟨rfl, rfl, by decide, by decide, by decide, by decide, by decide, by decide,
    by decide, by decide, by decide, by decide, by decide, by decide⟩

/-! ### The set-up of the embedded operators and the recovery of the build rows -/

theorem setup_internal_operators_calls (env : Env) (s : LocalState) :
    ∃ rest, (_setup_internal_operators env s).2.calls
      = s.calls ++ Call.setup_internal_operators s.partition_cursor :: rest := by
  unfold _setup_internal_operators
  simp only []
  cases hst : env.setup_status s.partition_cursor with
  | Error c => exact ⟨[], rfl⟩
  | OK =>
    simp only []
    cases hb : s.partitioned_build_blocks s.partition_cursor with
    | none =>
      simp only [LocalState.log, hb]
      exact ⟨[Call.sink Block.new], by simp⟩
    | some mb =>
      simp only [LocalState.log, hb]
      by_cases hz : mb.rows.length > 0
      · simp only [hz, if_true]
        exact ⟨[Call.sink mb], by simp [set_build_block]⟩
      · simp only [hz, if_false]
        exact ⟨[Call.sink Block.new], by simp⟩

/-- Claim C15, the claim as stated fails: no failure is recorded, no revocation is
triggered, the set-up is due and partition 1, the partition of the cursor, has a build
spill stream; the pool rejects the recovery task and `pull` returns that error, not OK. -/
theorem pull_setup_submit_rejected :
    state_build_pending.spill_status_ok = true ∧
    _should_revoke_memory env_submit_fails 4 state_build_pending = false ∧
    state_build_pending.need_to_setup_internal_operators = true ∧
    state_build_pending.spilled_streams state_build_pending.partition_cursor ≠ none ∧
    (pull env_submit_fails 4 Block.new false state_build_pending).1 = Status.Error 6 := by
  refine ⟨rfl, by decide, rfl, by decide, by decide⟩

/-- Claim C15, amended: the set-up suspends on a pending build recovery. No failure is
recorded, no revocation is triggered and the set-up is due. If the partition of the cursor
has a build spill stream, `pull` calls `recovery_build_blocks_from_disk` for it and returns
the status of the submission of the recovery task, OK when the pool accepts it, with
`*eos = false`: the calls logged are that call and the submission, so the embedded
operators are not set up and no batch is fed; the cursor, the embedded runtime state, the
build accumulators and the queues are unchanged and the set-up is still due; an accepted
task waits in the pool with the counter incremented and the gate blocked. If the partition
has no build spill stream, the same call sets up the embedded operators. -/
theorem pull_setup_suspends (env : Env) (N : Nat) (out : Block) (eos : Bool) (s : LocalState)
    (hok : s.spill_status_ok = true) (hrev : _should_revoke_memory env N s = false)
    (hflag : s.need_to_setup_internal_operators = true) :
    (s.spilled_streams s.partition_cursor ≠ none →
      (pull env N out eos s).1 = env.submit_func (Task.recovery_build s.partition_cursor) ∧
      (pull env N out eos s).2.1 = out ∧
      (pull env N out eos s).2.2.1 = false ∧
      (pull env N out eos s).2.2.2.calls
        = s.calls ++ [Call.recovery_build_blocks_from_disk s.partition_cursor,
            Call.submit_func (Task.recovery_build s.partition_cursor)] ∧
      (pull env N out eos s).2.2.2.partition_cursor = s.partition_cursor ∧
      (pull env N out eos s).2.2.2.need_to_setup_internal_operators = true ∧
      (pull env N out eos s).2.2.2.runtime_state = s.runtime_state ∧
      (pull env N out eos s).2.2.2.partitioned_build_blocks = s.partitioned_build_blocks ∧
      (pull env N out eos s).2.2.2.probe_blocks = s.probe_blocks ∧
      (pull env N out eos s).2.2.2.spilled_streams = s.spilled_streams ∧
      (env.submit_func (Task.recovery_build s.partition_cursor) = Status.OK →
        (pull env N out eos s).2.2.2.thread_pool
          = s.thread_pool ++ [Task.recovery_build s.partition_cursor] ∧
        (pull env N out eos s).2.2.2.spilling_task_count = s.spilling_task_count + 1 ∧
        (pull env N out eos s).2.2.2.dependency_blocked = true)) ∧
    (s.spilled_streams s.partition_cursor = none →
      ∃ rest, (pull env N out eos s).2.2.2.calls
        = s.calls ++ [Call.recovery_build_blocks_from_disk s.partition_cursor,
            Call.setup_internal_operators s.partition_cursor] ++ rest) := by
  have hp : pull env N out eos s = pull_setup env N out eos s := by
    simp [pull, hok, hrev]
  rw [hp]
  constructor
  · intro hst
    cases hs : s.spilled_streams s.partition_cursor with
    | none => exact absurd hs hst
    | some st =>
      cases hsub : env.submit_func (Task.recovery_build s.partition_cursor) <;>
        simp [pull_setup, hflag, recovery_build_blocks_from_disk, LocalState.log, hs,
          submit_func, hsub, dec_task_count, inc_task_count, block]
  · intro hs
    have hrec : recovery_build_blocks_from_disk env s.partition_cursor s
        = (Status.OK, false, s.log (Call.recovery_build_blocks_from_disk s.partition_cursor)) := by
      simp [recovery_build_blocks_from_disk, LocalState.log, hs]
    obtain ⟨rest, hrest⟩ := setup_internal_operators_calls env
      (s.log (Call.recovery_build_blocks_from_disk s.partition_cursor))
    unfold pull_setup
    simp only [hflag, if_true, hrec]
    cases hset : _setup_internal_operators env
        (s.log (Call.recovery_build_blocks_from_disk s.partition_cursor)) with
    | mk st2 s2 =>
      rw [hset] at hrest
      have hrest2 : s2.calls = s.calls ++ [Call.recovery_build_blocks_from_disk s.partition_cursor,
          Call.setup_internal_operators s.partition_cursor] ++ rest := by
        rw [hrest]
        simp [LocalState.log]
      cases st2 with
      | Error c => exact ⟨rest, hrest2⟩
      | OK =>
        simp only []
        obtain ⟨new, hnew, _⟩ := pull_join_spec env N out false
          { s2 with need_to_setup_internal_operators := false }
        refine ⟨rest ++ new, ?_⟩
        rw [hnew]
        show s2.calls ++ new = _
        rw [hrest2]
        simp

/-- The set-up suspends in the environment in which every collaborator succeeds: partition
1, the partition of the cursor, has a build spill stream, and `pull` returns OK with
`*eos = false` after the call of the recovery and the submission of its task. -/
theorem pull_setup_suspends_witness :
    (pull ok_env 4 Block.new true state_build_pending).1 = Status.OK ∧
    (pull ok_env 4 Block.new true state_build_pending).2.2.1 = false ∧
    (pull ok_env 4 Block.new true state_build_pending).2.2.2.calls
      = [Call.recovery_build_blocks_from_disk 1, Call.submit_func (Task.recovery_build 1)] ∧
    (pull ok_env 4 Block.new true state_build_pending).2.2.2.need_to_setup_internal_operators
      = true := by
  have h := (pull_setup_suspends ok_env 4 Block.new true state_build_pending rfl
    (by decide) rfl).1 (by decide)
  exact ⟨h.1, h.2.2.1, h.2.2.2.1, h.2.2.2.2.2.1⟩

/-! ### What a revocation frees -/

theorem data_view_frame : SpillFrame data_view (fun _ => True) where
  log := fun _ _ => rfl
  stream := by
    intro s side j st _
    cases side <;> rfl
  pool := fun _ _ => rfl
  count := fun _ _ => rfl
  gate := fun _ _ => rfl

theorem task_end_data (s : LocalState) :
    data_view (ready_if_zero (dec_task_count s)) = data_view s ∧
    (ready_if_zero (dec_task_count s)).thread_pool = s.thread_pool := by
  unfold ready_if_zero
  split <;> exact ⟨rfl, rfl⟩

theorem spill_block_data (env : Env) (side : Side) (i : Nat) (b : Block) (s : LocalState) :
    data_view (spill_block env side i b s).2 = data_view s ∧
    (spill_block env side i b s).2.thread_pool = s.thread_pool := by
  unfold spill_block
  split
  · cases side <;> exact ⟨rfl, rfl⟩
  · exact ⟨rfl, rfl⟩

theorem open_spill_stream_pool (env : Env) (henv : spills_accepted env) (side : Side) (i : Nat)
    (s : LocalState) :
    (open_spill_stream env side i s).1 = Status.OK ∧
    (open_spill_stream env side i s).2.thread_pool = s.thread_pool ∧
    (open_spill_stream env side i s).2.probe_blocks = s.probe_blocks := by
  obtain ⟨hreg, hprep, _⟩ := henv
  unfold open_spill_stream
  cases hs : streams s side i with
  | none =>
    simp only [hreg, hprep]
    cases side <;> exact ⟨trivial, rfl, rfl⟩
  | some st => exact ⟨rfl, rfl, rfl⟩

theorem submit_func_value (env : Env) (t : Task) (s : LocalState)
    (h : env.submit_func t = Status.OK) :
    submit_func env t s
      = (Status.OK, { s.log (Call.submit_func t) with thread_pool := s.thread_pool ++ [t] }) := by
  simp only [submit_func, h]

/-- The call `spill_build_block(i)` when the stream is opened and the task accepted: it
returns OK, and either the accumulator has no rows and no task is submitted, or the task of
the partition waits in the pool. -/
theorem spill_build_block_pool (env : Env) (henv : spills_accepted env) (i : Nat)
    (s : LocalState) :
    (spill_build_block env i s).1 = Status.OK ∧
    ((build_rows s i = [] ∧ (spill_build_block env i s).2.thread_pool = s.thread_pool) ∨
      (spill_build_block env i s).2.thread_pool = s.thread_pool ++ [Task.spill_build i]) := by
  by_cases he : build_block_empty (s.log (Call.spill_build_block i)) i = true
  · have hval : spill_build_block env i s
        = (Status.OK, dec_task_count (s.log (Call.spill_build_block i))) := by
      unfold spill_build_block
      simp only [he, if_true]
    rw [hval]
    refine ⟨rfl, Or.inl ⟨?_, rfl⟩⟩
    unfold build_block_empty at he
    unfold build_rows
    have hlog : (s.log (Call.spill_build_block i)).partitioned_build_blocks i
        = s.partitioned_build_blocks i := rfl
    rw [hlog] at he
    cases hb : s.partitioned_build_blocks i with
    | none => rfl
    | some mb =>
      rw [hb] at he
      simp only [decide_eq_true_eq] at he
      exact List.length_eq_zero.mp he
  · obtain ⟨h1, h3, _⟩ := open_spill_stream_pool env henv Side.build i
      (s.log (Call.spill_build_block i))
    cases hres : open_spill_stream env Side.build i (s.log (Call.spill_build_block i)) with
    | mk st s1 =>
      rw [hres] at h1 h3
      have h1s : st = Status.OK := h1
      have h3s : s1.thread_pool = s.thread_pool := h3
      subst h1s
      have hval : spill_build_block env i s = submit_func env (Task.spill_build i) s1 := by
        unfold spill_build_block
        simp only [he, Bool.false_eq_true, if_false, hres]
      rw [hval, submit_func_value env _ s1 (henv.2.2 _)]
      exact ⟨rfl, Or.inr (by show s1.thread_pool ++ [Task.spill_build i] = _; rw [h3s])⟩

/-- The call `spill_probe_blocks(i)` when the stream is opened and the task accepted: it
returns OK, and either the queue is empty and no task is submitted, or the task of the
partition waits in the pool. -/
theorem spill_probe_blocks_pool (env : Env) (henv : spills_accepted env) (i : Nat)
    (s : LocalState) :
    (spill_probe_blocks env i s).1 = Status.OK ∧
    ((s.probe_blocks i = [] ∧ (spill_probe_blocks env i s).2.thread_pool = s.thread_pool) ∨
      (spill_probe_blocks env i s).2.thread_pool = s.thread_pool ++ [Task.spill_probe i]) := by
  obtain ⟨h1, h3, h2⟩ := open_spill_stream_pool env henv Side.probe i
    (s.log (Call.spill_probe_blocks i))
  cases hres : open_spill_stream env Side.probe i (s.log (Call.spill_probe_blocks i)) with
  | mk st s1 =>
    rw [hres] at h1 h3 h2
    have h1s : st = Status.OK := h1
    have h3s : s1.thread_pool = s.thread_pool := h3
    have h2s : s1.probe_blocks = s.probe_blocks := h2
    subst h1s
    by_cases hq : (s1.probe_blocks i).length ≠ 0
    · have hval : spill_probe_blocks env i s = submit_func env (Task.spill_probe i) s1 := by
        unfold spill_probe_blocks
        simp only [hres]
        exact if_pos hq
      rw [hval, submit_func_value env _ s1 (henv.2.2 _)]
      exact ⟨rfl, Or.inr (by show s1.thread_pool ++ [Task.spill_probe i] = _; rw [h3s])⟩
    · have hval : spill_probe_blocks env i s
          = (Status.OK, ready_if_zero (dec_task_count s1)) := by
        unfold spill_probe_blocks
        simp only [hres]
        exact if_neg hq
      rw [hval]
      have hnil : s.probe_blocks i = [] := by
        rw [← h2s]
        exact List.length_eq_zero.mp (not_not.mp hq)
      exact ⟨rfl, Or.inl ⟨hnil, (task_end_data s1).2.trans h3s⟩⟩

theorem spill_block_result (env : Env) (side : Side) (i : Nat) (b : Block) (s : LocalState) :
    (spill_block env side i b s).1 = env.spill_block side i b := by
  unfold spill_block
  split
  · rename_i h; rw [h]
  · rename_i c h; rw [h]

theorem spill_probe_loop_data (env : Env) (i : Nat)
    (hwrite : ∀ b, env.spill_block Side.probe i b = Status.OK) :
    ∀ (bs : List Block) (s : LocalState), s.spill_status_ok = true →
      data_view (spill_probe_loop env i bs s) = data_view s ∧
      (spill_probe_loop env i bs s).thread_pool = s.thread_pool := by
  intro bs
  induction bs with
  | nil => intro s _; exact ⟨rfl, rfl⟩
  | cons b rest ih =>
    intro s hok
    have hst := spill_block_result env Side.probe i b s
    obtain ⟨hd, hp⟩ := spill_block_data env Side.probe i b s
    rw [hwrite] at hst
    cases hres : spill_block env Side.probe i b s with
    | mk st s1 =>
      rw [hres] at hst hd hp
      have hst1 : st = Status.OK := hst
      have hd1 : data_view s1 = data_view s := hd
      have hp1 : s1.thread_pool = s.thread_pool := hp
      subst hst1
      have hok1 : s1.spill_status_ok = true := by
        have := congrArg (fun v => v.1) hd1
        exact this.trans hok
      have hval : spill_probe_loop env i (b :: rest) s = spill_probe_loop env i rest s1 := by
        simp only [spill_probe_loop, hok, if_true, hres]
      rw [hval]
      obtain ⟨g1, g2⟩ := ih s1 hok1
      exact ⟨g1.trans hd1, g2.trans hp1⟩

/-- The task of `spill_build_block(i)` with no failure recorded and a write that succeeds:
the rows of the accumulator of partition `i` are moved out, and nothing else of the data
changes. -/
theorem spill_build_task_data (env : Env) (i : Nat) (s : LocalState)
    (hwrite : ∀ b, env.spill_block Side.build i b = Status.OK)
    (hok : s.spill_status_ok = true) :
    data_view (run_task env (Task.spill_build i) s)
      = (true, s.partition_cursor, s.partitioned_blocks,
          setAt s.partitioned_build_blocks i ((s.partitioned_build_blocks i).map Block.moved_out),
          s.probe_blocks) ∧
    (run_task env (Task.spill_build i) s).thread_pool = s.thread_pool := by
  have hst := spill_block_result env Side.build i ((s.partitioned_build_blocks i).getD Block.new)
    (set_build_block s i ((s.partitioned_build_blocks i).map Block.moved_out))
  obtain ⟨hd, hp⟩ := spill_block_data env Side.build i
    ((s.partitioned_build_blocks i).getD Block.new)
    (set_build_block s i ((s.partitioned_build_blocks i).map Block.moved_out))
  rw [hwrite] at hst
  cases hres : spill_block env Side.build i ((s.partitioned_build_blocks i).getD Block.new)
      (set_build_block s i ((s.partitioned_build_blocks i).map Block.moved_out)) with
  | mk st s1 =>
    rw [hres] at hst hd hp
    have hst1 : st = Status.OK := hst
    have hd1 : data_view s1
        = data_view (set_build_block s i ((s.partitioned_build_blocks i).map Block.moved_out)) :=
      hd
    have hp1 : s1.thread_pool = s.thread_pool := hp
    subst hst1
    have hval : run_task env (Task.spill_build i) s = ready_if_zero (dec_task_count s1) := by
      simp only [run_task, spill_build_task, hok, if_true, hres]
    rw [hval, (task_end_data s1).1, (task_end_data s1).2, hd1]
    refine ⟨?_, hp1⟩
    simp only [data_view, set_build_block, hok]

/-- The task of `spill_probe_blocks(i)` with no failure recorded and writes that succeed:
the queue of partition `i` is cleared, and nothing else of the data changes. -/
theorem spill_probe_task_data (env : Env) (i : Nat) (s : LocalState)
    (hwrite : ∀ b, env.spill_block Side.probe i b = Status.OK)
    (hok : s.spill_status_ok = true) :
    data_view (run_task env (Task.spill_probe i) s)
      = (true, s.partition_cursor, s.partitioned_blocks, s.partitioned_build_blocks,
          setAt s.probe_blocks i []) ∧
    (run_task env (Task.spill_probe i) s).thread_pool = s.thread_pool := by
  obtain ⟨hd, hp⟩ := spill_probe_loop_data env i hwrite (s.probe_blocks i) s hok
  have hval : run_task env (Task.spill_probe i) s
      = ready_if_zero (dec_task_count
          (set_probe_blocks (spill_probe_loop env i (s.probe_blocks i) s) i [])) := rfl
  rw [hval, (task_end_data _).1, (task_end_data _).2]
  refine ⟨?_, hp⟩
  simp only [data_view, Prod.mk.injEq] at hd
  obtain ⟨d1, d2, d3, d4, d5⟩ := hd
  simp only [data_view, set_probe_blocks, d1, d2, d3, d4, d5, hok]

theorem mem_eraseIdx_of_ne {α : Type} (l : List α) (k : Nat) (t u : α) (ht : t ∈ l)
    (hk : l[k]? = some u) (hne : u ≠ t) : t ∈ l.eraseIdx k := by
  obtain ⟨n, hn⟩ := List.mem_iff_getElem?.mp ht
  rw [List.mem_eraseIdx_iff_getElem?]
  refine ⟨n, ?_, hn⟩
  intro h
  subst h
  rw [hk] at hn
  exact hne (Option.some.inj hn)

theorem revoke_wait_pool (s : LocalState) :
    (revoke_wait s).2.2.thread_pool = s.thread_pool := by
  unfold revoke_wait
  split <;> rfl

/-- The invariant of the data after a spill call of the loop that returned OK: the call
left the data alone, and either found nothing to spill or put its task in the pool. -/
theorem revoke_data_after_call (N : Nat) (s : LocalState) (r : RevokeRun) (op : RevokeOp)
    (rest : List RevokeOp) (s1 : LocalState) (hinv : RevokeData N s r)
    (htodo : r.todo = op :: rest) (hd : data_view s1 = data_view r.state)
    (hb : ∀ j, RevokeOp.spill_build_block j = op →
      Task.spill_build j ∈ s1.thread_pool ∨ build_rows r.state j = [])
    (hp : ∀ j, RevokeOp.spill_probe_blocks j = op →
      Task.spill_probe j ∈ s1.thread_pool ∨ r.state.probe_blocks j = [])
    (hsub : ∀ t ∈ r.state.thread_pool, t ∈ s1.thread_pool)
    (hnew : ∀ t ∈ s1.thread_pool, t ∈ r.state.thread_pool ∨
      ∃ i, (s.partition_cursor < i ∧ i < N) ∧ (t = Task.spill_build i ∨ t = Task.spill_probe i)) :
    RevokeData N s { r with state := s1, todo := rest } := by
  obtain ⟨h1, h2, h3, h4, h5, h6, h7, h8⟩ := hinv
  simp only [data_view, Prod.mk.injEq] at hd
  obtain ⟨d1, d2, d3, d4, d5⟩ := hd
  refine ⟨d1.trans h1, d2.trans h2, d3.trans h3, ?_, ?_, ?_, ?_, ?_⟩
  · intro i hi
    show s1.partitioned_build_blocks i = _ ∧ s1.probe_blocks i = _
    rw [d4, d5]
    exact h4 i hi
  · intro j hj1 hj2
    show RevokeOp.spill_build_block j ∈ rest ∨ Task.spill_build j ∈ s1.thread_pool ∨
      build_rows s1 j = []
    have hrows : build_rows s1 j = build_rows r.state j := by
      unfold build_rows
      rw [d4]
    rcases h5 j hj1 hj2 with h | h | h
    · rw [htodo] at h
      rcases List.mem_cons.mp h with heq | hin
      · rcases hb j heq with hb1 | hb1
        · exact Or.inr (Or.inl hb1)
        · exact Or.inr (Or.inr (hrows.trans hb1))
      · exact Or.inl hin
    · exact Or.inr (Or.inl (hsub _ h))
    · exact Or.inr (Or.inr (hrows.trans h))
  · intro j hj1 hj2
    show RevokeOp.spill_probe_blocks j ∈ rest ∨ Task.spill_probe j ∈ s1.thread_pool ∨
      s1.probe_blocks j = []
    rcases h6 j hj1 hj2 with h | h | h
    · rw [htodo] at h
      rcases List.mem_cons.mp h with heq | hin
      · rcases hp j heq with hp1 | hp1
        · exact Or.inr (Or.inl hp1)
        · exact Or.inr (Or.inr (by rw [d5]; exact hp1))
      · exact Or.inl hin
    · exact Or.inr (Or.inl (hsub _ h))
    · exact Or.inr (Or.inr (by rw [d5]; exact h))
  · intro op1 hop
    exact h7 op1 (by rw [htodo]; exact List.mem_cons_of_mem _ hop)
  · intro t ht
    rcases hnew t ht with h | h
    · exact h8 t h
    · exact h

theorem revoke_data_thread_step (env : Env) (henv : spills_accepted env) (N : Nat)
    (s : LocalState) (r r1 : RevokeRun) (hinv : RevokeData N s r)
    (hstep : thread_step env r = some r1) : RevokeData N s r1 := by
  unfold thread_step at hstep
  cases hr : r.returned with
  | true => simp [hr] at hstep
  | false =>
    simp only [hr, Bool.false_eq_true, if_false] at hstep
    cases htodo : r.todo with
    | nil =>
      simp only [htodo, Option.some.injEq] at hstep
      subst hstep
      obtain ⟨h1, h2, h3, h4, h5, h6, h7, h8⟩ := hinv
      have hd := revoke_wait_frame data_view_frame r.state
      have hpool := revoke_wait_pool r.state
      simp only [data_view, Prod.mk.injEq] at hd
      obtain ⟨d1, d2, d3, d4, d5⟩ := hd
      have hrows : ∀ j, build_rows (revoke_wait r.state).2.2 j = build_rows r.state j := by
        intro j
        unfold build_rows
        rw [d4]
      refine ⟨d1.trans h1, d2.trans h2, d3.trans h3, ?_, ?_, ?_, ?_, ?_⟩
      · intro i hi
        show (revoke_wait r.state).2.2.partitioned_build_blocks i = _ ∧
          (revoke_wait r.state).2.2.probe_blocks i = _
        rw [d4, d5]
        exact h4 i hi
      · intro j hj1 hj2
        show RevokeOp.spill_build_block j ∈ [] ∨
          Task.spill_build j ∈ (revoke_wait r.state).2.2.thread_pool ∨
          build_rows (revoke_wait r.state).2.2 j = []
        rw [hpool, hrows]
        rcases h5 j hj1 hj2 with h | h | h
        · rw [htodo] at h; cases h
        · exact Or.inr (Or.inl h)
        · exact Or.inr (Or.inr h)
      · intro j hj1 hj2
        show RevokeOp.spill_probe_blocks j ∈ [] ∨
          Task.spill_probe j ∈ (revoke_wait r.state).2.2.thread_pool ∨
          (revoke_wait r.state).2.2.probe_blocks j = []
        rw [hpool, d5]
        rcases h6 j hj1 hj2 with h | h | h
        · rw [htodo] at h; cases h
        · exact Or.inr (Or.inl h)
        · exact Or.inr (Or.inr h)
      · intro op hop
        cases hop
      · intro t ht
        have ht2 : t ∈ (revoke_wait r.state).2.2.thread_pool := ht
        rw [hpool] at ht2
        exact h8 t ht2
    | cons op rest =>
      obtain ⟨i0, hrange, hop⟩ := hinv.2.2.2.2.2.2.1 op (by rw [htodo]; exact List.mem_cons_self _ _)
      cases op with
      | spill_build_block i =>
        simp only [htodo, Option.some.injEq] at hstep
        have hi : i0 = i := by
          rcases hop with h | h
          · injection h with h; exact h.symm
          · cases h
        subst hi
        obtain ⟨hst, hcase⟩ := spill_build_block_pool env henv i0 r.state
        have hd := spill_build_block_frame data_view_frame env i0 trivial r.state
        cases hres : spill_build_block env i0 r.state with
        | mk st s1 =>
          rw [hres] at hst hcase hd hstep
          have hst1 : st = Status.OK := hst
          subst hst1
          have hr1 : r1 = { r with state := s1, todo := rest } := hstep.symm
          rw [hr1]
          refine revoke_data_after_call N s r _ rest s1 hinv htodo hd ?_ ?_ ?_ ?_
          · intro j hj
            injection hj with hj
            subst hj
            rcases hcase with ⟨hrows, _⟩ | hpool
            · exact Or.inr hrows
            · exact Or.inl (by
                have hp2 : s1.thread_pool = r.state.thread_pool ++ [Task.spill_build j] := hpool
                rw [hp2]; simp)
          · intro j hj
            cases hj
          · intro t ht
            rcases hcase with ⟨_, hpool⟩ | hpool
            · have hp2 : s1.thread_pool = r.state.thread_pool := hpool
              rw [hp2]; exact ht
            · have hp2 : s1.thread_pool = r.state.thread_pool ++ [Task.spill_build i0] := hpool
              rw [hp2]; exact List.mem_append_left _ ht
          · intro t ht
            rcases hcase with ⟨_, hpool⟩ | hpool
            · have hp2 : s1.thread_pool = r.state.thread_pool := hpool
              rw [hp2] at ht; exact Or.inl ht
            · have hp2 : s1.thread_pool = r.state.thread_pool ++ [Task.spill_build i0] := hpool
              rw [hp2] at ht
              rcases List.mem_append.mp ht with h | h
              · exact Or.inl h
              · exact Or.inr ⟨i0, hrange, Or.inl (List.mem_singleton.mp h)⟩
      | spill_probe_blocks i =>
        simp only [htodo, Option.some.injEq] at hstep
        have hi : i0 = i := by
          rcases hop with h | h
          · cases h
          · injection h with h; exact h.symm
        subst hi
        obtain ⟨hst, hcase⟩ := spill_probe_blocks_pool env henv i0 r.state
        have hd := spill_probe_blocks_frame data_view_frame env i0 trivial r.state
        cases hres : spill_probe_blocks env i0 r.state with
        | mk st s1 =>
          rw [hres] at hst hcase hd hstep
          have hst1 : st = Status.OK := hst
          subst hst1
          have hr1 : r1 = { r with state := s1, todo := rest } := hstep.symm
          rw [hr1]
          refine revoke_data_after_call N s r _ rest s1 hinv htodo hd ?_ ?_ ?_ ?_
          · intro j hj
            cases hj
          · intro j hj
            injection hj with hj
            subst hj
            rcases hcase with ⟨hrows, _⟩ | hpool
            · exact Or.inr hrows
            · exact Or.inl (by
                have hp2 : s1.thread_pool = r.state.thread_pool ++ [Task.spill_probe j] := hpool
                rw [hp2]; simp)
          · intro t ht
            rcases hcase with ⟨_, hpool⟩ | hpool
            · have hp2 : s1.thread_pool = r.state.thread_pool := hpool
              rw [hp2]; exact ht
            · have hp2 : s1.thread_pool = r.state.thread_pool ++ [Task.spill_probe i0] := hpool
              rw [hp2]; exact List.mem_append_left _ ht
          · intro t ht
            rcases hcase with ⟨_, hpool⟩ | hpool
            · have hp2 : s1.thread_pool = r.state.thread_pool := hpool
              rw [hp2] at ht; exact Or.inl ht
            · have hp2 : s1.thread_pool = r.state.thread_pool ++ [Task.spill_probe i0] := hpool
              rw [hp2] at ht
              rcases List.mem_append.mp ht with h | h
              · exact Or.inl h
              · exact Or.inr ⟨i0, hrange, Or.inr (List.mem_singleton.mp h)⟩

theorem revoke_data_task_step (env : Env)
    (hwrite : ∀ side i b, env.spill_block side i b = Status.OK) (N : Nat) (s : LocalState)
    (k : Nat) (r r1 : RevokeRun) (hinv : RevokeData N s r)
    (hstep : task_step env k r = some r1) : RevokeData N s r1 := by
  obtain ⟨h1, h2, h3, h4, h5, h6, h7, h8⟩ := hinv
  unfold task_step at hstep
  cases hk : r.state.thread_pool[k]? with
  | none => simp [hk] at hstep
  | some t =>
    simp only [hk, Option.some.injEq] at hstep
    subst hstep
    have hmem : t ∈ r.state.thread_pool := List.getElem?_mem hk
    obtain ⟨i, hrange, ht⟩ := h8 t hmem
    have hok1 : ({ r.state with thread_pool := r.state.thread_pool.eraseIdx k }
        : LocalState).spill_status_ok = true := h1
    rcases ht with ht | ht
    · subst ht
      obtain ⟨hd, hp⟩ := spill_build_task_data env i
        { r.state with thread_pool := r.state.thread_pool.eraseIdx k }
        (hwrite Side.build i) hok1
      simp only [data_view, Prod.mk.injEq] at hd
      obtain ⟨d1, d2, d3, d4, d5⟩ := hd
      refine ⟨d1, d2.trans h2, d3.trans h3, ?_, ?_, ?_, h7, ?_⟩
      · intro j hj
        have hne : j ≠ i := fun h => hj (h ▸ hrange)
        have e4 := congrFun d4 j
        have e5 := congrFun d5 j
        rw [setAt_other _ _ _ _ hne] at e4
        exact ⟨e4.trans (h4 j hj).1, e5.trans (h4 j hj).2⟩
      · intro j hj1 hj2
        have e4 := congrFun d4 j
        by_cases hji : j = i
        · subst hji
          rw [setAt_same] at e4
          refine Or.inr (Or.inr ?_)
          unfold build_rows
          rw [e4]
          cases r.state.partitioned_build_blocks j <;> rfl
        · rw [setAt_other _ _ _ _ hji] at e4
          rcases h5 j hj1 hj2 with h | h | h
          · exact Or.inl h
          · refine Or.inr (Or.inl ?_)
            rw [hp]
            exact mem_eraseIdx_of_ne _ k _ _ h hk
              (fun e => hji (by injection e with e; exact e.symm))
          · refine Or.inr (Or.inr ?_)
            unfold build_rows at h ⊢
            rw [e4]
            exact h
      · intro j hj1 hj2
        have e5 := congrFun d5 j
        rcases h6 j hj1 hj2 with h | h | h
        · exact Or.inl h
        · refine Or.inr (Or.inl ?_)
          rw [hp]
          exact mem_eraseIdx_of_ne _ k _ _ h hk (fun e => by cases e)
        · exact Or.inr (Or.inr (e5.trans h))
      · intro t1 ht1
        rw [hp] at ht1
        exact h8 t1 (List.mem_of_mem_eraseIdx ht1)
    · subst ht
      obtain ⟨hd, hp⟩ := spill_probe_task_data env i
        { r.state with thread_pool := r.state.thread_pool.eraseIdx k }
        (hwrite Side.probe i) hok1
      simp only [data_view, Prod.mk.injEq] at hd
      obtain ⟨d1, d2, d3, d4, d5⟩ := hd
      refine ⟨d1, d2.trans h2, d3.trans h3, ?_, ?_, ?_, h7, ?_⟩
      · intro j hj
        have hne : j ≠ i := fun h => hj (h ▸ hrange)
        have e4 := congrFun d4 j
        have e5 := congrFun d5 j
        rw [setAt_other _ _ _ _ hne] at e5
        exact ⟨e4.trans (h4 j hj).1, e5.trans (h4 j hj).2⟩
      · intro j hj1 hj2
        have e4 := congrFun d4 j
        rcases h5 j hj1 hj2 with h | h | h
        · exact Or.inl h
        · refine Or.inr (Or.inl ?_)
          rw [hp]
          exact mem_eraseIdx_of_ne _ k _ _ h hk (fun e => by cases e)
        · refine Or.inr (Or.inr ?_)
          unfold build_rows at h ⊢
          rw [e4]
          exact h
      · intro j hj1 hj2
        have e5 := congrFun d5 j
        by_cases hji : j = i
        · subst hji
          rw [setAt_same] at e5
          exact Or.inr (Or.inr e5)
        · rw [setAt_other _ _ _ _ hji] at e5
          rcases h6 j hj1 hj2 with h | h | h
          · exact Or.inl h
          · refine Or.inr (Or.inl ?_)
            rw [hp]
            exact mem_eraseIdx_of_ne _ k _ _ h hk
              (fun e => hji (by injection e with e; exact e.symm))
          · exact Or.inr (Or.inr (e5.trans h))
      · intro t1 ht1
        rw [hp] at ht1
        exact h8 t1 (List.mem_of_mem_eraseIdx ht1)

theorem revoke_data_run_events (env : Env) (henv : spills_accepted env)
    (hwrite : ∀ side i b, env.spill_block side i b = Status.OK) (N : Nat) (s : LocalState)
    (events : List Event) :
    ∀ r r1 : RevokeRun, RevokeData N s r → run_events env events r = some r1 →
      RevokeData N s r1 := by
  induction events with
  | nil =>
    intro r r1 hinv h
    simp only [run_events, Option.some.injEq] at h
    subst h
    exact hinv
  | cons e es ih =>
    intro r r1 hinv h
    unfold run_events at h
    cases he : run_event env r e with
    | none => simp [he] at h
    | some r2 =>
      simp only [he] at h
      refine ih r2 r1 ?_ h
      cases e with
      | thread => exact revoke_data_thread_step env henv N s r r2 hinv he
      | task k => exact revoke_data_task_step env hwrite N s k r r2 hinv he

theorem mem_revoke_ops (l : List Nat) (op : RevokeOp) :
    op ∈ revoke_ops l
      ↔ ∃ i ∈ l, op = RevokeOp.spill_build_block i ∨ op = RevokeOp.spill_probe_blocks i := by
  simp [revoke_ops, List.mem_flatMap]

theorem revoke_start_data (N : Nat) (s : LocalState) (hok : s.spill_status_ok = true)
    (hpool : s.thread_pool = []) : RevokeData N s (revoke_start N s) := by
  refine ⟨hok, rfl, rfl, fun _ _ => ⟨rfl, rfl⟩, ?_, ?_, ?_, ?_⟩
  · intro i h1 h2
    refine Or.inl ((mem_revoke_ops _ _).mpr ⟨i, ?_, Or.inl rfl⟩)
    exact (mem_partitions_ahead N s.partition_cursor i).mpr ⟨h1, h2⟩
  · intro i h1 h2
    refine Or.inl ((mem_revoke_ops _ _).mpr ⟨i, ?_, Or.inr rfl⟩)
    exact (mem_partitions_ahead N s.partition_cursor i).mpr ⟨h1, h2⟩
  · intro op hop
    obtain ⟨i, hi, h⟩ := (mem_revoke_ops _ _).mp hop
    exact ⟨i, (mem_partitions_ahead N s.partition_cursor i).mp hi, h⟩
  · intro t ht
    have ht2 : t ∈ s.thread_pool := ht
    rw [hpool] at ht2
    cases ht2

/-- The function `revocable_mem_size` returns 0 when no partition ahead of the cursor has
build rows in its accumulator or a batch in its queue. -/
theorem revocable_mem_size_zero (env : Env) (N : Nat) (s : LocalState)
    (h : ∀ i, s.partition_cursor < i → i < N →
      build_rows s i = [] ∧ s.probe_blocks i = []) :
    revocable_mem_size env N s = 0 := by
  unfold revocable_mem_size
  have hgen : ∀ l : List Nat, (∀ i ∈ l, build_rows s i = [] ∧ s.probe_blocks i = []) →
      l.foldl
        (fun mem_size i =>
          let mem_size :=
            match s.partitioned_build_blocks i with
            | some mb =>
              if mb.rows.length > 0 then mem_size + env.allocated_bytes mb else mem_size
            | none => mem_size
          (s.probe_blocks i).foldl (fun m b => m + env.allocated_bytes b) mem_size)
        0 = 0 := by
    intro l
    induction l with
    | nil => intro _; rfl
    | cons a rest ih =>
      intro hl
      obtain ⟨hb, hq⟩ := hl a (List.mem_cons_self _ _)
      have hstep : (let mem_size :=
            match s.partitioned_build_blocks a with
            | some mb => if mb.rows.length > 0 then 0 + env.allocated_bytes mb else 0
            | none => 0
          (s.probe_blocks a).foldl (fun m b => m + env.allocated_bytes b) mem_size) = 0 := by
        unfold build_rows at hb
        rw [hq]
        cases hacc : s.partitioned_build_blocks a with
        | none => rfl
        | some mb =>
          rw [hacc] at hb
          have hmb : mb.rows = [] := hb
          simp [hmb]
      rw [List.foldl_cons, hstep]
      exact ih (fun i hi => hl i (List.mem_cons_of_mem _ hi))
  exact hgen _ (fun i hi =>
    h i ((mem_partitions_ahead N s.partition_cursor i).mp hi).1
      ((mem_partitions_ahead N s.partition_cursor i).mp hi).2)

/-- Claim C17, the claim as stated fails: in Scenario B no failure is recorded, every task
would be accepted and every write would succeed, but the stream manager refuses to register
a build stream; `_revoke_memory` returns that error from its first spill call, no task is
scheduled, and `revocable_mem_size` still returns the 6 bytes it returned before. -/
theorem revoke_keeps_memory_without_stream :
    scenario_b_state.spill_status_ok = true ∧
    (∀ t, env_register_fails.submit_func t = Status.OK) ∧
    (∀ side i b, env_register_fails.spill_block side i b = Status.OK) ∧
    revocable_mem_size env_register_fails 4 scenario_b_state = 6 ∧
    (_revoke_memory env_register_fails 4 scenario_b_state).1 = Status.Error 5 ∧
    (_revoke_memory env_register_fails 4 scenario_b_state).2.2.thread_pool = [] ∧
    revocable_mem_size env_register_fails 4
      (_revoke_memory env_register_fails 4 scenario_b_state).2.2 = 6 ∧
    (∃ r, run_events env_register_fails [Event.thread] (revoke_start 4 scenario_b_state)
        = some r ∧ r.completed ∧ revocable_mem_size env_register_fails 4 r.state = 6) := by
  refine ⟨rfl, fun _ => rfl, fun _ _ _ => rfl, by decide, by decide, by decide, by decide,
    ⟨_, rfl, ⟨rfl, rfl⟩, by decide⟩⟩

/-- Claim C17, amended: a revocation frees everything it counts. No failure is recorded,
the pool is empty and the gate is ready; every spill stream is opened, every task is
accepted and every write succeeds. For `cursor + 1 < N`, in every order in which the
pipeline thread steps through `_revoke_memory` and the submitted tasks run, once the call
returned and every task ran, the call returned OK and `revocable_mem_size` returns 0: every
build accumulator of a partition ahead of the cursor has no rows and every queue of such a
partition is empty, while the build accumulators and the queues of the other partitions,
the probe accumulators and the cursor are those before the call and no failure is
recorded; every run can be continued to that point. Otherwise `_revoke_memory` returns at
once, and `revocable_mem_size` returns 0 already. -/
theorem revoke_frees_memory (env : Env) (N : Nat) (s : LocalState)
    (henv : spills_accepted env)
    (hwrite : ∀ side i b, env.spill_block side i b = Status.OK)
    (hok : s.spill_status_ok = true) (hpool : s.thread_pool = [])
    (hgate : s.dependency_blocked = false) :
    (s.partition_cursor + 1 < N →
      (∀ events r, run_events env events (revoke_start N s) = some r → r.completed →
        r.status = Status.OK ∧
        revocable_mem_size env N r.state = 0 ∧
        (∀ i, s.partition_cursor < i → i < N →
          build_rows r.state i = [] ∧ r.state.probe_blocks i = []) ∧
        (∀ i, ¬ (s.partition_cursor < i ∧ i < N) →
          r.state.partitioned_build_blocks i = s.partitioned_build_blocks i ∧
          r.state.probe_blocks i = s.probe_blocks i) ∧
        r.state.partitioned_blocks = s.partitioned_blocks ∧
        r.state.partition_cursor = s.partition_cursor ∧
        r.state.spill_status_ok = true) ∧
      (∀ events r, run_events env events (revoke_start N s) = some r →
        ∃ more r1, run_events env more r = some r1 ∧ r1.completed)) ∧
    (¬ (s.partition_cursor + 1 < N) →
      _revoke_memory env N s = (Status.OK, false, s) ∧ revocable_mem_size env N s = 0) := by
  have hinv0 := revoke_start_inv N s hpool hgate
  have hdata0 := revoke_start_data N s hok hpool
  refine ⟨fun _ => ⟨?_, ?_⟩, ?_⟩
  · intro events r hrun hdone
    obtain ⟨_, hret, _, _, hst⟩ := revoke_inv_run_events env henv events _ r hinv0 hrun
    obtain ⟨h1, h2, h3, h4, h5, h6, _, _⟩ :=
      revoke_data_run_events env henv hwrite N s events _ r hdata0 hrun
    have htodo : r.todo = [] := hret hdone.1
    have hfree : ∀ i, s.partition_cursor < i → i < N →
        build_rows r.state i = [] ∧ r.state.probe_blocks i = [] := by
      intro i hi1 hi2
      constructor
      · rcases h5 i hi1 hi2 with h | h | h
        · rw [htodo] at h; cases h
        · rw [hdone.2] at h; cases h
        · exact h
      · rcases h6 i hi1 hi2 with h | h | h
        · rw [htodo] at h; cases h
        · rw [hdone.2] at h; cases h
        · exact h
    refine ⟨hst, ?_, hfree, h4, h3, h2, h1⟩
    exact revocable_mem_size_zero env N r.state (fun i hi1 hi2 => hfree i (h2 ▸ hi1) hi2)
  · intro events r hrun
    have hinv := revoke_inv_run_events env henv events _ r hinv0 hrun
    cases hr : r.returned with
    | false =>
      obtain ⟨ev1, r1, g1, g2⟩ := thread_drains env henv _ r hinv hr rfl
      have hinv1 := revoke_inv_run_events env henv ev1 r r1 hinv g1
      obtain ⟨ev2, r2, g3, g4, g5⟩ := pool_drains env _ r1 hinv1 rfl
      refine ⟨ev1 ++ ev2, r2, ?_, ?_, g4⟩
      · rw [run_events_append, g1]; exact g3
      · rw [g5, g2]
    | true =>
      obtain ⟨ev2, r2, g3, g4, g5⟩ := pool_drains env _ r hinv rfl
      exact ⟨ev2, r2, g3, by rw [g5, hr], g4⟩
  · intro hN
    constructor
    · have hN2 : ¬ (N > s.partition_cursor + 1) := hN
      simp only [_revoke_memory, hN2, if_false]
    · refine revocable_mem_size_zero env N s (fun i h1 h2 => ?_)
      omega

/-- Scenario B: with every collaborator succeeding, the schedule of Scenario B completes
the revocation, and the 6 bytes that `revocable_mem_size` returned before are freed. -/
theorem revoke_frees_memory_witness :
    revocable_mem_size ok_env 4 scenario_b_state = 6 ∧
    ∃ r, run_events ok_env scenario_b_events (revoke_start 4 scenario_b_state) = some r ∧
      r.completed ∧ revocable_mem_size ok_env 4 r.state = 0 := by
  have hsome : (run_events ok_env scenario_b_events (revoke_start 4 scenario_b_state)).isSome
      = true := by decide
  have hrun : run_events ok_env scenario_b_events (revoke_start 4 scenario_b_state)
      = some ((run_events ok_env scenario_b_events (revoke_start 4 scenario_b_state)).get hsome) :=
    (Option.some_get hsome).symm
  have hdone : ((run_events ok_env scenario_b_events
      (revoke_start 4 scenario_b_state)).get hsome).completed := ⟨rfl, rfl⟩
  have h := ((revoke_frees_memory ok_env 4 scenario_b_state
    ⟨fun _ _ => rfl, fun _ _ => rfl, fun _ => rfl⟩ (fun _ _ _ => rfl) rfl rfl rfl).1
    (by decide)).1 scenario_b_events _ hrun hdone
  exact ⟨by decide, _, hrun, hdone, h.2.1⟩

/-! ### The feeding loop of `pull`, exactly -/

end PartitionedHashJoinProbe
